import Mathlib

/-!
# CachedPageReadWriter: a durable LRU page cache with a write-ahead journal

A shallow embedding of `CachedPageReadWriter.cpp`.

* The journal file descriptor is a byte list with a cursor; `lseek`, `::read`
  and `::write` follow POSIX (a seek to a negative offset fails and leaves the
  cursor alone, a write past the end zero-fills the gap, a read returns what is
  available).
* The constants of the absent header (`LOG_ACTION_SIZE`, `LOG_SEEK_DELIM_SIZE`,
  `CHECKPOINT_THRESHOLD`) and `sizeof(size_t)` are parameters (`Header`).
* Undefined behaviour of the C++ (`back()` of an empty list, an index out of
  range, a null dereference, `erase(end())`) is the result `none` of the cache
  operations.
* The two recovery loops take fuel; `none` from them means the fuel ran out.
* Sizes and offsets are natural numbers and integers: the page size, the
  record length and the file length are taken small enough for the `size_t`
  and `off_t` arithmetic of the source not to wrap.
* Memory the source leaves uninitialised (the buffer `recordType`, the local
  `pageNumber`, the buffer of a new `Page`) is taken zero-filled.
-/

namespace TechnosphereDB

/-- A byte string: a list of byte values. -/
abbrev Bytes := List Nat

/-- Constants declared in the absent header `CachedPageReadWriter.h`, and the
platform's `sizeof(size_t)`; they are parameters of the development. -/
structure Header where
  LOG_ACTION_SIZE : Nat
  LOG_SEEK_DELIM_SIZE : Nat
  CHECKPOINT_THRESHOLD : Nat
  SIZEOF_SIZE_T : Nat

/-- Modelled from the spec: the class `GlobalConfiguration`, whose header is
absent, by the two values the cache reads from it (`journalPath()` is
represented by the journal file handed to the constructor). -/
structure GlobalConfiguration where
  pageSize : Nat
  cacheSize : Nat

/-- The `n` bytes of the array `const char a[n] = "lit"`: the literal,
zero-filled up to `n` bytes (C++ wants `n` above the length of the literal). -/
def charArray (lit : Bytes) (n : Nat) : Bytes :=
  (lit ++ List.replicate (n - lit.length) 0).take n

/-- The literal "CHANGE_". -/
def LOG_ACTION_CHANGE (H : Header) : Bytes :=
  charArray [67, 72, 65, 78, 71, 69, 95] H.LOG_ACTION_SIZE

/-- The literal "DB_OPEN". -/
def LOG_ACTION_DB_OPEN (H : Header) : Bytes :=
  charArray [68, 66, 95, 79, 80, 69, 78] H.LOG_ACTION_SIZE

/-- The literal "DBCLOSE". -/
def LOG_ACTION_DB_CLOSE (H : Header) : Bytes :=
  charArray [68, 66, 67, 76, 79, 83, 69] H.LOG_ACTION_SIZE

/-- The literal "CHCKPNT". -/
def LOG_ACTION_CHECKPOINT (H : Header) : Bytes :=
  charArray [67, 72, 67, 75, 80, 78, 84] H.LOG_ACTION_SIZE

/-- The initialiser `{'|'}`: the bar, zero-filled up to the array size. -/
def LOG_SEEK_DELIM (H : Header) : Bytes :=
  charArray [124] H.LOG_SEEK_DELIM_SIZE

/-- The C string held in a buffer: the bytes before the first NUL. -/
def cstr (b : Bytes) : Bytes := b.takeWhile (fun c => c != 0)

/-- The function `strcmp`, of which the source only tests the result against
zero: `0` when the two C strings are equal, `1` otherwise. A buffer without a
NUL counts as the string of all its bytes. -/
def strcmp (a b : Bytes) : Int := if cstr a = cstr b then 0 else 1

/-- The native (little-endian) representation of a `size_t` in `w` bytes. -/
def encodeSizeT : Nat → Nat → Bytes
  | 0, _ => []
  | w + 1, n => (n % 256) :: encodeSizeT w (n / 256)

/-- The `size_t` whose native (little-endian) representation is given. -/
def decodeSizeT : Bytes → Nat
  | [] => 0
  | b :: rest => b + 256 * decodeSizeT rest

/-- The call `memcpy(dst, src, n)`: the first `n` bytes of `dst` are replaced
by those of `src`. -/
def memcpy (dst src : Bytes) (n : Nat) : Bytes := src.take n ++ dst.drop n

/-! ## The journal file descriptor -/

/-- An open file: its content and the cursor of the descriptor. -/
structure Fd where
  bytes : Bytes
  pos : Nat

/-- The call `lseek(fd, off, SEEK_CUR)`; a negative target fails (EINVAL) and
leaves the cursor where it was. -/
def lseekCur (f : Fd) (off : Int) : Fd :=
  if 0 ≤ (f.pos : Int) + off then { f with pos := ((f.pos : Int) + off).toNat } else f

/-- The call `lseek(fd, off, SEEK_END)`. -/
def lseekEnd (f : Fd) (off : Int) : Fd :=
  if 0 ≤ (f.bytes.length : Int) + off then
    { f with pos := ((f.bytes.length : Int) + off).toNat }
  else f

/-- The call `::write(fd, buf, buf.length)` at the cursor: overwrites what is
there, extends the file, and zero-fills a gap between the end and the cursor. -/
def sysWrite (f : Fd) (buf : Bytes) : Fd :=
  { bytes := f.bytes.take f.pos ++ List.replicate (f.pos - f.bytes.length) 0 ++ buf
             ++ f.bytes.drop (f.pos + buf.length)
    pos := f.pos + buf.length }

/-- The call `::read(fd, buf, n)`: returns the number of bytes read, the buffer
(whose bytes beyond those read keep their old value) and the descriptor. -/
def sysRead (f : Fd) (buf : Bytes) (n : Nat) : Nat × Bytes × Fd :=
  let got := (f.bytes.drop f.pos).take n
  (got.length, got ++ buf.drop got.length, { f with pos := f.pos + got.length })

/-! ## Pages and the underlying store -/

/-- Modelled from the spec: the class `Page`, whose header is absent: a page
number and `pageSize` bytes of payload. -/
structure Page where
  number : Nat
  data : Bytes

/-- The object `Page(number, size)`; its fresh buffer is taken zero-filled. -/
def Page.fresh (number size : Nat) : Page := ⟨number, List.replicate size 0⟩

/-- A call received by the underlying store. -/
inductive StoreCall where
  | write (number : Nat) (data : Bytes)
  | read (number : Nat)
  | flush
  | deallocatePageNumber (number : Nat)
  | close
  deriving DecidableEq, Repr

/-- Modelled from the spec: the Underlying Store `PageReadWriter`, an external
collaborator known only by its contract (section 6): a faithful page map. It
records the calls it receives and the pages written since its last flush. -/
structure PageReadWriter where
  pages : Nat → Bytes
  unflushed : List Nat
  calls : List StoreCall

namespace PageReadWriter

/-- Store contract `write(n, bytes)`: persists the full page content at n. -/
def write (st : PageReadWriter) (p : Page) : PageReadWriter :=
  { pages := fun k => if k = p.number then p.data else st.pages k
    unflushed := p.number :: st.unflushed
    calls := st.calls ++ [StoreCall.write p.number p.data] }

/-- Store contract `read(n)`: fills the page with the content stored at n. -/
def read (st : PageReadWriter) (p : Page) : Page × PageReadWriter :=
  ({ p with data := st.pages p.number },
   { st with calls := st.calls ++ [StoreCall.read p.number] })

/-- Store contract `flush()`: makes all prior writes durable. -/
def flush (st : PageReadWriter) : PageReadWriter :=
  { st with unflushed := [], calls := st.calls ++ [StoreCall.flush] }

/-- Store contract `deallocatePageNumber(n)`: releases page number n. -/
def deallocatePageNumber (st : PageReadWriter) (n : Nat) : PageReadWriter :=
  { st with calls := st.calls ++ [StoreCall.deallocatePageNumber n] }

/-- Store contract `close()`. -/
def close (st : PageReadWriter) : PageReadWriter :=
  { st with calls := st.calls ++ [StoreCall.close] }

end PageReadWriter

/-! ## The `std::map<size_t, size_t>` of resident pages -/

/-- The map `m_posInCache`, kept in key order as `std::map` iterates it. -/
abbrev PosMap := List (Nat × Nat)

/-- The call `m.find(k)`, giving the mapped value when the key is present. -/
def mapFind : PosMap → Nat → Option Nat
  | [], _ => none
  | (k0, v0) :: rest, k => if k = k0 then some v0 else mapFind rest k

/-- The assignment `m[k] = v`. -/
def mapInsert : PosMap → Nat → Nat → PosMap
  | [], k, v => [(k, v)]
  | (k0, v0) :: rest, k, v =>
    if k < k0 then (k, v) :: (k0, v0) :: rest
    else if k = k0 then (k, v) :: rest
    else (k0, v0) :: mapInsert rest k v

/-- The call `m.erase(k)`. -/
def mapErase (m : PosMap) (k : Nat) : PosMap := m.filter (fun e => e.1 != k)

/-! ## The cache -/

/-- The data members of `CachedPageReadWriter`. -/
structure CachedPageReadWriter where
  m_cache : List (Option Page)
  m_isDirty : List Bool
  m_lruList : List Nat
  m_posInCache : PosMap
  m_writesCounter : Nat
  m_logFd : Fd
  m_source : PageReadWriter

/-- The length of every journal record,
`LOG_ACTION_SIZE + sizeof(size_t) + pageSize`. -/
def recordSize (H : Header) (G : GlobalConfiguration) : Nat :=
  H.LOG_ACTION_SIZE + H.SIZEOF_SIZE_T + G.pageSize

namespace CachedPageReadWriter

/-- Source `writeLogStumb`: seek over the page number and payload fields but
for the delimiter, and write the delimiter. -/
def writeLogStumb (H : Header) (G : GlobalConfiguration) (fd : Fd) : Fd :=
  sysWrite
    (lseekCur fd (((H.SIZEOF_SIZE_T + G.pageSize : Nat) : Int) - (H.LOG_SEEK_DELIM_SIZE : Int)))
    (LOG_SEEK_DELIM H)

/-- Source `flushCacheCell`. -/
def flushCacheCell (s : CachedPageReadWriter) (cachePos : Nat) : Option CachedPageReadWriter :=
  match s.m_isDirty[cachePos]? with
  | none => none
  | some false => some s
  | some true =>
    match s.m_cache[cachePos]? with
    | some (some pg) =>
      some { s with m_source := s.m_source.write pg
                    m_isDirty := s.m_isDirty.set cachePos false }
    | _ => none

/-- The loop of `flush` over the entries of `m_posInCache`. -/
def flushCells : PosMap → CachedPageReadWriter → Option CachedPageReadWriter
  | [], s => some s
  | e :: rest, s =>
    match flushCacheCell s e.2 with
    | none => none
    | some s1 => flushCells rest s1

/-- Source `flush`. -/
def flush (H : Header) (G : GlobalConfiguration) (s : CachedPageReadWriter) :
    Option CachedPageReadWriter :=
  match flushCells s.m_posInCache s with
  | none => none
  | some s1 =>
    some { s1 with
      m_source := s1.m_source.flush
      m_logFd := writeLogStumb H G (sysWrite s1.m_logFd (LOG_ACTION_CHECKPOINT H)) }

/-- Source `freeCachePosition`. -/
def freeCachePosition (s : CachedPageReadWriter) : Option (Nat × CachedPageReadWriter) :=
  match s.m_lruList.getLast? with
  | none => none
  | some cachePos =>
    match s.m_cache[cachePos]? with
    | none => none
    | some none => some (cachePos, s)
    | some (some pg) =>
      match flushCacheCell s cachePos with
      | none => none
      | some s1 =>
        some (cachePos, { s1 with m_posInCache := mapErase s1.m_posInCache pg.number
                                  m_cache := s1.m_cache.set cachePos none })

/-- The two statements `m_lruList.erase(std::find(..., cachePos));
m_lruList.push_front(cachePos);` closing `read` and `write`. -/
def touch (s : CachedPageReadWriter) (cachePos : Nat) : Option CachedPageReadWriter :=
  if cachePos ∈ s.m_lruList then
    some { s with m_lruList := cachePos :: s.m_lruList.erase cachePos }
  else none

/-- Source `deallocatePageNumber`. -/
def deallocatePageNumber (s : CachedPageReadWriter) (number : Nat) :
    Option CachedPageReadWriter :=
  match mapFind s.m_posInCache number with
  | none => some { s with m_source := s.m_source.deallocatePageNumber number }
  | some slot =>
    if slot < s.m_cache.length ∧ slot < s.m_isDirty.length ∧ slot ∈ s.m_lruList then
      some { s with
        m_cache := s.m_cache.set slot none
        m_isDirty := s.m_isDirty.set slot false
        m_lruList := s.m_lruList.erase slot ++ [slot]
        m_posInCache := mapErase s.m_posInCache number
        m_source := s.m_source.deallocatePageNumber number }
    else none

/-- The miss branch shared by `read` and `write` up to the map assignment:
take a slot, put a fresh page object for `number` there, record it in the
map. -/
def loadSlot (G : GlobalConfiguration) (s : CachedPageReadWriter) (number : Nat) :
    Option (Nat × CachedPageReadWriter) :=
  match freeCachePosition s with
  | none => none
  | some (freeCachePos, s1) =>
    if freeCachePos < s1.m_cache.length then
      some (freeCachePos,
        { s1 with m_cache := s1.m_cache.set freeCachePos (some (Page.fresh number G.pageSize))
                  m_posInCache := mapInsert s1.m_posInCache number freeCachePos })
    else none

/-- The body of `if (it == m_posInCache.end())` in `read`: take a slot, put a
fresh page object there, mark it clean, have the store fill it. -/
def readMiss (G : GlobalConfiguration) (s : CachedPageReadWriter) (number : Nat) :
    Option CachedPageReadWriter :=
  match loadSlot G s number with
  | none => none
  | some (freeCachePos, s1) =>
    if freeCachePos < s1.m_isDirty.length then
      match s1.m_cache[freeCachePos]? with
      | some (some pg) =>
        let r := s1.m_source.read pg
        some { s1 with m_isDirty := s1.m_isDirty.set freeCachePos false
                       m_cache := s1.m_cache.set freeCachePos (some r.1)
                       m_source := r.2 }
      | _ => none
    else none

/-- The statements of `read` after the `if`: look the slot up, copy its bytes
into the caller's page, move the slot to the front of the LRU list. -/
def readHit (G : GlobalConfiguration) (s : CachedPageReadWriter) (number : Nat) :
    Option (Bytes × CachedPageReadWriter) :=
  match mapFind s.m_posInCache number with
  | none => none
  | some cachePos =>
    match s.m_cache[cachePos]? with
    | some (some pg) =>
      match touch s cachePos with
      | none => none
      | some s1 => some (memcpy (List.replicate G.pageSize 0) pg.data G.pageSize, s1)
    | _ => none

/-- Source `read`, given the number of the caller's page; the result is the
content of the caller's page after the `memcpy`. -/
def read (G : GlobalConfiguration) (s : CachedPageReadWriter) (number : Nat) :
    Option (Bytes × CachedPageReadWriter) :=
  match mapFind s.m_posInCache number with
  | some _ => readHit G s number
  | none =>
    match readMiss G s number with
    | none => none
    | some s1 => readHit G s1 number

/-- The first statement of `write`: the counter test, with the flush it may
trigger. (From construction on the counter stays at or below the threshold, so
the `size_t` increment does not wrap.) -/
def writeCount (H : Header) (G : GlobalConfiguration) (s : CachedPageReadWriter) :
    Option CachedPageReadWriter :=
  if s.m_writesCounter = H.CHECKPOINT_THRESHOLD then
    flush H G { s with m_writesCounter := 0 }
  else some { s with m_writesCounter := s.m_writesCounter + 1 }

/-- The three `::write` calls of `write`: the CHANGE tag, the page number, the
payload. -/
def writeLog (H : Header) (G : GlobalConfiguration) (s : CachedPageReadWriter) (page : Page) :
    CachedPageReadWriter :=
  { s with m_logFd :=
      sysWrite (sysWrite (sysWrite s.m_logFd (LOG_ACTION_CHANGE H))
        (encodeSizeT H.SIZEOF_SIZE_T page.number)) (page.data.take G.pageSize) }

/-- The statements of `write` after the `if`: look the slot up, mark it dirty,
copy the caller's bytes into it, flush the slot, move it to the front of the
LRU list. -/
def writeHit (G : GlobalConfiguration) (s : CachedPageReadWriter) (page : Page) :
    Option CachedPageReadWriter :=
  match mapFind s.m_posInCache page.number with
  | none => none
  | some cachePos =>
    if cachePos < s.m_isDirty.length then
      match s.m_cache[cachePos]? with
      | some (some pg) =>
        let s1 := { s with
          m_isDirty := s.m_isDirty.set cachePos true
          m_cache := s.m_cache.set cachePos
            (some { pg with data := memcpy pg.data page.data G.pageSize }) }
        match flushCacheCell s1 cachePos with
        | none => none
        | some s2 => touch s2 cachePos
      | _ => none
    else none

/-- Source `write`. -/
def write (H : Header) (G : GlobalConfiguration) (s : CachedPageReadWriter) (page : Page) :
    Option CachedPageReadWriter :=
  match writeCount H G s with
  | none => none
  | some s1 =>
    let s2 := writeLog H G s1 page
    match mapFind s2.m_posInCache page.number with
    | some _ => writeHit G s2 page
    | none =>
      match loadSlot G s2 page.number with
      | none => none
      | some (_, s3) => writeHit G s3 page

/-- Source `close` (the descriptor itself is not modelled as closed). -/
def close (H : Header) (G : GlobalConfiguration) (s : CachedPageReadWriter) :
    Option CachedPageReadWriter :=
  match flush H G s with
  | none => none
  | some s1 =>
    some { s1 with
      m_source := s1.m_source.close
      m_logFd := writeLogStumb H G (sysWrite s1.m_logFd (LOG_ACTION_DB_CLOSE H)) }

/-! ## Construction and recovery -/

/-- The `do ... while (strcmp(recordType, LOG_ACTION_CHECKPOINT))` loop of the
constructor. The result is `none` when the fuel runs out. -/
def backwardScan (H : Header) (G : GlobalConfiguration) :
    Nat → Fd → Bytes → Option (Fd × Bytes)
  | 0, _, _ => none
  | fuel + 1, fd, recordType =>
    let fd1 := lseekCur fd (-((recordSize H G : Nat) : Int))
    let r := sysRead fd1 recordType H.LOG_ACTION_SIZE
    let fd3 := lseekCur r.2.2 (-((H.LOG_ACTION_SIZE : Nat) : Int))
    if strcmp r.2.1 (LOG_ACTION_CHECKPOINT H) ≠ 0 then backwardScan H G fuel fd3 r.2.1
    else some (fd3, r.2.1)

/-- The `while (::read(...) == LOG_ACTION_SIZE)` loop of the constructor. The
result is `none` when the fuel runs out. The local `pageNumber` and the buffer
of the local page start zero-filled. -/
def forwardReplay (H : Header) (G : GlobalConfiguration) :
    Nat → Fd → Bytes → PageReadWriter → Option (Fd × PageReadWriter)
  | 0, _, _, _ => none
  | fuel + 1, fd, recordType, source =>
    let r := sysRead fd recordType H.LOG_ACTION_SIZE
    if r.1 = H.LOG_ACTION_SIZE then
      if strcmp r.2.1 (LOG_ACTION_CHANGE H) = 0 then
        let rn := sysRead r.2.2 (List.replicate H.SIZEOF_SIZE_T 0) H.SIZEOF_SIZE_T
        let pageNumber := decodeSizeT rn.2.1
        let rp := sysRead rn.2.2 (Page.fresh pageNumber G.pageSize).data G.pageSize
        forwardReplay H G fuel rp.2.2 r.2.1 (source.write ⟨pageNumber, rp.2.1⟩)
      else
        forwardReplay H G fuel
          (lseekCur r.2.2 (((recordSize H G : Nat) : Int) - (H.LOG_ACTION_SIZE : Int)))
          r.2.1 source
    else some (r.2.2, source)

/-- The recovery branch of the constructor (an existing journal): backward
scan from the end of the file, skip the checkpoint found, forward replay. The
buffer `recordType` starts zero-filled. -/
def recover (H : Header) (G : GlobalConfiguration) (fuel : Nat) (fd : Fd)
    (source : PageReadWriter) : Option (Fd × PageReadWriter) :=
  match backwardScan H G fuel (lseekEnd fd 0) (List.replicate H.LOG_ACTION_SIZE 0) with
  | none => none
  | some (fd1, recordType) =>
    forwardReplay H G fuel (lseekCur fd1 ((recordSize H G : Nat) : Int)) recordType source

/-- The constructor. `journal` is the content of the file at `journalPath()`
when it exists. The result is `none` when the fuel given to the recovery loops
runs out, an error when the constructor throws. (With `pageSize` 0 the C++
remainder is undefined; here `cacheSize % 0` is `cacheSize`.) -/
def new (H : Header) (G : GlobalConfiguration) (source : PageReadWriter)
    (journal : Option Bytes) (fuel : Nat) : Option (Except String CachedPageReadWriter) :=
  if G.cacheSize % G.pageSize ≠ 0 then
    some (Except.error "Page size should divide cache size.")
  else
    let cacheCells := G.cacheSize / G.pageSize
    let opened : Option (Fd × PageReadWriter) :=
      match journal with
      | none =>
        some (writeLogStumb H G (sysWrite ⟨[], 0⟩ (LOG_ACTION_CHECKPOINT H)), source)
      | some bytes => recover H G fuel ⟨bytes, 0⟩ source
    match opened with
    | none => none
    | some (fd, source1) =>
      some (Except.ok
        { m_cache := List.replicate cacheCells none
          m_isDirty := List.replicate cacheCells false
          m_lruList := List.range cacheCells
          m_posInCache := []
          m_writesCounter := 0
          m_logFd := writeLogStumb H G (sysWrite (lseekEnd fd 0) (LOG_ACTION_DB_OPEN H))
          m_source := source1 })

end CachedPageReadWriter

/-! ## Journal records, for the statements about recovery -/


/-- Whether the record starting with these bytes passes the constructor's test
`strcmp(recordType, LOG_ACTION_CHECKPOINT) == 0`. -/
def isCheckpoint (H : Header) (r : Bytes) : Bool :=
  decide (strcmp (r.take H.LOG_ACTION_SIZE) (LOG_ACTION_CHECKPOINT H) = 0)

/-- Whether the record starting with these bytes passes the constructor's test
`!strcmp(recordType, LOG_ACTION_CHANGE)`. -/
def isChange (H : Header) (r : Bytes) : Bool :=
  decide (strcmp (r.take H.LOG_ACTION_SIZE) (LOG_ACTION_CHANGE H) = 0)

/-- The page a record carries: the number in its page number field and the
payload field. -/
def recordPage (H : Header) (G : GlobalConfiguration) (r : Bytes) : Page :=
  ⟨decodeSizeT ((r.drop H.LOG_ACTION_SIZE).take H.SIZEOF_SIZE_T),
   (r.drop (H.LOG_ACTION_SIZE + H.SIZEOF_SIZE_T)).take G.pageSize⟩

/-- The records located after the last CHECKPOINT record of a journal, when
the journal has a CHECKPOINT record. -/
def afterLastCheckpoint (H : Header) : List Bytes → Option (List Bytes)
  | [] => none
  | r :: rest =>
    match afterLastCheckpoint H rest with
    | some l => some l
    | none => if isCheckpoint H r then some rest else none

/-- The pages of the CHANGE records among the given records, in order. -/
def changesOf (H : Header) (G : GlobalConfiguration) (recs : List Bytes) : List Page :=
  (recs.filter (isChange H)).map (recordPage H G)

/-- The store after it received the writes of the given pages, in order. -/
def writeAll (source : PageReadWriter) (pages : List Page) : PageReadWriter :=
  pages.foldl PageReadWriter.write source

/-- A CHANGE record as `write` lays it out. -/
def changeRecord (H : Header) (G : GlobalConfiguration) (page : Page) : Bytes :=
  LOG_ACTION_CHANGE H ++ encodeSizeT H.SIZEOF_SIZE_T page.number ++ page.data.take G.pageSize

/-- A record as the tag write followed by `writeLogStumb` lays it out at the
end of the file: the tag, the skipped bytes (a zero-filled hole), the
delimiter. -/
def stubRecord (H : Header) (G : GlobalConfiguration) (tag : Bytes) : Bytes :=
  tag ++ List.replicate (H.SIZEOF_SIZE_T + G.pageSize - H.LOG_SEEK_DELIM_SIZE) 0
    ++ LOG_SEEK_DELIM H

/-! ## Concrete inputs -/


/-- The payload of the last page numbered `n` in a list of pages. -/
def lastData (pages : List Page) (n : Nat) : Option Bytes :=
  (pages.reverse.find? (fun p => p.number == n)).map Page.data

/-- A platform for the examples: 8-byte tags, a 1-byte delimiter, a checkpoint
every 3 writes, 8-byte `size_t`. -/
def exampleHeader : Header := ⟨8, 1, 3, 8⟩

/-- A configuration for the examples: pages of 4 bytes, a cache of 2 slots. -/
def exampleConf : GlobalConfiguration := ⟨4, 8⟩

/-- A store for the examples, every page of which holds four zero bytes. -/
def exampleStore : PageReadWriter := ⟨fun _ => [0, 0, 0, 0], [], []⟩

/-- The journal `[CHECKPOINT][CHANGE(5,"AAAA")][CHANGE(5,"BBBB")][CHANGE(9,"CCCC")]`
of the recovery scenario, record by record. -/
def scenarioJournal : List Bytes :=
  [stubRecord exampleHeader exampleConf (LOG_ACTION_CHECKPOINT exampleHeader),
   changeRecord exampleHeader exampleConf ⟨5, [65, 65, 65, 65]⟩,
   changeRecord exampleHeader exampleConf ⟨5, [66, 66, 66, 66]⟩,
   changeRecord exampleHeader exampleConf ⟨9, [67, 67, 67, 67]⟩]

/-- A journal holding one DB_OPEN record and no CHECKPOINT record. -/
def noCheckpointJournal : Bytes :=
  stubRecord exampleHeader exampleConf (LOG_ACTION_DB_OPEN exampleHeader)

/-- The journal `[CHECKPOINT][CHANGE(5,"AAAA")]` followed by the first byte of
one more CHANGE record. -/
def truncatedJournal : Bytes :=
  stubRecord exampleHeader exampleConf (LOG_ACTION_CHECKPOINT exampleHeader)
    ++ changeRecord exampleHeader exampleConf ⟨5, [65, 65, 65, 65]⟩ ++ [67]

/-- The journal `[CHECKPOINT]` followed by a CHANGE record for page 5 cut after
the first two bytes of its payload. -/
def cutPayloadJournal : Bytes :=
  stubRecord exampleHeader exampleConf (LOG_ACTION_CHECKPOINT exampleHeader)
    ++ (changeRecord exampleHeader exampleConf ⟨5, [65, 65, 65, 65]⟩).take 18

/-! ## Runs of the public operations, and the well-formedness of a cache -/

/-- A call of one of the public operations `read`, `write`, `flush` and
`deallocatePageNumber`. -/
inductive Op where
  | read (number : Nat)
  | write (page : Page)
  | flush
  | deallocatePageNumber (number : Nat)

/-- The state after one call, `none` when the call has undefined behaviour. -/
def step (H : Header) (G : GlobalConfiguration) (s : CachedPageReadWriter) :
    Op → Option CachedPageReadWriter
  | Op.read number => (CachedPageReadWriter.read G s number).map Prod.snd
  | Op.write page => CachedPageReadWriter.write H G s page
  | Op.flush => CachedPageReadWriter.flush H G s
  | Op.deallocatePageNumber number => CachedPageReadWriter.deallocatePageNumber s number

/-- The state after a sequence of calls. -/
def run (H : Header) (G : GlobalConfiguration) :
    CachedPageReadWriter → List Op → Option CachedPageReadWriter
  | s, [] => some s
  | s, op :: ops =>
    match step H G s op with
    | none => none
    | some s1 => run H G s1 ops

/-- The number of the page held by slot `i`, if the slot holds one. -/
def pageAt (cache : List (Option Page)) (i : Nat) : Option Nat :=
  match cache[i]? with
  | some (some pg) => some pg.number
  | _ => none

/-- The number of slots, `cacheSize / pageSize`. -/
def slots (G : GlobalConfiguration) : Nat := G.cacheSize / G.pageSize

/-- Well-formedness of a cache of `N` slots: the two arrays have `N` cells, the
LRU list is an arrangement of the slot indices, the position map is in key
order and is the inverse of the slot contents, and a dirty slot holds a
page. -/
def Consistent (N : Nat) (s : CachedPageReadWriter) : Prop :=
  s.m_cache.length = N
  ∧ s.m_isDirty.length = N
  ∧ s.m_lruList.Perm (List.range N)
  ∧ (s.m_posInCache.map Prod.fst).Pairwise (fun a b => a < b)
  ∧ (∀ e ∈ s.m_posInCache, pageAt s.m_cache e.2 = some e.1)
  ∧ (∀ i < N, pageAt s.m_cache i = none
      ∨ (pageAt s.m_cache i).bind (mapFind s.m_posInCache) = some i)
  ∧ (∀ i < N, s.m_isDirty[i]? = some true → pageAt s.m_cache i ≠ none)

instance (N : Nat) (s : CachedPageReadWriter) : Decidable (Consistent N s) := by
  unfold Consistent
  infer_instance

/-- The position map after the page of slot `b`, if any, left the cache. -/
def evictedMap (s : CachedPageReadWriter) (b : Nat) : PosMap :=
  match pageAt s.m_cache b with
  | some q => mapErase s.m_posInCache q
  | none => s.m_posInCache

/-- No slot has its dirty flag set. -/
def Clean (s : CachedPageReadWriter) : Prop := ∀ i : Nat, s.m_isDirty[i]? ≠ some true

/-- Every page held by a slot has the bytes the store holds for its number. -/
def Synced (s : CachedPageReadWriter) : Prop :=
  ∀ (i : Nat) (pg : Page), s.m_cache[i]? = some (some pg) → s.m_source.pages pg.number = pg.data

/-- The state of the slots after a miss on page `pg.number` was served from slot
`b`: the page that slot held left the cache, `pg` took its place, and the slot
moved to the front of the LRU list. -/
def loaded (s : CachedPageReadWriter) (b : Nat) (pg : Page) : CachedPageReadWriter :=
  { s with
    m_cache := s.m_cache.set b (some pg)
    m_posInCache := mapInsert (evictedMap s b) pg.number b
    m_lruList := b :: s.m_lruList.erase b }

/-- The state after the counter test of `write` on a cache without dirty
slots: the counter stepped, or reset with the store flushed and a CHECKPOINT
record written. -/
def counted (H : Header) (G : GlobalConfiguration) (s : CachedPageReadWriter) :
    CachedPageReadWriter :=
  if s.m_writesCounter = H.CHECKPOINT_THRESHOLD then
    { s with
      m_writesCounter := 0
      m_source := s.m_source.flush
      m_logFd := CachedPageReadWriter.writeLogStumb H G
        (sysWrite s.m_logFd (LOG_ACTION_CHECKPOINT H)) }
  else { s with m_writesCounter := s.m_writesCounter + 1 }

/-- Whether a call is a write of page `p` or the deallocation of page `p`. -/
def overwrites (p : Nat) : Op → Prop
  | Op.write page => page.number = p
  | Op.deallocatePageNumber number => number = p
  | _ => False

/-- The cache built on no journal by the example configuration: the 2 slots
empty, the journal holding a CHECKPOINT and a DB_OPEN record. -/
def exampleFresh : CachedPageReadWriter :=
  { m_cache := [none, none]
    m_isDirty := [false, false]
    m_lruList := [0, 1]
    m_posInCache := []
    m_writesCounter := 0
    m_logFd :=
      ⟨stubRecord exampleHeader exampleConf (LOG_ACTION_CHECKPOINT exampleHeader)
        ++ stubRecord exampleHeader exampleConf (LOG_ACTION_DB_OPEN exampleHeader), 40⟩
    m_source := exampleStore }

/-- The calls write(1), write(2), read(1), write(3) of the eviction example. -/
def exampleOps : List Op :=
  [Op.write ⟨1, [1, 1, 1, 1]⟩, Op.write ⟨2, [2, 2, 2, 2]⟩, Op.read 1,
   Op.write ⟨3, [3, 3, 3, 3]⟩]

/-- The example cache after a list of calls (itself if a call were undefined). -/
def exampleAfter (ops : List Op) : CachedPageReadWriter :=
  (run exampleHeader exampleConf exampleFresh ops).getD exampleFresh

/-- A well-formed cache with a dirty slot: slot 1 holds page 1 with bytes the
store does not have yet. -/
def exampleDirty : CachedPageReadWriter :=
  { m_cache := [some ⟨2, [0, 0, 0, 0]⟩, some ⟨1, [9, 9, 9, 9]⟩]
    m_isDirty := [false, true]
    m_lruList := [1, 0]
    m_posInCache := [(1, 1), (2, 0)]
    m_writesCounter := 2
    m_logFd := exampleFresh.m_logFd
    m_source := exampleStore }

/-- Three writes, which bring the counter of the example cache to the
threshold. -/
def exampleWrites : List Op :=
  [Op.write ⟨1, [1, 1, 1, 1]⟩, Op.write ⟨2, [2, 2, 2, 2]⟩, Op.write ⟨3, [3, 3, 3, 3]⟩]

/-- Whether a call is a read or a write of page `p`. -/
def accesses (p : Nat) : Op → Bool
  | Op.read number => number == p
  | Op.write page => page.number == p
  | _ => false

/-- The position, counted from 1, of the most recent read or write of page `p`
in a sequence of calls given latest first; 0 when there is none. -/
def lastAccessRev : List Op → Nat → Nat
  | [], _ => 0
  | op :: older, p => if accesses p op then older.length + 1 else lastAccessRev older p

/-- The position, counted from 1, of the most recent read or write of page `p`
in a sequence of calls; 0 when there is none. -/
def lastAccess (ops : List Op) (p : Nat) : Nat := lastAccessRev ops.reverse p

/-- The LRU list is in order of recency: of two slots, the later one in the
list holds no page, or both hold one and the page of the later slot was last
accessed before the page of the earlier slot. -/
def Recency (ops : List Op) (s : CachedPageReadWriter) : Prop :=
  s.m_lruList.Pairwise (fun a b => ∀ y, pageAt s.m_cache b = some y →
    ∃ x, pageAt s.m_cache a = some x ∧ lastAccess ops y < lastAccess ops x)

/-- The calls write(1), write(2), read(1), which fill the 2 slots of the
example cache. -/
def exampleBefore : List Op :=
  [Op.write ⟨1, [1, 1, 1, 1]⟩, Op.write ⟨2, [2, 2, 2, 2]⟩, Op.read 1]

/-- The pages written by a sequence of calls, in order. -/
def writesOf (ops : List Op) : List Page :=
  ops.filterMap (fun op => match op with
    | Op.write page => some page
    | _ => none)

/-- The payload of the last `write(p, _)` of a sequence of calls. -/
def lastWrite (ops : List Op) (p : Nat) : Option Bytes := lastData (writesOf ops) p

/-- The calls of a session of reads, writes and flushes, the page of a write
having `pageSize` bytes and a number that fits a `size_t`. -/
def sessionOp (H : Header) (G : GlobalConfiguration) : Op → Prop
  | Op.write page => page.data.length = G.pageSize ∧ page.number < 256 ^ H.SIZEOF_SIZE_T
  | Op.read _ => True
  | Op.flush => True
  | Op.deallocatePageNumber _ => False

/-- What a session keeps true between calls, for recovery: the journal is a
sequence of whole records with a CHECKPOINT, the cursor at its end; the store
holds the last payload written for each page; each page written in the session
and pending in the store since its last flush has a CHANGE record after the
last CHECKPOINT; and the last such CHANGE of a page carries its last
payload. -/
def Durable (H : Header) (G : GlobalConfiguration) (ops : List Op)
    (s : CachedPageReadWriter) : Prop :=
  ∃ recs post,
    s.m_logFd.bytes = List.flatten recs
    ∧ s.m_logFd.pos = s.m_logFd.bytes.length
    ∧ (∀ r ∈ recs, r.length = recordSize H G)
    ∧ afterLastCheckpoint H recs = some post
    ∧ (∀ n, (s.m_source.pages n).length = G.pageSize)
    ∧ (∀ p d, lastWrite ops p = some d → s.m_source.pages p = d)
    ∧ (∀ p ∈ s.m_source.unflushed, lastWrite ops p ≠ none →
        lastData (changesOf H G post) p ≠ none)
    ∧ (∀ p d, lastData (changesOf H G post) p = some d → lastWrite ops p = some d)

/-! ## Further concrete inputs -/

/-- A well-formed cache whose back slot of the LRU list, slot 1, is dirty: it
holds page 1 with bytes the store does not have yet. -/
def exampleDirtyBack : CachedPageReadWriter :=
  { exampleDirty with m_lruList := [0, 1] }

/-! ## Record framing -/

/-- The journal is the given sequence of whole records, one of them a
CHECKPOINT, and the cursor of the descriptor is at its end. -/
def Framed (H : Header) (G : GlobalConfiguration) (s : CachedPageReadWriter)
    (recs : List Bytes) : Prop :=
  s.m_logFd.pos = s.m_logFd.bytes.length
  ∧ s.m_logFd.bytes = List.flatten recs
  ∧ (∀ r ∈ recs, r.length = recordSize H G)
  ∧ ∃ r ∈ recs, isCheckpoint H r = true

/-! ## The period of the implicit checkpoints -/

/-- The records appended by the writes of the given pages, numbered `k + 1`,
`k + 2`, ..., when a CHECKPOINT record precedes the CHANGE record of every write
whose number is a multiple of `CHECKPOINT_THRESHOLD + 1`. -/
def periodicRecords (H : Header) (G : GlobalConfiguration) : Nat → List Page → List Bytes
  | _, [] => []
  | k, p :: rest =>
    (if (k + 1) % (H.CHECKPOINT_THRESHOLD + 1) = 0 then
        [stubRecord H G (LOG_ACTION_CHECKPOINT H)] else [])
      ++ changeRecord H G p :: periodicRecords H G (k + 1) rest

open CachedPageReadWriter

/-! ## Bytes, tags and the file descriptor -/


theorem charArray_length (lit : Bytes) (n : Nat) : (charArray lit n).length = n := by
  unfold charArray
  simp only [List.length_take, List.length_append, List.length_replicate]
  omega

theorem takeWhile_nonzero_append_zeros (lit : Bytes) (k : Nat) (hz : ∀ c ∈ lit, c ≠ 0) :
    (lit ++ List.replicate k 0).takeWhile (fun c => c != 0) = lit := by
  induction lit with
  | nil =>
    cases k with
    | zero => simp
    | succ k => simp [List.replicate_succ, List.takeWhile]
  | cons c rest ih =>
    have hc : c ≠ 0 := hz c (List.mem_cons_self _ _)
    have hr : ∀ d ∈ rest, d ≠ 0 := fun d hd => hz d (List.mem_cons_of_mem _ hd)
    simp [List.takeWhile_cons, hc, ih hr]

theorem cstr_charArray (lit : Bytes) (n : Nat) (hz : ∀ c ∈ lit, c ≠ 0) (hn : lit.length ≤ n) :
    cstr (charArray lit n) = lit := by
  unfold charArray cstr
  have h1 : (lit ++ List.replicate (n - lit.length) 0).take n
      = lit ++ List.replicate (n - lit.length) 0 := by
    apply List.take_of_length_le
    simp only [List.length_append, List.length_replicate]
    omega
  rw [h1]
  exact takeWhile_nonzero_append_zeros lit _ hz

theorem cstr_CHECKPOINT (H : Header) (hA : 7 < H.LOG_ACTION_SIZE) :
    cstr (LOG_ACTION_CHECKPOINT H) = [67, 72, 67, 75, 80, 78, 84] :=
  cstr_charArray _ _ (by decide) (by simp; omega)

theorem cstr_CHANGE (H : Header) (hA : 7 < H.LOG_ACTION_SIZE) :
    cstr (LOG_ACTION_CHANGE H) = [67, 72, 65, 78, 71, 69, 95] :=
  cstr_charArray _ _ (by decide) (by simp; omega)

theorem cstr_DB_OPEN (H : Header) (hA : 7 < H.LOG_ACTION_SIZE) :
    cstr (LOG_ACTION_DB_OPEN H) = [68, 66, 95, 79, 80, 69, 78] :=
  cstr_charArray _ _ (by decide) (by simp; omega)

theorem cstr_DB_CLOSE (H : Header) (hA : 7 < H.LOG_ACTION_SIZE) :
    cstr (LOG_ACTION_DB_CLOSE H) = [68, 66, 67, 76, 79, 83, 69] :=
  cstr_charArray _ _ (by decide) (by simp; omega)

theorem length_CHECKPOINT (H : Header) : (LOG_ACTION_CHECKPOINT H).length = H.LOG_ACTION_SIZE :=
  charArray_length _ _

theorem length_CHANGE (H : Header) : (LOG_ACTION_CHANGE H).length = H.LOG_ACTION_SIZE :=
  charArray_length _ _

theorem length_DB_OPEN (H : Header) : (LOG_ACTION_DB_OPEN H).length = H.LOG_ACTION_SIZE :=
  charArray_length _ _

theorem length_DB_CLOSE (H : Header) : (LOG_ACTION_DB_CLOSE H).length = H.LOG_ACTION_SIZE :=
  charArray_length _ _

theorem length_DELIM (H : Header) : (LOG_SEEK_DELIM H).length = H.LOG_SEEK_DELIM_SIZE :=
  charArray_length _ _

theorem strcmp_self (a : Bytes) : strcmp a a = 0 := by simp [strcmp]

theorem strcmp_eq_zero_iff (a b : Bytes) : strcmp a b = 0 ↔ cstr a = cstr b := by
  unfold strcmp; split <;> simp_all

theorem encodeSizeT_length (w n : Nat) : (encodeSizeT w n).length = w := by
  induction w generalizing n with
  | zero => rfl
  | succ w ih => simp [encodeSizeT, ih]

theorem decode_encodeSizeT (w n : Nat) : decodeSizeT (encodeSizeT w n) = n % 256 ^ w := by
  induction w generalizing n with
  | zero => simp [encodeSizeT, decodeSizeT, Nat.mod_one]
  | succ w ih =>
    simp only [encodeSizeT, decodeSizeT, ih]
    rw [pow_succ, Nat.mul_comm (256 ^ w) 256, Nat.mod_mul]

theorem decode_encodeSizeT_of_lt (w n : Nat) (h : n < 256 ^ w) :
    decodeSizeT (encodeSizeT w n) = n := by
  rw [decode_encodeSizeT, Nat.mod_eq_of_lt h]

theorem sysWrite_eof (f : Fd) (buf : Bytes) (h : f.pos = f.bytes.length) :
    sysWrite f buf = ⟨f.bytes ++ buf, f.bytes.length + buf.length⟩ := by
  unfold sysWrite
  simp [h]

theorem sysWrite_hole (bytes buf : Bytes) (k : Nat) :
    sysWrite ⟨bytes, bytes.length + k⟩ buf
      = ⟨bytes ++ List.replicate k 0 ++ buf, bytes.length + k + buf.length⟩ := by
  unfold sysWrite
  have h1 : bytes.take (bytes.length + k) = bytes := List.take_of_length_le (by omega)
  have h2 : bytes.drop (bytes.length + k + buf.length) = [] :=
    List.drop_of_length_le (by omega)
  simp [h1, h2]

theorem lseekCur_add (f : Fd) (k : Nat) : lseekCur f (k : Int) = ⟨f.bytes, f.pos + k⟩ := by
  unfold lseekCur
  have h : (0 : Int) ≤ (f.pos : Int) + (k : Int) := by omega
  simp only [h, if_true]
  congr 1

theorem lseekCur_sub (f : Fd) (k : Nat) (h : k ≤ f.pos) :
    lseekCur f (-(k : Int)) = ⟨f.bytes, f.pos - k⟩ := by
  unfold lseekCur
  have h0 : (0 : Int) ≤ (f.pos : Int) + -(k : Int) := by omega
  simp only [h0, if_true]
  congr 1
  omega

theorem lseekCur_sub_fail (f : Fd) (k : Nat) (h : f.pos < k) :
    lseekCur f (-(k : Int)) = f := by
  unfold lseekCur
  have h0 : ¬ (0 : Int) ≤ (f.pos : Int) + -(k : Int) := by omega
  simp only [h0, if_false]

theorem lseekEnd_zero (f : Fd) : lseekEnd f 0 = ⟨f.bytes, f.bytes.length⟩ := by
  unfold lseekEnd
  simp

/-- A read of `n` bytes where `n` bytes are available. -/
theorem sysRead_full (a b c buf : Bytes) (n : Nat) (hb : b.length = n) (hbuf : buf.length ≤ n) :
    sysRead ⟨a ++ b ++ c, a.length⟩ buf n = (n, b, ⟨a ++ b ++ c, a.length + n⟩) := by
  unfold sysRead
  have h1 : ((a ++ b ++ c).drop a.length).take n = b := by
    rw [List.append_assoc, List.drop_left, ← hb, List.take_left]
  simp only [h1, hb]
  rw [List.drop_of_length_le hbuf]
  simp

/-! ## The recovery loops -/


theorem sysRead_at (f : Fd) (a b c buf : Bytes) (n : Nat) (hf : f.bytes = a ++ b ++ c)
    (hp : f.pos = a.length) (hb : b.length = n) (hbuf : buf.length ≤ n) :
    sysRead f buf n = (n, b, ⟨f.bytes, f.pos + n⟩) := by
  obtain ⟨bytes, pos⟩ := f
  simp only at hf hp
  subst hf hp
  rw [sysRead_full a b c buf n hb hbuf]

theorem backwardScan_succ (H : Header) (G : GlobalConfiguration) (a r c rt : Bytes)
    (hr : r.length = recordSize H G) (hrt : rt.length ≤ H.LOG_ACTION_SIZE) (fuel : Nat) :
    backwardScan H G (fuel + 1) ⟨a ++ r ++ c, a.length + recordSize H G⟩ rt
      = if isCheckpoint H r then
          some (⟨a ++ r ++ c, a.length⟩, r.take H.LOG_ACTION_SIZE)
        else backwardScan H G fuel ⟨a ++ r ++ c, a.length⟩ (r.take H.LOG_ACTION_SIZE) := by
  have hA : H.LOG_ACTION_SIZE ≤ r.length := by rw [hr]; unfold recordSize; omega
  have h1 : lseekCur ⟨a ++ r ++ c, a.length + recordSize H G⟩ (-((recordSize H G : Nat) : Int))
      = ⟨a ++ r ++ c, a.length⟩ := by
    rw [lseekCur_sub _ _ (by simp)]; simp
  have h2 : sysRead ⟨a ++ r ++ c, a.length⟩ rt H.LOG_ACTION_SIZE
      = (H.LOG_ACTION_SIZE, r.take H.LOG_ACTION_SIZE,
          ⟨a ++ r ++ c, a.length + H.LOG_ACTION_SIZE⟩) := by
    apply sysRead_at _ a (r.take H.LOG_ACTION_SIZE) (r.drop H.LOG_ACTION_SIZE ++ c) rt
    · simp only [List.append_assoc]; rw [← List.append_assoc (r.take _), List.take_append_drop]
    · rfl
    · simp [List.length_take]; omega
    · exact hrt
  have h3 : lseekCur ⟨a ++ r ++ c, a.length + H.LOG_ACTION_SIZE⟩
      (-((H.LOG_ACTION_SIZE : Nat) : Int)) = ⟨a ++ r ++ c, a.length⟩ := by
    rw [lseekCur_sub _ _ (by simp)]; simp
  rw [backwardScan]
  simp only [h1, h2, h3, isCheckpoint]
  by_cases hc : strcmp (List.take H.LOG_ACTION_SIZE r) (LOG_ACTION_CHECKPOINT H) = 0
  · simp [hc]
  · simp [hc]

theorem backwardScan_finds (H : Header) (G : GlobalConfiguration) (pre ck : Bytes)
    (post : List Bytes) (hck : ck.length = recordSize H G) (hisck : isCheckpoint H ck = true)
    (hpost : ∀ r ∈ post, r.length = recordSize H G ∧ isCheckpoint H r = false) :
    ∀ (rest rt : Bytes), rt.length ≤ H.LOG_ACTION_SIZE → ∀ fuel, post.length < fuel →
    backwardScan H G fuel
        ⟨pre ++ ck ++ post.flatten ++ rest, (pre ++ ck ++ post.flatten).length⟩ rt
      = some (⟨pre ++ ck ++ post.flatten ++ rest, pre.length⟩, ck.take H.LOG_ACTION_SIZE) := by
  induction post using List.reverseRecOn with
  | nil =>
    intro rest rt hrt fuel hfuel
    obtain ⟨k, rfl⟩ : ∃ k, fuel = k + 1 := ⟨fuel - 1, by simp at hfuel; omega⟩
    simp only [List.flatten_nil, List.append_nil]
    have := backwardScan_succ H G pre ck rest rt hck hrt k
    rw [List.length_append, hck, this, hisck]
    simp
  | append_singleton post r ih =>
    intro rest rt hrt fuel hfuel
    obtain ⟨k, rfl⟩ : ∃ k, fuel = k + 1 := ⟨fuel - 1, by simp at hfuel; omega⟩
    have hr := hpost r (by simp)
    have hpost1 : ∀ r ∈ post, r.length = recordSize H G ∧ isCheckpoint H r = false :=
      fun x hx => hpost x (by simp [hx])
    have hfile : pre ++ ck ++ (post ++ [r]).flatten ++ rest
        = (pre ++ ck ++ post.flatten) ++ r ++ rest := by
      simp [List.flatten_append, List.append_assoc]
    have hpos : (pre ++ ck ++ (post ++ [r]).flatten).length
        = (pre ++ ck ++ post.flatten).length + recordSize H G := by
      simp [List.flatten_append, List.length_append, hr.1]; omega
    rw [hpos, hfile, backwardScan_succ H G _ r rest rt hr.1 hrt k, hr.2]
    simp only [Bool.false_eq_true, if_false]
    have hA : (r.take H.LOG_ACTION_SIZE).length ≤ H.LOG_ACTION_SIZE := by simp [List.length_take]
    have := ih hpost1 (r ++ rest) (r.take H.LOG_ACTION_SIZE) hA k
      (by simp at hfuel; omega)
    simp only [List.append_assoc] at this ⊢
    exact this

theorem forwardReplay_succ (H : Header) (G : GlobalConfiguration) (a r c rt : Bytes)
    (hr : r.length = recordSize H G) (hrt : rt.length ≤ H.LOG_ACTION_SIZE) (fuel : Nat)
    (source : PageReadWriter) :
    forwardReplay H G (fuel + 1) ⟨a ++ r ++ c, a.length⟩ rt source
      = forwardReplay H G fuel ⟨a ++ r ++ c, (a ++ r).length⟩ (r.take H.LOG_ACTION_SIZE)
          (if isChange H r then source.write (recordPage H G r) else source) := by
  have hA : H.LOG_ACTION_SIZE ≤ r.length := by rw [hr]; unfold recordSize; omega
  have hR : recordSize H G = H.LOG_ACTION_SIZE + H.SIZEOF_SIZE_T + G.pageSize := rfl
  have h2 : sysRead ⟨a ++ r ++ c, a.length⟩ rt H.LOG_ACTION_SIZE
      = (H.LOG_ACTION_SIZE, r.take H.LOG_ACTION_SIZE,
          ⟨a ++ r ++ c, a.length + H.LOG_ACTION_SIZE⟩) := by
    apply sysRead_at _ a (r.take H.LOG_ACTION_SIZE) (r.drop H.LOG_ACTION_SIZE ++ c) rt
    · simp only [List.append_assoc]; rw [← List.append_assoc (r.take _), List.take_append_drop]
    · rfl
    · simp [List.length_take]; omega
    · exact hrt
  have h3 : sysRead ⟨a ++ r ++ c, a.length + H.LOG_ACTION_SIZE⟩
        (List.replicate H.SIZEOF_SIZE_T 0) H.SIZEOF_SIZE_T
      = (H.SIZEOF_SIZE_T, (r.drop H.LOG_ACTION_SIZE).take H.SIZEOF_SIZE_T,
          ⟨a ++ r ++ c, a.length + H.LOG_ACTION_SIZE + H.SIZEOF_SIZE_T⟩) := by
    apply sysRead_at _ (a ++ r.take H.LOG_ACTION_SIZE)
      ((r.drop H.LOG_ACTION_SIZE).take H.SIZEOF_SIZE_T)
      ((r.drop H.LOG_ACTION_SIZE).drop H.SIZEOF_SIZE_T ++ c)
    · simp only [List.append_assoc]
      rw [← List.append_assoc (List.take _ (List.drop _ r)), List.take_append_drop,
        ← List.append_assoc (r.take _), List.take_append_drop]
    · simp [List.length_take]; omega
    · simp [List.length_take]; omega
    · simp
  have h4 : ∀ n, sysRead ⟨a ++ r ++ c, a.length + H.LOG_ACTION_SIZE + H.SIZEOF_SIZE_T⟩
        (Page.fresh n G.pageSize).data G.pageSize
      = (G.pageSize, (r.drop (H.LOG_ACTION_SIZE + H.SIZEOF_SIZE_T)).take G.pageSize,
          ⟨a ++ r ++ c, a.length + H.LOG_ACTION_SIZE + H.SIZEOF_SIZE_T + G.pageSize⟩) := by
    intro n
    apply sysRead_at _ (a ++ r.take (H.LOG_ACTION_SIZE + H.SIZEOF_SIZE_T))
      ((r.drop (H.LOG_ACTION_SIZE + H.SIZEOF_SIZE_T)).take G.pageSize)
      ((r.drop (H.LOG_ACTION_SIZE + H.SIZEOF_SIZE_T)).drop G.pageSize ++ c)
    · simp only [List.append_assoc]
      rw [← List.append_assoc (List.take _ (List.drop _ r)), List.take_append_drop,
        ← List.append_assoc (r.take _), List.take_append_drop]
    · simp [List.length_take]; omega
    · simp [List.length_take]; omega
    · simp [Page.fresh]
  have h5 : lseekCur ⟨a ++ r ++ c, a.length + H.LOG_ACTION_SIZE⟩
      (((recordSize H G : Nat) : Int) - (H.LOG_ACTION_SIZE : Int))
      = ⟨a ++ r ++ c, a.length + recordSize H G⟩ := by
    have : ((recordSize H G : Nat) : Int) - (H.LOG_ACTION_SIZE : Int)
        = ((H.SIZEOF_SIZE_T + G.pageSize : Nat) : Int) := by rw [hR]; push_cast; ring
    rw [this, lseekCur_add]
    simp only [hR]
    congr 1
    omega
  rw [forwardReplay]
  simp only [h2, h3, h4, h5, if_true, isChange]
  have hlen : (a ++ r).length = a.length + recordSize H G := by simp [hr]
  by_cases hc : strcmp (List.take H.LOG_ACTION_SIZE r) (LOG_ACTION_CHANGE H) = 0
  · simp only [hc, if_true, decide_True, recordPage, hlen, hR]
    congr 2
    omega
  · simp only [hc, if_false, decide_False, hlen]
    rfl

theorem forwardReplay_nil (H : Header) (G : GlobalConfiguration) (hA : 0 < H.LOG_ACTION_SIZE)
    (pre rt : Bytes) (source : PageReadWriter) (fuel : Nat) :
    forwardReplay H G (fuel + 1) ⟨pre, pre.length⟩ rt source = some (⟨pre, pre.length⟩, source) := by
  rw [forwardReplay]
  have h : sysRead ⟨pre, pre.length⟩ rt H.LOG_ACTION_SIZE = (0, rt, ⟨pre, pre.length⟩) := by
    unfold sysRead
    simp
  simp only [h]
  have : (0 : Nat) ≠ H.LOG_ACTION_SIZE := by omega
  simp [this]

theorem forwardReplay_all (H : Header) (G : GlobalConfiguration) (hA : 0 < H.LOG_ACTION_SIZE)
    (recs : List Bytes) :
    ∀ (pre rt : Bytes) (source : PageReadWriter),
    (∀ r ∈ recs, r.length = recordSize H G) → rt.length ≤ H.LOG_ACTION_SIZE →
    ∀ fuel, recs.length < fuel →
    forwardReplay H G fuel ⟨pre ++ recs.flatten, pre.length⟩ rt source
      = some (⟨pre ++ recs.flatten, (pre ++ recs.flatten).length⟩,
          writeAll source (changesOf H G recs)) := by
  induction recs with
  | nil =>
    intro pre rt source _ _ fuel hfuel
    obtain ⟨k, rfl⟩ : ∃ k, fuel = k + 1 := ⟨fuel - 1, by simp at hfuel; omega⟩
    simp only [List.flatten_nil, List.append_nil]
    rw [forwardReplay_nil H G hA]
    simp [writeAll, changesOf]
  | cons r recs ih =>
    intro pre rt source hrecs hrt fuel hfuel
    obtain ⟨k, rfl⟩ : ∃ k, fuel = k + 1 := ⟨fuel - 1, by simp at hfuel; omega⟩
    have hr := hrecs r (by simp)
    have hrecs1 : ∀ x ∈ recs, x.length = recordSize H G := fun x hx => hrecs x (by simp [hx])
    have hfile : pre ++ (r :: recs).flatten = pre ++ r ++ recs.flatten := by
      simp [List.append_assoc]
    rw [hfile, forwardReplay_succ H G pre r recs.flatten rt hr hrt k source]
    have hA1 : (r.take H.LOG_ACTION_SIZE).length ≤ H.LOG_ACTION_SIZE := by
      simp [List.length_take]
    rw [ih (pre ++ r) (r.take H.LOG_ACTION_SIZE) _ hrecs1 hA1 k (by simp at hfuel; omega)]
    by_cases hc : isChange H r = true
    · simp [hc, writeAll, changesOf, List.filter_cons]
    · simp [hc, writeAll, changesOf, List.filter_cons]

theorem afterLastCheckpoint_split (H : Header) (recs post : List Bytes)
    (h : afterLastCheckpoint H recs = some post) :
    ∃ pre ck, recs = pre ++ ck :: post ∧ isCheckpoint H ck = true
      ∧ ∀ r ∈ post, isCheckpoint H r = false := by
  induction recs generalizing post with
  | nil => simp [afterLastCheckpoint] at h
  | cons r rest ih =>
    rw [afterLastCheckpoint] at h
    cases hrest : afterLastCheckpoint H rest with
    | some l =>
      rw [hrest] at h
      simp only [Option.some.injEq] at h
      subst h
      obtain ⟨pre, ck, h1, h2, h3⟩ := ih l hrest
      exact ⟨r :: pre, ck, by simp [h1], h2, h3⟩
    | none =>
      rw [hrest] at h
      by_cases hc : isCheckpoint H r = true
      · simp only [hc, if_true, Option.some.injEq] at h
        subst h
        refine ⟨[], r, rfl, hc, ?_⟩
        clear ih
        induction rest with
        | nil => simp
        | cons x xs ihx =>
          rw [afterLastCheckpoint] at hrest
          cases hxs : afterLastCheckpoint H xs with
          | some l => rw [hxs] at hrest; simp at hrest
          | none =>
            rw [hxs] at hrest
            intro y hy
            rcases List.mem_cons.mp hy with rfl | hy
            · by_cases hy : isCheckpoint H y = true
              · simp [hy] at hrest
              · simpa using hy
            · exact ihx hxs y hy
      · simp [hc] at h

theorem recover_eq (H : Header) (G : GlobalConfiguration) (hA : 0 < H.LOG_ACTION_SIZE)
    (recs post : List Bytes) (source : PageReadWriter)
    (hrecs : ∀ r ∈ recs, r.length = recordSize H G)
    (hpost : afterLastCheckpoint H recs = some post) (pos0 : Nat) (fuel : Nat)
    (hfuel : recs.length < fuel) :
    recover H G fuel ⟨recs.flatten, pos0⟩ source
      = some (⟨recs.flatten, recs.flatten.length⟩, writeAll source (changesOf H G post)) := by
  obtain ⟨pre, ck, hsplit, hck, hnock⟩ := afterLastCheckpoint_split H recs post hpost
  subst hsplit
  have hckl : ck.length = recordSize H G := hrecs ck (by simp)
  have hpostl : ∀ r ∈ post, r.length = recordSize H G := fun r hr => hrecs r (by simp [hr])
  have hfile : (pre ++ ck :: post).flatten = pre.flatten ++ ck ++ post.flatten ++ [] := by simp
  have hlen : (pre ++ ck :: post).flatten.length = (pre.flatten ++ ck ++ post.flatten).length := by
    simp
  unfold recover
  rw [lseekEnd_zero]
  simp only
  rw [hlen, hfile, backwardScan_finds H G pre.flatten ck post hckl hck
    (fun r hr => ⟨hpostl r hr, hnock r hr⟩) [] _ (by simp) fuel
    (by simp at hfuel; omega)]
  simp only [lseekCur_add, List.append_nil]
  have h1 : pre.flatten.length + recordSize H G = (pre.flatten ++ ck).length := by simp [hckl]
  rw [h1, forwardReplay_all H G hA post (pre.flatten ++ ck) _ source hpostl
    (by simp [List.length_take]) fuel (by simp at hfuel; omega)]

theorem sysRead_avail (f : Fd) (buf : Bytes) (n : Nat) (h : f.pos + n ≤ f.bytes.length)
    (hbuf : buf.length ≤ n) :
    sysRead f buf n = (n, (f.bytes.drop f.pos).take n, ⟨f.bytes, f.pos + n⟩) := by
  unfold sysRead
  have hl : ((f.bytes.drop f.pos).take n).length = n := by
    simp [List.length_take, List.length_drop]; omega
  simp only [hl]
  rw [List.drop_of_length_le hbuf]
  simp

theorem backwardScan_step (H : Header) (G : GlobalConfiguration) (fd : Fd) (rt : Bytes)
    (hpos : recordSize H G ≤ fd.pos)
    (havail : fd.pos - recordSize H G + H.LOG_ACTION_SIZE ≤ fd.bytes.length)
    (hrt : rt.length ≤ H.LOG_ACTION_SIZE) (fuel : Nat) :
    backwardScan H G (fuel + 1) fd rt
      = if isCheckpoint H (fd.bytes.drop (fd.pos - recordSize H G)) then
          some (⟨fd.bytes, fd.pos - recordSize H G⟩,
            (fd.bytes.drop (fd.pos - recordSize H G)).take H.LOG_ACTION_SIZE)
        else backwardScan H G fuel ⟨fd.bytes, fd.pos - recordSize H G⟩
            ((fd.bytes.drop (fd.pos - recordSize H G)).take H.LOG_ACTION_SIZE) := by
  have h1 := lseekCur_sub fd (recordSize H G) hpos
  have h2 := sysRead_avail ⟨fd.bytes, fd.pos - recordSize H G⟩ rt H.LOG_ACTION_SIZE havail hrt
  have h3 : lseekCur ⟨fd.bytes, fd.pos - recordSize H G + H.LOG_ACTION_SIZE⟩
      (-((H.LOG_ACTION_SIZE : Nat) : Int)) = ⟨fd.bytes, fd.pos - recordSize H G⟩ := by
    rw [lseekCur_sub _ _ (by simp)]; simp
  rw [backwardScan]
  simp only [h1, h2, h3, isCheckpoint]
  by_cases hc : strcmp (List.take H.LOG_ACTION_SIZE (List.drop (fd.pos - recordSize H G) fd.bytes))
      (LOG_ACTION_CHECKPOINT H) = 0
  · simp [hc]
  · simp [hc]

/-- Once the cursor is less than one record from the start of the file and the
bytes under it are not a checkpoint tag, the backward scan repeats the same
step for ever. -/
theorem backwardScan_stuck (H : Header) (G : GlobalConfiguration) (fd : Fd)
    (hpos : fd.pos < recordSize H G)
    (havail : fd.pos + H.LOG_ACTION_SIZE ≤ fd.bytes.length)
    (hne : isCheckpoint H (fd.bytes.drop fd.pos) = false) :
    ∀ (fuel : Nat) (rt : Bytes), rt.length ≤ H.LOG_ACTION_SIZE →
      backwardScan H G fuel fd rt = none := by
  intro fuel
  induction fuel with
  | zero => intro rt _; rfl
  | succ k ih =>
    intro rt hrt
    have h1 := lseekCur_sub_fail fd (recordSize H G) hpos
    have h2 := sysRead_avail fd rt H.LOG_ACTION_SIZE havail hrt
    have h3 : lseekCur ⟨fd.bytes, fd.pos + H.LOG_ACTION_SIZE⟩
        (-((H.LOG_ACTION_SIZE : Nat) : Int)) = fd := by
      rw [lseekCur_sub _ _ (by simp)]; simp
    have hc : strcmp (List.take H.LOG_ACTION_SIZE (List.drop fd.pos fd.bytes))
        (LOG_ACTION_CHECKPOINT H) ≠ 0 := by
      simpa [isCheckpoint] using hne
    rw [backwardScan]
    simp only [h1, h2, h3, hc, ne_eq, not_false_eq_true, if_true]
    exact ih _ (by simp [List.length_take])

theorem backwardScan_no_checkpoint (H : Header) (G : GlobalConfiguration)
    (pre : List Bytes) :
    ∀ (post : List Bytes), pre ++ post ≠ [] →
    (∀ r ∈ pre ++ post, r.length = recordSize H G ∧ isCheckpoint H r = false) →
    0 < H.LOG_ACTION_SIZE →
    ∀ (fuel : Nat) (rt : Bytes), rt.length ≤ H.LOG_ACTION_SIZE →
      backwardScan H G fuel ⟨(pre ++ post).flatten, pre.flatten.length⟩ rt = none := by
  induction pre using List.reverseRecOn with
  | nil =>
    intro post hne hall hA fuel rt hrt
    simp only [List.nil_append] at hne hall ⊢
    cases post with
    | nil => exact absurd rfl hne
    | cons r rest =>
      have hr := hall r (by simp)
      apply backwardScan_stuck H G _ _ _ _ fuel rt hrt
      · simp [recordSize]; omega
      · simp [hr.1, recordSize]; omega
      · simp only [List.flatten_nil, List.length_nil, List.drop_zero, List.flatten_cons]
        have : isCheckpoint H (r ++ rest.flatten) = isCheckpoint H r := by
          unfold isCheckpoint
          rw [List.take_append_of_le_length (by rw [hr.1]; unfold recordSize; omega)]
        rw [this, hr.2]
  | append_singleton pre r ih =>
    intro post hne hall hA fuel rt hrt
    cases fuel with
    | zero => rfl
    | succ k =>
      have hr := hall r (by simp)
      have hfile : (pre ++ [r] ++ post).flatten = pre.flatten ++ r ++ post.flatten := by
        simp [List.append_assoc]
      have hpos : (pre ++ [r]).flatten.length = pre.flatten.length + recordSize H G := by
        simp [hr.1]
      rw [hfile, hpos, backwardScan_succ H G _ r _ rt hr.1 hrt k, hr.2]
      simp only [Bool.false_eq_true, if_false]
      have := ih (r :: post) (by simp) (by simpa using hall) hA k (r.take H.LOG_ACTION_SIZE)
        (by simp [List.length_take])
      simpa [List.append_assoc] using this




theorem stubRecord_length (H : Header) (G : GlobalConfiguration) (tag : Bytes)
    (htag : tag.length = H.LOG_ACTION_SIZE)
    (hD : H.LOG_SEEK_DELIM_SIZE ≤ H.SIZEOF_SIZE_T + G.pageSize) :
    (stubRecord H G tag).length = recordSize H G := by
  simp [stubRecord, recordSize, htag, length_DELIM]
  omega

theorem changeRecord_length (H : Header) (G : GlobalConfiguration) (page : Page)
    (hp : page.data.length = G.pageSize) :
    (changeRecord H G page).length = recordSize H G := by
  simp [changeRecord, recordSize, length_CHANGE, encodeSizeT_length, hp]
  omega

/-- A tag write at the end of the file followed by `writeLogStumb` appends one
stub record. -/
theorem writeLogStumb_append (H : Header) (G : GlobalConfiguration) (fd : Fd) (tag : Bytes)
    (hpos : fd.pos = fd.bytes.length)
    (hD : H.LOG_SEEK_DELIM_SIZE ≤ H.SIZEOF_SIZE_T + G.pageSize) :
    writeLogStumb H G (sysWrite fd tag)
      = ⟨fd.bytes ++ stubRecord H G tag, (fd.bytes ++ stubRecord H G tag).length⟩ := by
  unfold writeLogStumb
  rw [sysWrite_eof fd tag hpos]
  have hk : ((H.SIZEOF_SIZE_T + G.pageSize : Nat) : Int) - (H.LOG_SEEK_DELIM_SIZE : Int)
      = ((H.SIZEOF_SIZE_T + G.pageSize - H.LOG_SEEK_DELIM_SIZE : Nat) : Int) := by omega
  rw [hk, lseekCur_add]
  have := sysWrite_hole (fd.bytes ++ tag) (LOG_SEEK_DELIM H)
    (H.SIZEOF_SIZE_T + G.pageSize - H.LOG_SEEK_DELIM_SIZE)
  simp only [List.length_append] at this
  simp only [this, stubRecord, List.length_append, List.append_assoc, List.length_replicate]
  congr 1
  omega

theorem writeAll_calls (pages : List Page) : ∀ (source : PageReadWriter),
    (writeAll source pages).calls
      = source.calls ++ pages.map (fun p => StoreCall.write p.number p.data) := by
  induction pages with
  | nil => intro source; simp [writeAll]
  | cons p rest ih =>
    intro source
    have := ih (source.write p)
    simp only [writeAll, List.foldl_cons] at this ⊢
    rw [this]
    simp [PageReadWriter.write]

theorem writeAll_snoc (source : PageReadWriter) (pages : List Page) (p : Page) :
    writeAll source (pages ++ [p]) = (writeAll source pages).write p := by
  simp [writeAll, List.foldl_append]

theorem lastData_snoc (pages : List Page) (p : Page) (n : Nat) :
    lastData (pages ++ [p]) n = if p.number = n then some p.data else lastData pages n := by
  unfold lastData
  simp only [List.reverse_append, List.reverse_cons, List.reverse_nil, List.nil_append,
    List.singleton_append, List.find?_cons]
  by_cases h : p.number = n
  · simp [h]
  · have hb : (p.number == n) = false := by simp [h]
    simp [hb, h]

theorem writeAll_pages (source : PageReadWriter) (pages : List Page) (n : Nat) :
    (writeAll source pages).pages n = (lastData pages n).getD (source.pages n) := by
  induction pages using List.reverseRecOn with
  | nil => simp [writeAll, lastData]
  | append_singleton pages p ih =>
    rw [writeAll_snoc, lastData_snoc]
    by_cases h : p.number = n
    · simp [PageReadWriter.write, h]
    · have h1 : ¬ n = p.number := fun e => h e.symm
      simp [PageReadWriter.write, h, h1, ih]

theorem lastData_eq_none (pages : List Page) (n : Nat) (h : ∀ p ∈ pages, p.number ≠ n) :
    lastData pages n = none := by
  unfold lastData
  simp only [Option.map_eq_none', List.find?_eq_none, List.mem_reverse]
  intro p hp
  simpa using h p hp

theorem isChange_of_tag (H : Header) (hA : 7 < H.LOG_ACTION_SIZE) (r : Bytes)
    (h : r.take H.LOG_ACTION_SIZE = LOG_ACTION_DB_OPEN H
      ∨ r.take H.LOG_ACTION_SIZE = LOG_ACTION_DB_CLOSE H
      ∨ r.take H.LOG_ACTION_SIZE = LOG_ACTION_CHECKPOINT H) :
    isChange H r = false := by
  unfold isChange
  rw [decide_eq_false_iff_not, strcmp_eq_zero_iff, cstr_CHANGE H hA]
  rcases h with h | h | h
  · rw [h, cstr_DB_OPEN H hA]; decide
  · rw [h, cstr_DB_CLOSE H hA]; decide
  · rw [h, cstr_CHECKPOINT H hA]; decide

/-- C3. Recovery replay: on an existing journal of whole records with a
CHECKPOINT record, the constructor (given more fuel than there are records)
returns, having written to the store exactly the pages of the CHANGE records
after the last CHECKPOINT, in file order (so the last CHANGE of a page number
wins and no other page is touched), DB_OPEN and DB_CLOSE records being
skipped; it then appends one DB_OPEN record at the end of the file. -/
theorem recovery_replay (H : Header) (G : GlobalConfiguration) (source : PageReadWriter)
    (recs post : List Bytes) (fuel : Nat)
    (hA : 7 < H.LOG_ACTION_SIZE)
    (hD : H.LOG_SEEK_DELIM_SIZE ≤ H.SIZEOF_SIZE_T + G.pageSize)
    (hconf : G.cacheSize % G.pageSize = 0)
    (hrecs : ∀ r ∈ recs, r.length = recordSize H G)
    (hpost : afterLastCheckpoint H recs = some post)
    (hfuel : recs.length < fuel) :
    ∃ s, CachedPageReadWriter.new H G source (some recs.flatten) fuel = some (Except.ok s)
      ∧ s.m_source = writeAll source (changesOf H G post)
      ∧ s.m_source.calls
          = source.calls ++ (changesOf H G post).map (fun p => StoreCall.write p.number p.data)
      ∧ (∀ n d, lastData (changesOf H G post) n = some d → s.m_source.pages n = d)
      ∧ (∀ n, (∀ p ∈ changesOf H G post, p.number ≠ n) → s.m_source.pages n = source.pages n)
      ∧ (∀ r ∈ post, r.take H.LOG_ACTION_SIZE = LOG_ACTION_DB_OPEN H
            ∨ r.take H.LOG_ACTION_SIZE = LOG_ACTION_DB_CLOSE H →
          isChange H r = false)
      ∧ s.m_logFd.bytes = recs.flatten ++ stubRecord H G (LOG_ACTION_DB_OPEN H) := by
  have hrec := recover_eq H G (by omega) recs post source hrecs hpost 0 fuel hfuel
  unfold CachedPageReadWriter.new
  simp only [hconf, ne_eq, not_true_eq_false, if_false, hrec, lseekEnd_zero]
  refine ⟨_, rfl, rfl, writeAll_calls _ _, ?_, ?_, ?_, ?_⟩
  · intro n d hd
    simp only [writeAll_pages, hd, Option.getD_some]
  · intro n hn
    simp only [writeAll_pages, lastData_eq_none _ n hn, Option.getD_none]
  · intro r _ hr
    exact isChange_of_tag H hA r
      (by rcases hr with h | h; exact Or.inl h; exact Or.inr (Or.inl h))
  · rw [writeLogStumb_append H G _ _ rfl hD]

/-- C3, at the journal of the recovery scenario: page 5 ends as "BBBB" and
page 9 as "CCCC". -/
theorem recovery_replay_witness :
    (7 < exampleHeader.LOG_ACTION_SIZE
      ∧ exampleHeader.LOG_SEEK_DELIM_SIZE ≤ exampleHeader.SIZEOF_SIZE_T + exampleConf.pageSize
      ∧ exampleConf.cacheSize % exampleConf.pageSize = 0
      ∧ (∀ r ∈ scenarioJournal, r.length = recordSize exampleHeader exampleConf)
      ∧ afterLastCheckpoint exampleHeader scenarioJournal = some scenarioJournal.tail
      ∧ scenarioJournal.length < 5)
    ∧ ∃ s, CachedPageReadWriter.new exampleHeader exampleConf exampleStore
          (some scenarioJournal.flatten) 5 = some (Except.ok s)
      ∧ s.m_source.pages 5 = [66, 66, 66, 66] ∧ s.m_source.pages 9 = [67, 67, 67, 67]
      ∧ s.m_source.calls = [StoreCall.write 5 [65, 65, 65, 65],
          StoreCall.write 5 [66, 66, 66, 66], StoreCall.write 9 [67, 67, 67, 67]] := by
  refine ⟨⟨by decide, by decide, by decide, by decide, by decide, by decide⟩, ?_⟩
  obtain ⟨s, h1, _, h3, h4, _, _, _⟩ :=
    recovery_replay exampleHeader exampleConf exampleStore scenarioJournal scenarioJournal.tail 5
      (by decide) (by decide) (by decide) (by decide) (by decide) (by decide)
  exact ⟨s, h1, h4 5 _ (by decide), h4 9 _ (by decide), by rw [h3]; decide⟩

/-- C5, at a failing input: on an existing journal that holds one DB_OPEN
record and no CHECKPOINT, the constructor returns nothing and throws nothing,
whatever fuel the backward scan is given. -/
theorem missing_checkpoint_never_returns (fuel : Nat) :
    CachedPageReadWriter.new exampleHeader exampleConf exampleStore
      (some noCheckpointJournal) fuel = none := by
  have h := backwardScan_no_checkpoint exampleHeader exampleConf [noCheckpointJournal] []
    (by simp) (by decide) (by decide) fuel (List.replicate exampleHeader.LOG_ACTION_SIZE 0)
    (by simp)
  have hf : ([noCheckpointJournal] ++ ([] : List Bytes)).flatten = noCheckpointJournal := by simp
  have hl : ([noCheckpointJournal] : List Bytes).flatten.length
      = noCheckpointJournal.length := by simp
  rw [hf, hl] at h
  have hconf : exampleConf.cacheSize % exampleConf.pageSize = 0 := by decide
  simp only [CachedPageReadWriter.new, recover, lseekEnd_zero, h, hconf, ne_eq,
    not_true_eq_false, if_false]

/-- C4, at a failing input: on `[CHECKPOINT][CHANGE(5,"AAAA")]` followed by one
byte of a further record the backward scan, which steps back from the end of
the file, never meets a record boundary; the constructor returns nothing,
whatever the fuel. -/
theorem truncated_tail_never_returns (fuel : Nat) :
    CachedPageReadWriter.new exampleHeader exampleConf exampleStore
      (some truncatedJournal) fuel = none := by
  have hstuck : ∀ k rt, rt.length ≤ exampleHeader.LOG_ACTION_SIZE →
      backwardScan exampleHeader exampleConf k ⟨truncatedJournal, 1⟩ rt = none :=
    backwardScan_stuck exampleHeader exampleConf ⟨truncatedJournal, 1⟩
      (by decide) (by decide) (by decide)
  have h21 : ∀ k rt, rt.length ≤ exampleHeader.LOG_ACTION_SIZE →
      backwardScan exampleHeader exampleConf k ⟨truncatedJournal, 21⟩ rt = none := by
    intro k rt hrt
    cases k with
    | zero => rfl
    | succ k =>
      rw [backwardScan_step exampleHeader exampleConf ⟨truncatedJournal, 21⟩ rt
        (by decide) (by decide) hrt k]
      have hc : isCheckpoint exampleHeader
          (List.drop (21 - recordSize exampleHeader exampleConf) truncatedJournal) = false := by
        decide
      simp only [hc, Bool.false_eq_true, if_false]
      exact hstuck k _ (by simp [List.length_take])
  have h41 : ∀ k rt, rt.length ≤ exampleHeader.LOG_ACTION_SIZE →
      backwardScan exampleHeader exampleConf k ⟨truncatedJournal, 41⟩ rt = none := by
    intro k rt hrt
    cases k with
    | zero => rfl
    | succ k =>
      rw [backwardScan_step exampleHeader exampleConf ⟨truncatedJournal, 41⟩ rt
        (by decide) (by decide) hrt k]
      have hc : isCheckpoint exampleHeader
          (List.drop (41 - recordSize exampleHeader exampleConf) truncatedJournal) = false := by
        decide
      simp only [hc, Bool.false_eq_true, if_false]
      exact h21 k _ (by simp [List.length_take])
  have hlen : truncatedJournal.length = 41 := by decide
  have hconf : exampleConf.cacheSize % exampleConf.pageSize = 0 := by decide
  have hz : (List.replicate exampleHeader.LOG_ACTION_SIZE 0).length
      ≤ exampleHeader.LOG_ACTION_SIZE := by simp
  simp only [CachedPageReadWriter.new, recover, lseekEnd_zero, hlen, h41 fuel _ hz, hconf,
    ne_eq, not_true_eq_false, if_false]

/-- The forward replay alone, started after the checkpoint of a journal whose
trailing CHANGE record is cut inside its payload, still hands the incomplete
record to the store. -/
theorem forwardReplay_cut_payload :
    (forwardReplay exampleHeader exampleConf 3 ⟨cutPayloadJournal, 20⟩
        (List.replicate 8 0) exampleStore).map (fun r => r.2.calls)
      = some [StoreCall.write 5 [65, 65, 0, 0]] := by
  decide

/-! ## The position map -/

theorem mapFind_mapInsert (m : PosMap) (k v k' : Nat) :
    mapFind (mapInsert m k v) k' = if k' = k then some v else mapFind m k' := by
  induction m with
  | nil => simp [mapInsert, mapFind]
  | cons e rest ih =>
    obtain ⟨k0, v0⟩ := e
    simp only [mapInsert]
    by_cases h1 : k < k0
    · simp only [h1, if_true, mapFind]
    · simp only [h1, if_false]
      by_cases h2 : k = k0
      · subst h2
        simp only [if_true, mapFind]
        by_cases h3 : k' = k <;> simp [h3]
      · simp only [h2, if_false, mapFind, ih]
        by_cases h3 : k' = k0
        · subst h3
          have : ¬ k' = k := fun e => h2 e.symm
          simp [this]
        · simp [h3]

theorem mapFind_mapErase (m : PosMap) (k k' : Nat) :
    mapFind (mapErase m k) k' = if k' = k then none else mapFind m k' := by
  induction m with
  | nil => simp [mapErase, mapFind]
  | cons e rest ih =>
    obtain ⟨k0, v0⟩ := e
    unfold mapErase at ih ⊢
    by_cases h1 : k0 = k
    · subst h1
      simp only [List.filter_cons, bne_self_eq_false, Bool.false_eq_true, if_false, ih, mapFind]
      by_cases h3 : k' = k0 <;> simp [h3]
    · have hb : (k0 != k) = true := by simp [h1]
      simp only [List.filter_cons, hb, if_true, mapFind, ih]
      by_cases h3 : k' = k0
      · subst h3
        simp [h1]
      · simp [h3]

theorem mem_of_mapFind (m : PosMap) (k v : Nat) (h : mapFind m k = some v) : (k, v) ∈ m := by
  induction m with
  | nil => simp [mapFind] at h
  | cons e rest ih =>
    obtain ⟨k0, v0⟩ := e
    simp only [mapFind] at h
    by_cases h1 : k = k0
    · simp only [h1, if_true, Option.some.injEq] at h
      simp [h1, h]
    · simp only [h1, if_false] at h
      exact List.mem_cons_of_mem _ (ih h)

theorem mapFind_of_mem (m : PosMap) (k v : Nat)
    (hs : (m.map Prod.fst).Pairwise (fun a b => a < b)) (h : (k, v) ∈ m) :
    mapFind m k = some v := by
  induction m with
  | nil => simp at h
  | cons e rest ih =>
    obtain ⟨k0, v0⟩ := e
    simp only [List.map_cons, List.pairwise_cons] at hs
    simp only [mapFind]
    rcases List.mem_cons.mp h with h | h
    · simp only [Prod.mk.injEq] at h
      simp [h.1, h.2]
    · have hlt : k0 < k := hs.1 k (List.mem_map.mpr ⟨(k, v), h, rfl⟩)
      have : ¬ k = k0 := by omega
      simp only [this, if_false]
      exact ih hs.2 h

theorem mapFind_eq_none (m : PosMap) (k : Nat) (h : ∀ e ∈ m, e.1 ≠ k) : mapFind m k = none := by
  cases hf : mapFind m k with
  | none => rfl
  | some v => exact absurd rfl (h _ (mem_of_mapFind m k v hf))

theorem keys_mapInsert (m : PosMap) (k v : Nat) :
    ∀ x ∈ (mapInsert m k v).map Prod.fst, x = k ∨ x ∈ m.map Prod.fst := by
  induction m with
  | nil => simp [mapInsert]
  | cons e0 rest ih =>
    obtain ⟨k0, v0⟩ := e0
    intro x hx
    simp only [mapInsert] at hx
    by_cases h1 : k < k0
    · simp only [h1, if_true, List.map_cons, List.mem_cons] at hx
      simpa using hx
    · simp only [h1, if_false] at hx
      by_cases h2 : k = k0
      · simp only [h2, if_true, List.map_cons, List.mem_cons] at hx
        simp only [List.map_cons, List.mem_cons]
        rcases hx with hx | hx
        · exact Or.inl (by rw [hx, h2])
        · exact Or.inr (Or.inr hx)
      · simp only [h2, if_false, List.map_cons, List.mem_cons] at hx
        simp only [List.map_cons, List.mem_cons]
        rcases hx with hx | hx
        · exact Or.inr (Or.inl hx)
        · rcases ih x hx with h | h
          · exact Or.inl h
          · exact Or.inr (Or.inr h)

theorem sorted_mapInsert (m : PosMap) (k v : Nat)
    (hs : (m.map Prod.fst).Pairwise (fun a b => a < b)) :
    ((mapInsert m k v).map Prod.fst).Pairwise (fun a b => a < b) := by
  induction m with
  | nil => simp [mapInsert]
  | cons e0 rest ih =>
    obtain ⟨k0, v0⟩ := e0
    simp only [List.map_cons, List.pairwise_cons] at hs
    simp only [mapInsert]
    by_cases h1 : k < k0
    · simp only [h1, if_true, List.map_cons, List.pairwise_cons, List.mem_cons]
      refine ⟨?_, hs.1, hs.2⟩
      intro x hx
      rcases hx with hx | hx
      · omega
      · have := hs.1 x hx
        omega
    · simp only [h1, if_false]
      by_cases h2 : k = k0
      · simp only [h2, if_true, List.map_cons, List.pairwise_cons]
        exact ⟨hs.1, hs.2⟩
      · simp only [h2, if_false, List.map_cons, List.pairwise_cons]
        refine ⟨?_, ih hs.2⟩
        intro x hx
        rcases keys_mapInsert rest k v x hx with h | h
        · omega
        · exact hs.1 x h

theorem sorted_mapErase (m : PosMap) (k : Nat)
    (hs : (m.map Prod.fst).Pairwise (fun a b => a < b)) :
    ((mapErase m k).map Prod.fst).Pairwise (fun a b => a < b) := by
  unfold mapErase
  exact hs.sublist ((List.filter_sublist _).map _)

theorem mem_mapErase (m : PosMap) (k : Nat) (e : Nat × Nat) :
    e ∈ mapErase m k ↔ e ∈ m ∧ e.1 ≠ k := by
  simp [mapErase]

/-! ## Slot contents -/

theorem pageAt_eq_some (cache : List (Option Page)) (i p : Nat) :
    pageAt cache i = some p ↔ ∃ pg, cache[i]? = some (some pg) ∧ pg.number = p := by
  unfold pageAt
  split
  · next pg h => simp [h]
  · next h =>
    constructor
    · intro h1; cases h1
    · rintro ⟨pg, h1, _⟩; exact absurd h1 (h pg)

theorem pageAt_of_getElem (cache : List (Option Page)) (i : Nat) (pg : Page)
    (h : cache[i]? = some (some pg)) : pageAt cache i = some pg.number := by
  rw [pageAt_eq_some]; exact ⟨pg, h, rfl⟩

theorem pageAt_lt (cache : List (Option Page)) (i p : Nat) (h : pageAt cache i = some p) :
    i < cache.length := by
  obtain ⟨pg, h1, _⟩ := (pageAt_eq_some cache i p).mp h
  by_contra hc
  rw [List.getElem?_eq_none (by omega)] at h1
  cases h1

theorem pageAt_set (cache : List (Option Page)) (j : Nat) (x : Option Page) (i : Nat)
    (hj : j < cache.length) :
    pageAt (cache.set j x) i = if i = j then x.map Page.number else pageAt cache i := by
  unfold pageAt
  rw [List.getElem?_set]
  by_cases h : j = i
  · subst h
    simp only [if_true, hj]
    cases x <;> rfl
  · have : ¬ i = j := fun e => h e.symm
    simp only [h, this, if_false]

theorem list_set_eq_self {α : Type} (l : List α) (i : Nat) (a : α) (h : l[i]? = some a) :
    l.set i a = l := by
  apply List.ext_getElem?
  intro j
  rw [List.getElem?_set]
  by_cases hij : i = j
  · subst hij
    have hi : i < l.length := by
      by_contra hc
      rw [List.getElem?_eq_none (by omega)] at h
      cases h
    simp [hi, h]
  · simp [hij]

/-- The well-formedness of a cache, with the position map and the slots
related pointwise. -/
theorem consistent_iff (N : Nat) (s : CachedPageReadWriter) :
    Consistent N s ↔
      s.m_cache.length = N ∧ s.m_isDirty.length = N ∧ s.m_lruList.Perm (List.range N)
      ∧ (s.m_posInCache.map Prod.fst).Pairwise (fun a b => a < b)
      ∧ (∀ p i, mapFind s.m_posInCache p = some i ↔ pageAt s.m_cache i = some p)
      ∧ (∀ i, s.m_isDirty[i]? = some true → pageAt s.m_cache i ≠ none) := by
  unfold Consistent
  constructor
  · rintro ⟨h1, h2, h3, h4, h5, h6, h7⟩
    refine ⟨h1, h2, h3, h4, ?_, ?_⟩
    · intro p i
      constructor
      · intro hf
        exact h5 _ (mem_of_mapFind _ _ _ hf)
      · intro hp
        have hi : i < N := h1 ▸ pageAt_lt _ _ _ hp
        rcases h6 i hi with h | h
        · rw [hp] at h; cases h
        · rw [hp] at h; simpa using h
    · intro i hd
      have hi : i < N := by
        by_contra hc
        rw [List.getElem?_eq_none (by omega)] at hd
        cases hd
      exact h7 i hi hd
  · rintro ⟨h1, h2, h3, h4, h5, h6⟩
    refine ⟨h1, h2, h3, h4, ?_, ?_, ?_⟩
    · intro e he
      exact (h5 e.1 e.2).mp (mapFind_of_mem _ _ _ h4 he)
    · intro i _
      cases hp : pageAt s.m_cache i with
      | none => exact Or.inl rfl
      | some p => exact Or.inr (by simpa using (h5 p i).mpr hp)
    · intro i _ hd
      exact h6 i hd

/-! ## Flushing one slot -/

theorem flushCacheCell_some (s s' : CachedPageReadWriter) (i : Nat)
    (h : flushCacheCell s i = some s') :
    s'.m_cache = s.m_cache ∧ s'.m_lruList = s.m_lruList ∧ s'.m_posInCache = s.m_posInCache
    ∧ s'.m_writesCounter = s.m_writesCounter ∧ s'.m_logFd = s.m_logFd
    ∧ s'.m_isDirty = s.m_isDirty.set i false
    ∧ ((s.m_isDirty[i]? = some false ∧ s'.m_source = s.m_source)
       ∨ (s.m_isDirty[i]? = some true
          ∧ ∃ pg, s.m_cache[i]? = some (some pg) ∧ s'.m_source = s.m_source.write pg)) := by
  unfold flushCacheCell at h
  split at h
  · cases h
  · next hd =>
    simp only [Option.some.injEq] at h
    subst h
    exact ⟨rfl, rfl, rfl, rfl, rfl, (list_set_eq_self _ _ _ hd).symm, Or.inl ⟨hd, rfl⟩⟩
  · next hd =>
    split at h
    · next pg hpg =>
      simp only [Option.some.injEq] at h
      subst h
      exact ⟨rfl, rfl, rfl, rfl, rfl, rfl, Or.inr ⟨hd, pg, hpg, rfl⟩⟩
    · cases h

theorem flushCacheCell_total (s : CachedPageReadWriter) (i : Nat)
    (hi : i < s.m_isDirty.length)
    (hd : s.m_isDirty[i]? = some true → pageAt s.m_cache i ≠ none) :
    ∃ s', flushCacheCell s i = some s' := by
  unfold flushCacheCell
  have hsome : s.m_isDirty[i]? = some (s.m_isDirty[i]) := List.getElem?_eq_getElem hi
  cases hb : s.m_isDirty[i] with
  | false => rw [hsome, hb]; exact ⟨_, rfl⟩
  | true =>
    rw [hb] at hsome
    have hp := hd hsome
    rw [hsome]
    simp only
    cases hp1 : pageAt s.m_cache i with
    | none => exact absurd hp1 hp
    | some p =>
      obtain ⟨pg, hpg, _⟩ := (pageAt_eq_some _ _ _).mp hp1
      rw [hpg]
      exact ⟨_, rfl⟩

theorem getElem?_set_false_true (l : List Bool) (i j : Nat)
    (h : (l.set i false)[j]? = some true) : l[j]? = some true ∧ j ≠ i := by
  rw [List.getElem?_set] at h
  by_cases hij : i = j
  · subst hij
    simp only [if_true] at h
    split at h <;> cases h
  · simp only [hij, if_false] at h
    exact ⟨h, fun e => hij e.symm⟩

/-- Well-formedness only looks at the slots, the LRU list and the map, and
survives the clearing of dirty flags. -/
theorem consistent_frame {N : Nat} {s t : CachedPageReadWriter} (hc : Consistent N s)
    (h1 : t.m_cache = s.m_cache) (h2 : t.m_lruList = s.m_lruList)
    (h3 : t.m_posInCache = s.m_posInCache) (h4 : t.m_isDirty.length = s.m_isDirty.length)
    (h5 : ∀ i : Nat, t.m_isDirty[i]? = some true → s.m_isDirty[i]? = some true) :
    Consistent N t := by
  rw [consistent_iff] at hc ⊢
  obtain ⟨c1, c2, c3, c4, c5, c6⟩ := hc
  rw [h1, h2, h3, h4]
  exact ⟨c1, c2, c3, c4, c5, fun i hi => c6 i (h5 i hi)⟩

theorem flushCacheCell_consistent {N : Nat} {s s' : CachedPageReadWriter} {i : Nat}
    (hc : Consistent N s) (h : flushCacheCell s i = some s') : Consistent N s' := by
  obtain ⟨h1, h2, h3, _, _, h6, _⟩ := flushCacheCell_some s s' i h
  refine consistent_frame hc h1 h2 h3 (by rw [h6]; simp) ?_
  intro j hj
  rw [h6] at hj
  exact (getElem?_set_false_true _ _ _ hj).1

/-! ## Taking a slot -/

theorem freeCachePosition_some (s s' : CachedPageReadWriter) (b : Nat)
    (h : freeCachePosition s = some (b, s')) :
    s.m_lruList.getLast? = some b ∧ b < s.m_cache.length
    ∧ s'.m_cache = s.m_cache.set b none ∧ s'.m_lruList = s.m_lruList
    ∧ s'.m_posInCache = evictedMap s b
    ∧ s'.m_writesCounter = s.m_writesCounter ∧ s'.m_logFd = s.m_logFd
    ∧ ((pageAt s.m_cache b = none ∧ s'.m_isDirty = s.m_isDirty ∧ s'.m_source = s.m_source)
      ∨ (pageAt s.m_cache b ≠ none ∧ s'.m_isDirty = s.m_isDirty.set b false
        ∧ ((s.m_isDirty[b]? = some false ∧ s'.m_source = s.m_source)
          ∨ (s.m_isDirty[b]? = some true
            ∧ ∃ pg, s.m_cache[b]? = some (some pg) ∧ s'.m_source = s.m_source.write pg)))) := by
  unfold freeCachePosition at h
  split at h
  · cases h
  · next cachePos hlast =>
    split at h
    · cases h
    · next hnone =>
      simp only [Option.some.injEq, Prod.mk.injEq] at h
      obtain ⟨rfl, rfl⟩ := h
      have hlt : cachePos < s.m_cache.length := by
        by_contra hc
        rw [List.getElem?_eq_none (by omega)] at hnone
        cases hnone
      have hp : pageAt s.m_cache cachePos = none := by
        unfold pageAt; rw [hnone]
      refine ⟨hlast, hlt, (list_set_eq_self _ _ _ hnone).symm, rfl, ?_, rfl, rfl,
        Or.inl ⟨hp, rfl, rfl⟩⟩
      unfold evictedMap; rw [hp]
    · next pg hpg =>
      split at h
      · cases h
      · next s1 hs1 =>
        simp only [Option.some.injEq, Prod.mk.injEq] at h
        obtain ⟨rfl, rfl⟩ := h
        obtain ⟨f1, f2, f3, f4, f5, f6, f7⟩ := flushCacheCell_some s s1 cachePos hs1
        have hlt : cachePos < s.m_cache.length := by
          by_contra hc
          rw [List.getElem?_eq_none (by omega)] at hpg
          cases hpg
        have hp : pageAt s.m_cache cachePos = some pg.number := pageAt_of_getElem _ _ _ hpg
        refine ⟨hlast, hlt, by simp [f1], f2, ?_, f4, f5, Or.inr ⟨by simp [hp], f6, f7⟩⟩
        unfold evictedMap; rw [hp]; simp [f3]

theorem mapFind_evictedMap {N : Nat} {s : CachedPageReadWriter} (hc : Consistent N s)
    (b p : Nat) :
    mapFind (evictedMap s b) p = if mapFind s.m_posInCache p = some b then none
      else mapFind s.m_posInCache p := by
  obtain ⟨_, _, _, _, c5, _⟩ := (consistent_iff N s).mp hc
  unfold evictedMap
  cases hq : pageAt s.m_cache b with
  | none =>
    have : ¬ mapFind s.m_posInCache p = some b := by
      intro h; rw [c5] at h; rw [hq] at h; cases h
    simp [this]
  | some q =>
    simp only [mapFind_mapErase]
    by_cases hpq : p = q
    · subst hpq
      simp [(c5 p b).mpr hq]
    · have : ¬ mapFind s.m_posInCache p = some b := by
        intro h; rw [c5, hq] at h; exact hpq (Option.some.inj h).symm
      simp [hpq, this]

theorem sorted_evictedMap {N : Nat} {s : CachedPageReadWriter} (hc : Consistent N s) (b : Nat) :
    ((evictedMap s b).map Prod.fst).Pairwise (fun a b => a < b) := by
  obtain ⟨_, _, _, c4, _, _⟩ := (consistent_iff N s).mp hc
  unfold evictedMap
  split
  · exact sorted_mapErase _ _ c4
  · exact c4

theorem consistent_evict {N : Nat} {s s' : CachedPageReadWriter} {b : Nat}
    (hc : Consistent N s) (hb : b < N)
    (h1 : s'.m_cache = s.m_cache.set b none) (h2 : s'.m_lruList = s.m_lruList)
    (h3 : s'.m_posInCache = evictedMap s b)
    (h4 : s'.m_isDirty = s.m_isDirty.set b false
      ∨ (s'.m_isDirty = s.m_isDirty ∧ pageAt s.m_cache b = none)) :
    Consistent N s' := by
  have hm := mapFind_evictedMap hc b
  have hsort := sorted_evictedMap hc b
  obtain ⟨c1, c2, c3, c4, c5, c6⟩ := (consistent_iff N s).mp hc
  rw [consistent_iff, h1, h2, h3]
  have hbl : b < s.m_cache.length := by omega
  refine ⟨by simp [c1], ?_, c3, hsort, ?_, ?_⟩
  · rcases h4 with h4 | h4
    · rw [h4]; simp [c2]
    · rw [h4.1]; exact c2
  · intro p i
    rw [hm, pageAt_set _ _ _ _ hbl]
    by_cases hi : i = b
    · subst hi
      by_cases hf : mapFind s.m_posInCache p = some i
      · simp [hf]
      · simp [hf]
    · simp only [hi, if_false]
      by_cases hf : mapFind s.m_posInCache p = some b
      · simp only [hf, if_true]
        constructor
        · intro h; cases h
        · intro h
          have := (c5 p i).mpr h
          rw [hf] at this
          exact absurd (Option.some.inj this).symm hi
      · simp only [hf, if_false]
        exact c5 p i
  · intro i hd
    rw [pageAt_set _ _ _ _ hbl]
    rcases h4 with h4 | h4
    · rw [h4] at hd
      obtain ⟨hd1, hne⟩ := getElem?_set_false_true _ _ _ hd
      simp only [hne, if_false]
      exact c6 i hd1
    · rw [h4.1] at hd
      by_cases hi : i = b
      · subst hi; exact absurd h4.2 (c6 i hd)
      · simp only [hi, if_false]
        exact c6 i hd

theorem freeCachePosition_consistent {N : Nat} {s s' : CachedPageReadWriter} {b : Nat}
    (hc : Consistent N s) (h : freeCachePosition s = some (b, s')) :
    Consistent N s' ∧ b < N ∧ pageAt s'.m_cache b = none := by
  obtain ⟨_, f2, f3, f4, f5, _, _, f8⟩ := freeCachePosition_some s s' b h
  have hbN : b < N := by rw [← hc.1]; exact f2
  refine ⟨consistent_evict hc hbN f3 f4 f5 ?_, hbN, ?_⟩
  · rcases f8 with ⟨h1, h2, _⟩ | ⟨_, h2, _⟩
    · exact Or.inr ⟨h2, h1⟩
    · exact Or.inl h2
  · rw [f3, pageAt_set _ _ _ _ f2]; simp

theorem lru_getLast {N : Nat} {s : CachedPageReadWriter} (hc : Consistent N s) (hN : 0 < N) :
    ∃ b, s.m_lruList.getLast? = some b ∧ b < N := by
  have hperm := hc.2.2.1
  have hlen : s.m_lruList.length = N := by rw [hperm.length_eq, List.length_range]
  cases hl : s.m_lruList.getLast? with
  | none =>
    rw [List.getLast?_eq_none_iff] at hl
    rw [hl] at hlen
    simp at hlen
    omega
  | some b =>
    refine ⟨b, rfl, ?_⟩
    have hm : b ∈ s.m_lruList := List.mem_of_getLast?_eq_some hl
    exact List.mem_range.mp (hperm.mem_iff.mp hm)

theorem freeCachePosition_total {N : Nat} {s : CachedPageReadWriter} (hc : Consistent N s)
    (hN : 0 < N) : ∃ b s', freeCachePosition s = some (b, s') := by
  obtain ⟨b, hb, hbN⟩ := lru_getLast hc hN
  obtain ⟨c1, c2, _, _, _, c6⟩ := (consistent_iff N s).mp hc
  unfold freeCachePosition
  rw [hb]
  simp only
  have hsome : s.m_cache[b]? = some (s.m_cache[b]) := List.getElem?_eq_getElem (by omega)
  rw [hsome]
  cases hx : s.m_cache[b] with
  | none => exact ⟨_, _, rfl⟩
  | some pg =>
    simp only
    obtain ⟨s1, hs1⟩ := flushCacheCell_total s b (by omega) (c6 b)
    rw [hs1]
    exact ⟨_, _, rfl⟩

theorem consistent_load {N : Nat} {s s' : CachedPageReadWriter} {b n : Nat} {q : Page}
    (hc : Consistent N s) (hb : b < N) (he : pageAt s.m_cache b = none)
    (hn : mapFind s.m_posInCache n = none) (hq : q.number = n)
    (h1 : s'.m_cache = s.m_cache.set b (some q)) (h2 : s'.m_lruList = s.m_lruList)
    (h3 : s'.m_posInCache = mapInsert s.m_posInCache n b)
    (h4 : s'.m_isDirty.length = N)
    (h5 : ∀ i : Nat, i ≠ b → s'.m_isDirty[i]? = some true → s.m_isDirty[i]? = some true) :
    Consistent N s' := by
  obtain ⟨c1, c2, c3, c4, c5, c6⟩ := (consistent_iff N s).mp hc
  rw [consistent_iff, h1, h2, h3]
  have hbl : b < s.m_cache.length := by omega
  refine ⟨by simp [c1], h4, c3, sorted_mapInsert _ _ _ c4, ?_, ?_⟩
  · intro p i
    rw [mapFind_mapInsert, pageAt_set _ _ _ _ hbl]
    simp only [Option.map_some', hq]
    by_cases hp : p = n
    · subst hp
      by_cases hi : i = b
      · simp [hi]
      · simp only [if_true, hi, if_false]
        constructor
        · intro h; exact absurd (Option.some.inj h).symm hi
        · intro h; rw [← c5, hn] at h; cases h
    · simp only [hp, if_false]
      by_cases hi : i = b
      · subst hi
        simp only [if_true]
        constructor
        · intro h; rw [c5, he] at h; cases h
        · intro h; exact absurd (Option.some.inj h).symm hp
      · simp only [hi, if_false]
        exact c5 p i
  · intro i hd
    rw [pageAt_set _ _ _ _ hbl]
    by_cases hi : i = b
    · simp [hi]
    · simp only [hi, if_false]
      exact c6 i (h5 i hi hd)

theorem consistent_update {N : Nat} {s s' : CachedPageReadWriter} {b : Nat} {pg q : Page}
    (hc : Consistent N s) (hpg : s.m_cache[b]? = some (some pg))
    (hnum : q.number = pg.number)
    (h1 : s'.m_cache = s.m_cache.set b (some q)) (h2 : s'.m_lruList = s.m_lruList)
    (h3 : s'.m_posInCache = s.m_posInCache)
    (h4 : s'.m_isDirty.length = N)
    (h5 : ∀ i : Nat, i ≠ b → s'.m_isDirty[i]? = some true → s.m_isDirty[i]? = some true) :
    Consistent N s' := by
  obtain ⟨c1, c2, c3, c4, c5, c6⟩ := (consistent_iff N s).mp hc
  rw [consistent_iff, h1, h2, h3]
  have hp : pageAt s.m_cache b = some pg.number := pageAt_of_getElem _ _ _ hpg
  have hbl : b < s.m_cache.length := pageAt_lt _ _ _ hp
  have hpa : ∀ i, pageAt (s.m_cache.set b (some q)) i = pageAt s.m_cache i := by
    intro i
    rw [pageAt_set _ _ _ _ hbl]
    by_cases hi : i = b
    · simp [hi, hp, hnum]
    · simp [hi]
  refine ⟨by simp [c1], h4, c3, c4, ?_, ?_⟩
  · intro p i; rw [hpa]; exact c5 p i
  · intro i hd
    rw [hpa]
    by_cases hi : i = b
    · rw [hi, hp]; simp
    · exact c6 i (h5 i hi hd)

theorem consistent_lru {N : Nat} {s t : CachedPageReadWriter}
    (hc : Consistent N s) (h1 : t.m_cache = s.m_cache)
    (h2 : t.m_lruList.Perm s.m_lruList)
    (h3 : t.m_posInCache = s.m_posInCache) (h4 : t.m_isDirty = s.m_isDirty) :
    Consistent N t := by
  unfold Consistent at hc ⊢
  rw [h1, h3, h4]
  exact ⟨hc.1, hc.2.1, h2.trans hc.2.2.1, hc.2.2.2⟩

theorem touch_some (s s' : CachedPageReadWriter) (i : Nat) (h : touch s i = some s') :
    i ∈ s.m_lruList ∧ s' = { s with m_lruList := i :: s.m_lruList.erase i } := by
  unfold touch at h
  split at h
  · next hm => simp only [Option.some.injEq] at h; exact ⟨hm, h.symm⟩
  · cases h

theorem touch_consistent {N : Nat} {s s' : CachedPageReadWriter} {i : Nat}
    (hc : Consistent N s) (h : touch s i = some s') : Consistent N s' := by
  obtain ⟨hm, rfl⟩ := touch_some s s' i h
  exact consistent_lru hc rfl (List.perm_cons_erase hm).symm rfl rfl

theorem touch_total {N : Nat} {s : CachedPageReadWriter} {i : Nat}
    (hc : Consistent N s) (hi : i < N) : ∃ s', touch s i = some s' := by
  have hm : i ∈ s.m_lruList := hc.2.2.1.mem_iff.mpr (List.mem_range.mpr hi)
  unfold touch
  simp [hm]

theorem loadSlot_some (G : GlobalConfiguration) (s s2 : CachedPageReadWriter) (b n : Nat)
    (h : loadSlot G s n = some (b, s2)) :
    ∃ s1, freeCachePosition s = some (b, s1) ∧ b < s1.m_cache.length
      ∧ s2 = { s1 with m_cache := s1.m_cache.set b (some (Page.fresh n G.pageSize))
                       m_posInCache := mapInsert s1.m_posInCache n b } := by
  unfold loadSlot at h
  split at h
  · cases h
  · next b1 s1 hf =>
    split at h
    · next hlt =>
      simp only [Option.some.injEq, Prod.mk.injEq] at h
      obtain ⟨rfl, rfl⟩ := h
      exact ⟨s1, hf, hlt, rfl⟩
    · cases h

theorem loadSlot_total {N : Nat} (G : GlobalConfiguration) {s : CachedPageReadWriter}
    (hc : Consistent N s) (hN : 0 < N) (n : Nat) : ∃ b s2, loadSlot G s n = some (b, s2) := by
  obtain ⟨b, s1, hf⟩ := freeCachePosition_total hc hN
  obtain ⟨hc1, hb, _⟩ := freeCachePosition_consistent hc hf
  unfold loadSlot
  rw [hf]
  simp only
  have : b < s1.m_cache.length := by rw [hc1.1]; exact hb
  simp [this]

theorem mapFind_of_evicted_none {N : Nat} {s s1 : CachedPageReadWriter} {b n : Nat}
    (hc : Consistent N s) (hn : mapFind s.m_posInCache n = none)
    (hf : freeCachePosition s = some (b, s1)) : mapFind s1.m_posInCache n = none := by
  obtain ⟨_, _, _, _, f5, _⟩ := freeCachePosition_some s s1 b hf
  rw [f5, mapFind_evictedMap hc, hn]
  simp

theorem loadSlot_consistent {N : Nat} (G : GlobalConfiguration) {s s2 : CachedPageReadWriter}
    {b n : Nat} (hc : Consistent N s) (hn : mapFind s.m_posInCache n = none)
    (h : loadSlot G s n = some (b, s2)) :
    Consistent N s2 ∧ b < N ∧ mapFind s2.m_posInCache n = some b
      ∧ s2.m_cache[b]? = some (some (Page.fresh n G.pageSize)) := by
  obtain ⟨s1, hf, hlt, rfl⟩ := loadSlot_some G s s2 b n h
  obtain ⟨hc1, hb, hp⟩ := freeCachePosition_consistent hc hf
  have hn1 := mapFind_of_evicted_none hc hn hf
  refine ⟨consistent_load hc1 hb hp hn1 (q := Page.fresh n G.pageSize) rfl rfl rfl rfl
    hc1.2.1 (fun i _ h => h), hb, ?_, ?_⟩
  · simp [mapFind_mapInsert]
  · simp [List.getElem?_set, hlt]

/-! ## The operations keep the cache well-formed and are defined on
well-formed caches -/

theorem readMiss_some (G : GlobalConfiguration) (s s' : CachedPageReadWriter) (n : Nat)
    (h : readMiss G s n = some s') :
    ∃ b s1 pg, loadSlot G s n = some (b, s1) ∧ b < s1.m_isDirty.length
      ∧ s1.m_cache[b]? = some (some pg)
      ∧ s' = { s1 with m_isDirty := s1.m_isDirty.set b false
                       m_cache := s1.m_cache.set b (some (s1.m_source.read pg).1)
                       m_source := (s1.m_source.read pg).2 } := by
  unfold readMiss at h
  split at h
  · cases h
  · next b s1 hl =>
    split at h
    · next hlt =>
      split at h
      · next pg hpg =>
        simp only [Option.some.injEq] at h
        exact ⟨b, s1, pg, hl, hlt, hpg, h.symm⟩
      · cases h
    · cases h

theorem readMiss_consistent {N : Nat} (G : GlobalConfiguration) {s s' : CachedPageReadWriter}
    {n : Nat} (hc : Consistent N s) (hn : mapFind s.m_posInCache n = none)
    (h : readMiss G s n = some s') :
    Consistent N s' ∧ ∃ b, b < N ∧ mapFind s'.m_posInCache n = some b
      ∧ s'.m_cache[b]? = some (some ⟨n, s'.m_source.pages n⟩) := by
  obtain ⟨b, s1, pg, hl, hlt, hpg, rfl⟩ := readMiss_some G s s' n h
  obtain ⟨hc1, hb, hm, hfresh⟩ := loadSlot_consistent G hc hn hl
  rw [hfresh] at hpg
  simp only [Option.some.injEq] at hpg
  subst hpg
  refine ⟨consistent_update hc1 hfresh (q := (s1.m_source.read (Page.fresh n G.pageSize)).1)
    rfl rfl rfl rfl (by simp [hc1.2.1]) ?_, b, hb, hm, ?_⟩
  · intro i hi hd
    simp only at hd
    exact (getElem?_set_false_true _ _ _ hd).1
  · have hbl : b < s1.m_cache.length := by rw [hc1.1]; exact hb
    simp [List.getElem?_set, hbl, PageReadWriter.read, Page.fresh]

theorem readMiss_total {N : Nat} (G : GlobalConfiguration) {s : CachedPageReadWriter}
    (hc : Consistent N s) (hN : 0 < N) (n : Nat) (hn : mapFind s.m_posInCache n = none) :
    ∃ s', readMiss G s n = some s' := by
  obtain ⟨b, s1, hl⟩ := loadSlot_total G hc hN n
  obtain ⟨hc1, hb, _, hfresh⟩ := loadSlot_consistent G hc hn hl
  unfold readMiss
  rw [hl]
  simp only
  have : b < s1.m_isDirty.length := by rw [hc1.2.1]; exact hb
  simp only [this, if_true, hfresh]
  exact ⟨_, rfl⟩

theorem readHit_some (G : GlobalConfiguration) (s s' : CachedPageReadWriter) (n : Nat)
    (d : Bytes) (h : readHit G s n = some (d, s')) :
    ∃ b pg, mapFind s.m_posInCache n = some b ∧ s.m_cache[b]? = some (some pg)
      ∧ touch s b = some s'
      ∧ d = memcpy (List.replicate G.pageSize 0) pg.data G.pageSize := by
  unfold readHit at h
  split at h
  · cases h
  · next b hb =>
    split at h
    · next pg hpg =>
      split at h
      · cases h
      · next s1 ht =>
        simp only [Option.some.injEq, Prod.mk.injEq] at h
        obtain ⟨rfl, rfl⟩ := h
        exact ⟨b, pg, hb, hpg, ht, rfl⟩
    · cases h

theorem readHit_total {N : Nat} (G : GlobalConfiguration) {s : CachedPageReadWriter}
    (hc : Consistent N s) {n b : Nat} (hb : mapFind s.m_posInCache n = some b) :
    ∃ d s', readHit G s n = some (d, s') := by
  obtain ⟨c1, _, _, _, c5, _⟩ := (consistent_iff N s).mp hc
  have hp := (c5 n b).mp hb
  obtain ⟨pg, hpg, _⟩ := (pageAt_eq_some _ _ _).mp hp
  have hbN : b < N := c1 ▸ pageAt_lt _ _ _ hp
  obtain ⟨s1, ht⟩ := touch_total hc hbN
  unfold readHit
  rw [hb]
  simp only [hpg, ht]
  exact ⟨_, _, rfl⟩

theorem read_consistent {N : Nat} (G : GlobalConfiguration) {s s' : CachedPageReadWriter}
    {n : Nat} {d : Bytes} (hc : Consistent N s) (h : CachedPageReadWriter.read G s n = some (d, s')) :
    Consistent N s' := by
  unfold CachedPageReadWriter.read at h
  split at h
  · obtain ⟨b, pg, _, _, ht, _⟩ := readHit_some G s s' n d h
    exact touch_consistent hc ht
  · next hn =>
    split at h
    · cases h
    · next s1 hm =>
      obtain ⟨hc1, _⟩ := readMiss_consistent G hc hn hm
      obtain ⟨b, pg, _, _, ht, _⟩ := readHit_some G s1 s' n d h
      exact touch_consistent hc1 ht

theorem read_total {N : Nat} (G : GlobalConfiguration) {s : CachedPageReadWriter}
    (hc : Consistent N s) (hN : 0 < N) (n : Nat) :
    ∃ d s', CachedPageReadWriter.read G s n = some (d, s') := by
  unfold CachedPageReadWriter.read
  cases hf : mapFind s.m_posInCache n with
  | some b => exact readHit_total G hc hf
  | none =>
    simp only
    obtain ⟨s1, hm⟩ := readMiss_total G hc hN n hf
    obtain ⟨hc1, b, _, hb, _⟩ := readMiss_consistent G hc hf hm
    rw [hm]
    exact readHit_total G hc1 hb

/-! ### flush -/

theorem flushCells_some (l : PosMap) :
    ∀ (s s' : CachedPageReadWriter), flushCells l s = some s' →
    s'.m_cache = s.m_cache ∧ s'.m_lruList = s.m_lruList ∧ s'.m_posInCache = s.m_posInCache
    ∧ s'.m_writesCounter = s.m_writesCounter ∧ s'.m_logFd = s.m_logFd
    ∧ s'.m_isDirty.length = s.m_isDirty.length
    ∧ (∀ i : Nat, s'.m_isDirty[i]? = some true →
        s.m_isDirty[i]? = some true ∧ ∀ e ∈ l, e.2 ≠ i) := by
  induction l with
  | nil =>
    intro s s' h
    simp only [flushCells, Option.some.injEq] at h
    subst h
    exact ⟨rfl, rfl, rfl, rfl, rfl, rfl, fun i hi => ⟨hi, by simp⟩⟩
  | cons e rest ih =>
    intro s s' h
    simp only [flushCells] at h
    split at h
    · cases h
    · next s1 h1 =>
      obtain ⟨f1, f2, f3, f4, f5, f6, _⟩ := flushCacheCell_some s s1 e.2 h1
      obtain ⟨g1, g2, g3, g4, g5, g6, g7⟩ := ih s1 s' h
      refine ⟨g1.trans f1, g2.trans f2, g3.trans f3, g4.trans f4, g5.trans f5,
        by rw [g6, f6]; simp, ?_⟩
      intro i hi
      obtain ⟨hi1, hi2⟩ := g7 i hi
      rw [f6] at hi1
      obtain ⟨hi3, hi4⟩ := getElem?_set_false_true _ _ _ hi1
      refine ⟨hi3, ?_⟩
      intro x hx
      rcases List.mem_cons.mp hx with rfl | hx
      · exact fun e => hi4 e.symm
      · exact hi2 x hx

theorem flushCells_consistent {N : Nat} {l : PosMap} {s s' : CachedPageReadWriter}
    (hc : Consistent N s) (h : flushCells l s = some s') : Consistent N s' := by
  obtain ⟨g1, g2, g3, _, _, g6, g7⟩ := flushCells_some l s s' h
  exact consistent_frame hc g1 g2 g3 g6 (fun i hi => (g7 i hi).1)

theorem flushCells_total {N : Nat} (l : PosMap) :
    ∀ {s : CachedPageReadWriter}, Consistent N s → (∀ e ∈ l, e.2 < N) →
      ∃ s', flushCells l s = some s' := by
  induction l with
  | nil => intro s _ _; exact ⟨s, rfl⟩
  | cons e rest ih =>
    intro s hc hl
    obtain ⟨_, c2, _, _, _, c6⟩ := (consistent_iff N s).mp hc
    obtain ⟨s1, h1⟩ := flushCacheCell_total s e.2 (by rw [c2]; exact hl e (by simp)) (c6 e.2)
    obtain ⟨s2, h2⟩ := ih (flushCacheCell_consistent hc h1)
      (fun x hx => hl x (List.mem_cons_of_mem _ hx))
    exact ⟨s2, by simp only [flushCells, h1, h2]⟩

theorem map_slots_lt {N : Nat} {s : CachedPageReadWriter} (hc : Consistent N s) :
    ∀ e ∈ s.m_posInCache, e.2 < N := by
  intro e he
  have := hc.2.2.2.2.1 e he
  rw [← hc.1]
  exact pageAt_lt _ _ _ this

theorem flush_some (H : Header) (G : GlobalConfiguration) (s s' : CachedPageReadWriter)
    (h : CachedPageReadWriter.flush H G s = some s') :
    ∃ s1, flushCells s.m_posInCache s = some s1
      ∧ s' = { s1 with
          m_source := s1.m_source.flush
          m_logFd := writeLogStumb H G (sysWrite s1.m_logFd (LOG_ACTION_CHECKPOINT H)) } := by
  unfold CachedPageReadWriter.flush at h
  split at h
  · cases h
  · next s1 h1 =>
    simp only [Option.some.injEq] at h
    exact ⟨s1, h1, h.symm⟩

theorem flush_consistent {N : Nat} (H : Header) (G : GlobalConfiguration)
    {s s' : CachedPageReadWriter} (hc : Consistent N s)
    (h : CachedPageReadWriter.flush H G s = some s') : Consistent N s' := by
  obtain ⟨s1, h1, rfl⟩ := flush_some H G s s' h
  exact consistent_frame (flushCells_consistent hc h1) rfl rfl rfl rfl (fun _ hi => hi)

theorem flush_total {N : Nat} (H : Header) (G : GlobalConfiguration)
    {s : CachedPageReadWriter} (hc : Consistent N s) :
    ∃ s', CachedPageReadWriter.flush H G s = some s' := by
  obtain ⟨s1, h1⟩ := flushCells_total s.m_posInCache hc (map_slots_lt hc)
  unfold CachedPageReadWriter.flush
  rw [h1]
  exact ⟨_, rfl⟩

/-! ### write -/

theorem writeCount_some (H : Header) (G : GlobalConfiguration) (s s' : CachedPageReadWriter)
    (h : writeCount H G s = some s') :
    (s.m_writesCounter = H.CHECKPOINT_THRESHOLD
      ∧ CachedPageReadWriter.flush H G { s with m_writesCounter := 0 } = some s')
    ∨ (s.m_writesCounter ≠ H.CHECKPOINT_THRESHOLD
      ∧ s' = { s with m_writesCounter := s.m_writesCounter + 1 }) := by
  unfold writeCount at h
  split at h
  · next hT => exact Or.inl ⟨hT, h⟩
  · next hT => simp only [Option.some.injEq] at h; exact Or.inr ⟨hT, h.symm⟩

theorem writeCount_consistent {N : Nat} (H : Header) (G : GlobalConfiguration)
    {s s' : CachedPageReadWriter} (hc : Consistent N s) (h : writeCount H G s = some s') :
    Consistent N s' := by
  rcases writeCount_some H G s s' h with ⟨_, hf⟩ | ⟨_, rfl⟩
  · exact flush_consistent H G
      (consistent_frame (t := { s with m_writesCounter := 0 }) hc rfl rfl rfl rfl
        (fun _ hi => hi)) hf
  · exact consistent_frame hc rfl rfl rfl rfl (fun _ hi => hi)

theorem writeCount_total {N : Nat} (H : Header) (G : GlobalConfiguration)
    {s : CachedPageReadWriter} (hc : Consistent N s) : ∃ s', writeCount H G s = some s' := by
  unfold writeCount
  split
  · exact flush_total H G
      (consistent_frame (t := { s with m_writesCounter := 0 }) hc rfl rfl rfl rfl
        (fun _ hi => hi))
  · exact ⟨_, rfl⟩

theorem writeLog_consistent {N : Nat} (H : Header) (G : GlobalConfiguration)
    {s : CachedPageReadWriter} (hc : Consistent N s) (page : Page) :
    Consistent N (writeLog H G s page) :=
  consistent_frame hc rfl rfl rfl rfl (fun _ hi => hi)

theorem writeHit_some (G : GlobalConfiguration) (s s' : CachedPageReadWriter) (page : Page)
    (h : writeHit G s page = some s') :
    ∃ b pg s2, mapFind s.m_posInCache page.number = some b ∧ b < s.m_isDirty.length
      ∧ s.m_cache[b]? = some (some pg)
      ∧ flushCacheCell { s with
          m_isDirty := s.m_isDirty.set b true
          m_cache := s.m_cache.set b
            (some { pg with data := memcpy pg.data page.data G.pageSize }) } b = some s2
      ∧ touch s2 b = some s' := by
  unfold writeHit at h
  split at h
  · cases h
  · next b hb =>
    split at h
    · next hlt =>
      split at h
      · next pg hpg =>
        simp only at h
        split at h
        · cases h
        · next s2 hs2 => exact ⟨b, pg, s2, hb, hlt, hpg, hs2, h⟩
      · cases h
    · cases h

theorem writeHit_dirtied_consistent {N : Nat}
    {s : CachedPageReadWriter} (hc : Consistent N s) {b : Nat} {pg : Page} (d : Bytes)
    (hpg : s.m_cache[b]? = some (some pg)) :
    Consistent N { s with
      m_isDirty := s.m_isDirty.set b true
      m_cache := s.m_cache.set b (some { pg with data := d }) } := by
  refine consistent_update hc hpg (q := { pg with data := d }) rfl rfl rfl rfl
    (by simp [hc.2.1]) ?_
  intro i hi hd
  simp only at hd
  rw [List.getElem?_set] at hd
  have : ¬ b = i := fun e => hi e.symm
  simpa [this] using hd

theorem writeHit_consistent {N : Nat} (G : GlobalConfiguration) {s s' : CachedPageReadWriter}
    {page : Page} (hc : Consistent N s) (h : writeHit G s page = some s') :
    Consistent N s' := by
  obtain ⟨b, pg, s2, _, _, hpg, hf, ht⟩ := writeHit_some G s s' page h
  exact touch_consistent
    (flushCacheCell_consistent (writeHit_dirtied_consistent hc _ hpg) hf) ht

theorem writeHit_total {N : Nat} (G : GlobalConfiguration) {s : CachedPageReadWriter}
    (hc : Consistent N s) {page : Page} {b : Nat}
    (hb : mapFind s.m_posInCache page.number = some b) :
    ∃ s', writeHit G s page = some s' := by
  obtain ⟨c1, c2, _, _, c5, _⟩ := (consistent_iff N s).mp hc
  have hp := (c5 page.number b).mp hb
  obtain ⟨pg, hpg, _⟩ := (pageAt_eq_some _ _ _).mp hp
  have hbN : b < N := c1 ▸ pageAt_lt _ _ _ hp
  have hc1 := writeHit_dirtied_consistent hc (memcpy pg.data page.data G.pageSize) hpg
  obtain ⟨_, d2, _, _, _, d6⟩ := (consistent_iff N _).mp hc1
  obtain ⟨s2, hs2⟩ := flushCacheCell_total _ b (by rw [d2]; exact hbN) (d6 b)
  obtain ⟨s3, hs3⟩ := touch_total (flushCacheCell_consistent hc1 hs2) hbN
  unfold writeHit
  rw [hb]
  have hlt : b < s.m_isDirty.length := by rw [c2]; exact hbN
  simp only [hlt, if_true, hpg, hs2, hs3]
  exact ⟨_, rfl⟩

theorem write_some (H : Header) (G : GlobalConfiguration) (s s' : CachedPageReadWriter)
    (page : Page) (h : CachedPageReadWriter.write H G s page = some s') :
    ∃ s1, writeCount H G s = some s1
      ∧ ((∃ b, mapFind s1.m_posInCache page.number = some b
            ∧ writeHit G (writeLog H G s1 page) page = some s')
        ∨ (mapFind s1.m_posInCache page.number = none
            ∧ ∃ b s3, loadSlot G (writeLog H G s1 page) page.number = some (b, s3)
              ∧ writeHit G s3 page = some s')) := by
  unfold CachedPageReadWriter.write at h
  split at h
  · cases h
  · next s1 h1 =>
    refine ⟨s1, h1, ?_⟩
    simp only at h
    split at h
    · next b hb => exact Or.inl ⟨b, hb, h⟩
    · next hn =>
      split at h
      · cases h
      · next b s3 hl => exact Or.inr ⟨hn, b, s3, hl, h⟩

theorem write_consistent {N : Nat} (H : Header) (G : GlobalConfiguration)
    {s s' : CachedPageReadWriter} {page : Page} (hc : Consistent N s)
    (h : CachedPageReadWriter.write H G s page = some s') : Consistent N s' := by
  obtain ⟨s1, h1, h2⟩ := write_some H G s s' page h
  have hc1 := writeLog_consistent H G (writeCount_consistent H G hc h1) page
  rcases h2 with ⟨_, _, hh⟩ | ⟨hn, b, s3, hl, hh⟩
  · exact writeHit_consistent G hc1 hh
  · exact writeHit_consistent G (loadSlot_consistent G hc1 hn hl).1 hh

theorem write_total {N : Nat} (H : Header) (G : GlobalConfiguration)
    {s : CachedPageReadWriter} (hc : Consistent N s) (hN : 0 < N) (page : Page) :
    ∃ s', CachedPageReadWriter.write H G s page = some s' := by
  obtain ⟨s1, h1⟩ := writeCount_total H G hc
  have hc1 := writeLog_consistent H G (writeCount_consistent H G hc h1) page
  unfold CachedPageReadWriter.write
  rw [h1]
  simp only
  cases hf : mapFind (writeLog H G s1 page).m_posInCache page.number with
  | some b => exact writeHit_total G hc1 hf
  | none =>
    simp only
    obtain ⟨b, s3, hl⟩ := loadSlot_total G hc1 hN page.number
    obtain ⟨hc3, _, hb, _⟩ := loadSlot_consistent G hc1 hf hl
    rw [hl]
    exact writeHit_total G hc3 hb

/-! ### deallocatePageNumber -/

theorem deallocatePageNumber_some (s s' : CachedPageReadWriter) (n : Nat)
    (h : CachedPageReadWriter.deallocatePageNumber s n = some s') :
    (mapFind s.m_posInCache n = none
      ∧ s' = { s with m_source := s.m_source.deallocatePageNumber n })
    ∨ (∃ slot, mapFind s.m_posInCache n = some slot ∧ slot < s.m_cache.length
        ∧ slot < s.m_isDirty.length ∧ slot ∈ s.m_lruList
        ∧ s' = { s with
            m_cache := s.m_cache.set slot none
            m_isDirty := s.m_isDirty.set slot false
            m_lruList := s.m_lruList.erase slot ++ [slot]
            m_posInCache := mapErase s.m_posInCache n
            m_source := s.m_source.deallocatePageNumber n }) := by
  unfold CachedPageReadWriter.deallocatePageNumber at h
  split at h
  · next hn => simp only [Option.some.injEq] at h; exact Or.inl ⟨hn, h.symm⟩
  · next slot hs =>
    split at h
    · next hcond =>
      simp only [Option.some.injEq] at h
      exact Or.inr ⟨slot, hs, hcond.1, hcond.2.1, hcond.2.2, h.symm⟩
    · cases h

theorem erase_append_self_perm (l : List Nat) (a : Nat) (h : a ∈ l) :
    (l.erase a ++ [a]).Perm l :=
  (List.perm_append_comm.trans (List.perm_cons_erase h).symm)

theorem deallocatePageNumber_consistent {N : Nat} {s s' : CachedPageReadWriter} {n : Nat}
    (hc : Consistent N s) (h : CachedPageReadWriter.deallocatePageNumber s n = some s') :
    Consistent N s' := by
  rcases deallocatePageNumber_some s s' n h with ⟨_, rfl⟩ | ⟨slot, hs, h1, _, h3, rfl⟩
  · exact consistent_frame hc rfl rfl rfl rfl (fun _ hi => hi)
  · obtain ⟨c1, _, _, _, c5, _⟩ := (consistent_iff N s).mp hc
    have hp := (c5 n slot).mp hs
    have hev : evictedMap s slot = mapErase s.m_posInCache n := by
      unfold evictedMap; rw [hp]
    have hmid : Consistent N { s with
        m_cache := s.m_cache.set slot none
        m_isDirty := s.m_isDirty.set slot false
        m_posInCache := mapErase s.m_posInCache n } :=
      consistent_evict hc (by omega) rfl rfl hev.symm (Or.inl rfl)
    exact consistent_frame
      (consistent_lru (t := { s with
        m_cache := s.m_cache.set slot none
        m_isDirty := s.m_isDirty.set slot false
        m_lruList := s.m_lruList.erase slot ++ [slot]
        m_posInCache := mapErase s.m_posInCache n }) hmid rfl
        (erase_append_self_perm _ _ h3) rfl rfl)
      rfl rfl rfl rfl (fun _ hi => hi)

theorem deallocatePageNumber_total {N : Nat} {s : CachedPageReadWriter}
    (hc : Consistent N s) (n : Nat) :
    ∃ s', CachedPageReadWriter.deallocatePageNumber s n = some s' := by
  obtain ⟨c1, c2, c3, _, c5, _⟩ := (consistent_iff N s).mp hc
  unfold CachedPageReadWriter.deallocatePageNumber
  cases hf : mapFind s.m_posInCache n with
  | none => exact ⟨_, rfl⟩
  | some slot =>
    simp only
    have hp := (c5 n slot).mp hf
    have hl := pageAt_lt _ _ _ hp
    have hm : slot ∈ s.m_lruList := c3.mem_iff.mpr (List.mem_range.mpr (by omega))
    have : slot < s.m_cache.length ∧ slot < s.m_isDirty.length ∧ slot ∈ s.m_lruList :=
      ⟨hl, by omega, hm⟩
    simp only [this, and_self, if_true]
    exact ⟨_, rfl⟩

/-! ### Runs -/

theorem step_consistent {N : Nat} (H : Header) (G : GlobalConfiguration)
    {s s' : CachedPageReadWriter} {op : Op} (hc : Consistent N s)
    (h : step H G s op = some s') : Consistent N s' := by
  cases op with
  | read n =>
    simp only [step, Option.map_eq_some'] at h
    obtain ⟨⟨d, s1⟩, h1, rfl⟩ := h
    exact read_consistent G hc h1
  | write page => exact write_consistent H G hc h
  | flush => exact flush_consistent H G hc h
  | deallocatePageNumber n => exact deallocatePageNumber_consistent hc h

theorem step_total {N : Nat} (H : Header) (G : GlobalConfiguration)
    {s : CachedPageReadWriter} (hc : Consistent N s) (hN : 0 < N) (op : Op) :
    ∃ s', step H G s op = some s' := by
  cases op with
  | read n =>
    obtain ⟨d, s1, h1⟩ := read_total G hc hN n
    exact ⟨s1, by simp [step, h1]⟩
  | write page => exact write_total H G hc hN page
  | flush => exact flush_total H G hc
  | deallocatePageNumber n => exact deallocatePageNumber_total hc n

theorem run_consistent {N : Nat} (H : Header) (G : GlobalConfiguration) (ops : List Op) :
    ∀ {s s' : CachedPageReadWriter}, Consistent N s → run H G s ops = some s' →
      Consistent N s' := by
  induction ops with
  | nil => intro s s' hc h; simp only [run, Option.some.injEq] at h; exact h ▸ hc
  | cons op rest ih =>
    intro s s' hc h
    simp only [run] at h
    split at h
    · cases h
    · next s1 h1 => exact ih (step_consistent H G hc h1) h

theorem run_total {N : Nat} (H : Header) (G : GlobalConfiguration) (hN : 0 < N)
    (ops : List Op) :
    ∀ {s : CachedPageReadWriter}, Consistent N s → ∃ s', run H G s ops = some s' := by
  induction ops with
  | nil => intro s _; exact ⟨s, rfl⟩
  | cons op rest ih =>
    intro s hc
    obtain ⟨s1, h1⟩ := step_total H G hc hN op
    obtain ⟨s2, h2⟩ := ih (step_consistent H G hc h1)
    exact ⟨s2, by simp only [run, h1, h2]⟩

theorem run_append (H : Header) (G : GlobalConfiguration) (ops1 ops2 : List Op) :
    ∀ (s : CachedPageReadWriter),
      run H G s (ops1 ++ ops2) = (run H G s ops1).bind (fun s1 => run H G s1 ops2) := by
  induction ops1 with
  | nil => intro s; simp [run]
  | cons op rest ih =>
    intro s
    simp only [List.cons_append, run]
    cases step H G s op with
    | none => simp
    | some s1 => simp [ih]

/-! ### Construction -/

theorem new_ok (H : Header) (G : GlobalConfiguration) (source : PageReadWriter)
    (journal : Option Bytes) (fuel : Nat) (s : CachedPageReadWriter)
    (h : CachedPageReadWriter.new H G source journal fuel = some (Except.ok s)) :
    G.cacheSize % G.pageSize = 0
    ∧ s.m_cache = List.replicate (slots G) none
    ∧ s.m_isDirty = List.replicate (slots G) false
    ∧ s.m_lruList = List.range (slots G)
    ∧ s.m_posInCache = [] ∧ s.m_writesCounter = 0
    ∧ ∃ fd source1,
        (match journal with
          | none => some (writeLogStumb H G (sysWrite ⟨[], 0⟩ (LOG_ACTION_CHECKPOINT H)), source)
          | some bytes => recover H G fuel ⟨bytes, 0⟩ source) = some (fd, source1)
        ∧ s.m_source = source1
        ∧ s.m_logFd = writeLogStumb H G (sysWrite (lseekEnd fd 0) (LOG_ACTION_DB_OPEN H)) := by
  unfold CachedPageReadWriter.new at h
  split at h
  · cases h
  · next hconf =>
    simp only at h
    split at h
    · cases h
    · next fd source1 ho =>
      simp only [Option.some.injEq, Except.ok.injEq] at h
      subst h
      exact ⟨by simpa using hconf, rfl, rfl, rfl, rfl, rfl, fd, source1, ho, rfl, rfl⟩

theorem new_consistent (H : Header) (G : GlobalConfiguration) (source : PageReadWriter)
    (journal : Option Bytes) (fuel : Nat) (s : CachedPageReadWriter)
    (h : CachedPageReadWriter.new H G source journal fuel = some (Except.ok s)) :
    Consistent (slots G) s := by
  obtain ⟨_, h1, h2, h3, h4, _⟩ := new_ok H G source journal fuel s h
  unfold Consistent
  rw [h1, h2, h3, h4]
  refine ⟨by simp, by simp, List.Perm.refl _, by simp, by simp, ?_, ?_⟩
  · intro i hi
    left
    unfold pageAt
    simp [List.getElem?_replicate, hi]
  · intro i hi hd
    simp [List.getElem?_replicate, hi] at hd

/-! ## The capacity bound -/

theorem consistent_slots_nodup {N : Nat} {s : CachedPageReadWriter} (hc : Consistent N s) :
    (s.m_posInCache.map Prod.snd).Nodup ∧ (s.m_posInCache.map Prod.fst).Nodup := by
  obtain ⟨_, _, _, c4, c5, _, _⟩ := hc
  have hk : (s.m_posInCache.map Prod.fst).Nodup := by
    unfold List.Nodup
    exact c4.imp (fun h => Nat.ne_of_lt h)
  refine ⟨?_, hk⟩
  apply List.Nodup.map_on _ hk.of_map
  intro x hx y hy hxy
  have h1 := c5 x hx
  have h2 := c5 y hy
  rw [hxy, h2] at h1
  exact Prod.ext (Option.some.inj h1).symm hxy

theorem mem_slots_iff {N : Nat} {s : CachedPageReadWriter} (hc : Consistent N s) (i : Nat) :
    i ∈ s.m_posInCache.map Prod.snd ↔ i < N ∧ (pageAt s.m_cache i).isSome = true := by
  obtain ⟨c1, _, _, _, c5, _⟩ := (consistent_iff N s).mp hc
  constructor
  · intro h
    obtain ⟨e, he, rfl⟩ := List.mem_map.mp h
    have := hc.2.2.2.2.1 e he
    exact ⟨c1 ▸ pageAt_lt _ _ _ this, by rw [this]; rfl⟩
  · rintro ⟨_, h⟩
    obtain ⟨p, hp⟩ := Option.isSome_iff_exists.mp h
    exact List.mem_map.mpr ⟨(p, i), mem_of_mapFind _ _ _ ((c5 p i).mpr hp), rfl⟩

theorem countP_isSome_eq (cache : List (Option Page)) :
    cache.countP Option.isSome
      = ((List.range cache.length).filter (fun i => (pageAt cache i).isSome)).length := by
  induction cache using List.reverseRecOn with
  | nil => simp
  | append_singleton l x ih =>
    rw [List.countP_append, ih, List.length_append, List.length_singleton, List.range_succ,
      List.filter_append, List.length_append]
    congr 1
    · congr 1
      apply List.filter_congr
      intro i hi
      have hi : i < l.length := List.mem_range.mp hi
      unfold pageAt
      rw [List.getElem?_append_left hi]
    · unfold pageAt
      cases x with
      | none => simp
      | some pg => simp

/-- C9. Capacity bound: in every state reached from construction by calls of
read, write, flush and deallocatePageNumber, the position map lists distinct
page numbers, as many as there are non-empty slots, and at most
`cacheSize / pageSize` of them. -/
theorem capacity_bound (H : Header) (G : GlobalConfiguration) (source : PageReadWriter)
    (journal : Option Bytes) (fuel : Nat) (s0 s : CachedPageReadWriter) (ops : List Op)
    (hnew : CachedPageReadWriter.new H G source journal fuel = some (Except.ok s0))
    (hrun : run H G s0 ops = some s) :
    (s.m_posInCache.map Prod.fst).Nodup
    ∧ s.m_posInCache.length = s.m_cache.countP Option.isSome
    ∧ s.m_posInCache.length ≤ G.cacheSize / G.pageSize := by
  have hc : Consistent (slots G) s :=
    run_consistent H G ops (new_consistent H G source journal fuel s0 hnew) hrun
  obtain ⟨hs, hk⟩ := consistent_slots_nodup hc
  have hperm : (s.m_posInCache.map Prod.snd).Perm
      ((List.range s.m_cache.length).filter (fun i => (pageAt s.m_cache i).isSome)) := by
    rw [List.perm_ext_iff_of_nodup hs ((List.nodup_range _).filter _)]
    intro i
    rw [mem_slots_iff hc, List.mem_filter, List.mem_range, hc.1]
  have hlen : s.m_posInCache.length
      = ((List.range s.m_cache.length).filter (fun i => (pageAt s.m_cache i).isSome)).length := by
    rw [← hperm.length_eq, List.length_map]
  refine ⟨hk, by rw [countP_isSome_eq, hlen], ?_⟩
  rw [hlen]
  calc _ ≤ (List.range s.m_cache.length).length := List.length_filter_le _ _
    _ = G.cacheSize / G.pageSize := by rw [List.length_range, hc.1]; rfl

/-- C9, on the example cache of 2 slots after write(1), write(2), read(1),
write(3): two resident pages. -/
theorem capacity_bound_witness :
    (CachedPageReadWriter.new exampleHeader exampleConf exampleStore none 0
        = some (Except.ok exampleFresh)
      ∧ run exampleHeader exampleConf exampleFresh exampleOps = some (exampleAfter exampleOps))
    ∧ ((exampleAfter exampleOps).m_posInCache.map Prod.fst).Nodup
    ∧ (exampleAfter exampleOps).m_posInCache.length
        = (exampleAfter exampleOps).m_cache.countP Option.isSome
    ∧ (exampleAfter exampleOps).m_posInCache.length
        ≤ exampleConf.cacheSize / exampleConf.pageSize :=
  ⟨⟨rfl, rfl⟩,
    capacity_bound exampleHeader exampleConf exampleStore none 0 exampleFresh
      (exampleAfter exampleOps) exampleOps rfl rfl⟩

/-! ## The operations on a well-formed cache without dirty slots -/

theorem clean_set_false {s : CachedPageReadWriter} (hcl : Clean s) (i : Nat) :
    s.m_isDirty.set i false = s.m_isDirty := by
  by_cases hi : i < s.m_isDirty.length
  · apply list_set_eq_self
    have h1 : s.m_isDirty[i]? = some (s.m_isDirty[i]) := List.getElem?_eq_getElem hi
    cases hb : s.m_isDirty[i] with
    | false => rw [h1, hb]
    | true => rw [hb] at h1; exact absurd h1 (hcl i)
  · exact List.set_eq_of_length_le (by omega)

theorem clean_getElem {s : CachedPageReadWriter} (hcl : Clean s) {i : Nat}
    (hi : i < s.m_isDirty.length) : s.m_isDirty[i]? = some false := by
  have h1 : s.m_isDirty[i]? = some (s.m_isDirty[i]) := List.getElem?_eq_getElem hi
  cases hb : s.m_isDirty[i] with
  | false => rw [h1, hb]
  | true => rw [hb] at h1; exact absurd h1 (hcl i)

theorem flushCacheCell_clean {s : CachedPageReadWriter} (hcl : Clean s) {i : Nat}
    (hi : i < s.m_isDirty.length) : flushCacheCell s i = some s := by
  unfold flushCacheCell
  rw [clean_getElem hcl hi]

theorem flushCells_clean {s : CachedPageReadWriter} (hcl : Clean s) (l : PosMap)
    (hl : ∀ e ∈ l, e.2 < s.m_isDirty.length) : flushCells l s = some s := by
  induction l with
  | nil => rfl
  | cons e rest ih =>
    simp only [flushCells, flushCacheCell_clean hcl (hl e (by simp))]
    exact ih (fun x hx => hl x (List.mem_cons_of_mem _ hx))

theorem flush_clean {N : Nat} (H : Header) (G : GlobalConfiguration)
    {s : CachedPageReadWriter} (hc : Consistent N s) (hcl : Clean s) :
    CachedPageReadWriter.flush H G s
      = some { s with
          m_source := s.m_source.flush
          m_logFd := writeLogStumb H G (sysWrite s.m_logFd (LOG_ACTION_CHECKPOINT H)) } := by
  unfold CachedPageReadWriter.flush
  rw [flushCells_clean hcl _ (fun e he => by rw [hc.2.1]; exact map_slots_lt hc e he)]

theorem freeCachePosition_clean {N : Nat} {s : CachedPageReadWriter}
    (hc : Consistent N s) (hcl : Clean s) {b : Nat} (hb : s.m_lruList.getLast? = some b) :
    freeCachePosition s
      = some (b, { s with m_cache := s.m_cache.set b none
                          m_posInCache := evictedMap s b }) := by
  have hbN : b < N :=
    List.mem_range.mp (hc.2.2.1.mem_iff.mp (List.mem_of_getLast?_eq_some hb))
  have hbl : b < s.m_cache.length := by rw [hc.1]; exact hbN
  have hsome : s.m_cache[b]? = some (s.m_cache[b]) := List.getElem?_eq_getElem hbl
  unfold freeCachePosition
  rw [hb]
  simp only
  rw [hsome]
  cases hx : s.m_cache[b] with
  | none =>
    rw [hx] at hsome
    have hp : pageAt s.m_cache b = none := by unfold pageAt; rw [hsome]
    simp only [Option.some.injEq, Prod.mk.injEq, true_and]
    have h1 : s.m_cache.set b none = s.m_cache := list_set_eq_self _ _ _ hsome
    have h2 : evictedMap s b = s.m_posInCache := by unfold evictedMap; rw [hp]
    rw [h1, h2]
  | some pg =>
    rw [hx] at hsome
    have hp : pageAt s.m_cache b = some pg.number := pageAt_of_getElem _ _ _ hsome
    simp only
    rw [flushCacheCell_clean hcl (by rw [hc.2.1]; exact hbN)]
    simp only [Option.some.injEq, Prod.mk.injEq, true_and]
    have h2 : evictedMap s b = mapErase s.m_posInCache pg.number := by
      unfold evictedMap; rw [hp]
    rw [h2]

theorem loadSlot_clean {N : Nat} (G : GlobalConfiguration) {s : CachedPageReadWriter}
    (hc : Consistent N s) (hcl : Clean s) {b : Nat} (hb : s.m_lruList.getLast? = some b)
    (n : Nat) :
    loadSlot G s n
      = some (b, { s with
          m_cache := s.m_cache.set b (some (Page.fresh n G.pageSize))
          m_posInCache := mapInsert (evictedMap s b) n b }) := by
  have hbN : b < N :=
    List.mem_range.mp (hc.2.2.1.mem_iff.mp (List.mem_of_getLast?_eq_some hb))
  unfold loadSlot
  rw [freeCachePosition_clean hc hcl hb]
  have : b < (s.m_cache.set b none).length := by simp [hc.1, hbN]
  simp only [this, if_true, List.set_set]

theorem touch_eq {N : Nat} {s : CachedPageReadWriter} (hc : Consistent N s) {i : Nat}
    (hi : i < N) : touch s i = some { s with m_lruList := i :: s.m_lruList.erase i } := by
  have hm : i ∈ s.m_lruList := hc.2.2.1.mem_iff.mpr (List.mem_range.mpr hi)
  unfold touch
  simp [hm]

/-- A read of a resident page. -/
theorem read_hit {N : Nat} (G : GlobalConfiguration) {s : CachedPageReadWriter}
    (hc : Consistent N s) {n i : Nat} (hi : mapFind s.m_posInCache n = some i) :
    ∃ pg, s.m_cache[i]? = some (some pg) ∧ pg.number = n
      ∧ CachedPageReadWriter.read G s n
        = some (pg.data.take G.pageSize, { s with m_lruList := i :: s.m_lruList.erase i }) := by
  obtain ⟨c1, _, _, _, c5, _⟩ := (consistent_iff N s).mp hc
  have hp := (c5 n i).mp hi
  obtain ⟨pg, hpg, hnum⟩ := (pageAt_eq_some _ _ _).mp hp
  have hiN : i < N := c1 ▸ pageAt_lt _ _ _ hp
  refine ⟨pg, hpg, hnum, ?_⟩
  unfold CachedPageReadWriter.read
  rw [hi]
  simp only
  unfold readHit
  rw [hi]
  simp only [hpg, touch_eq hc hiN, memcpy, List.drop_replicate, Nat.sub_self,
    List.replicate_zero, List.append_nil]

/-- A read of a page that is not resident, on a cache without dirty slots. -/
theorem read_miss {N : Nat} (G : GlobalConfiguration) {s : CachedPageReadWriter}
    (hc : Consistent N s) (hcl : Clean s) {n b : Nat}
    (hn : mapFind s.m_posInCache n = none) (hb : s.m_lruList.getLast? = some b) :
    CachedPageReadWriter.read G s n
      = some ((s.m_source.pages n).take G.pageSize,
          { loaded s b ⟨n, s.m_source.pages n⟩ with
            m_source := (s.m_source.read (Page.fresh n G.pageSize)).2 }) := by
  have hbN : b < N :=
    List.mem_range.mp (hc.2.2.1.mem_iff.mp (List.mem_of_getLast?_eq_some hb))
  have hbl : b < s.m_cache.length := by rw [hc.1]; exact hbN
  have hbd : b < s.m_isDirty.length := by rw [hc.2.1]; exact hbN
  have hm : readMiss G s n = some { s with
      m_cache := s.m_cache.set b (some ⟨n, s.m_source.pages n⟩)
      m_posInCache := mapInsert (evictedMap s b) n b
      m_source := (s.m_source.read (Page.fresh n G.pageSize)).2 } := by
    unfold readMiss
    rw [loadSlot_clean G hc hcl hb]
    simp only [hbd, if_true, List.getElem?_set_self hbl, List.set_set, clean_set_false hcl]
    rfl
  have hc1 := (readMiss_consistent G hc hn hm).1
  unfold CachedPageReadWriter.read
  rw [hn]
  simp only [hm]
  unfold readHit
  simp only [mapFind_mapInsert, if_true, List.getElem?_set_self hbl,
    touch_eq hc1 hbN, memcpy, List.drop_replicate, Nat.sub_self,
    List.replicate_zero, List.append_nil]
  rfl

theorem writeCount_clean {N : Nat} (H : Header) (G : GlobalConfiguration)
    {s : CachedPageReadWriter} (hc : Consistent N s) (hcl : Clean s) :
    writeCount H G s = some (counted H G s) := by
  unfold writeCount counted
  split
  · exact flush_clean H G (s := { s with m_writesCounter := 0 })
      (consistent_frame (t := { s with m_writesCounter := 0 }) hc rfl rfl rfl rfl
        (fun _ hi => hi)) hcl
  · rfl

theorem counted_fields (H : Header) (G : GlobalConfiguration) (s : CachedPageReadWriter) :
    (counted H G s).m_cache = s.m_cache ∧ (counted H G s).m_isDirty = s.m_isDirty
    ∧ (counted H G s).m_lruList = s.m_lruList ∧ (counted H G s).m_posInCache = s.m_posInCache
    ∧ (counted H G s).m_source.pages = s.m_source.pages := by
  unfold counted
  split <;> exact ⟨rfl, rfl, rfl, rfl, rfl⟩

theorem writeHit_clean {N : Nat} (G : GlobalConfiguration) {s : CachedPageReadWriter}
    (hc : Consistent N s) (hcl : Clean s) {page pg : Page} {i : Nat}
    (hi : mapFind s.m_posInCache page.number = some i)
    (hpg : s.m_cache[i]? = some (some pg)) :
    writeHit G s page
      = some { s with
          m_cache := s.m_cache.set i (some ⟨pg.number, memcpy pg.data page.data G.pageSize⟩)
          m_source := s.m_source.write ⟨pg.number, memcpy pg.data page.data G.pageSize⟩
          m_lruList := i :: s.m_lruList.erase i } := by
  have hp := pageAt_of_getElem _ _ _ hpg
  have hiN : i < N := hc.1 ▸ pageAt_lt _ _ _ hp
  have hil : i < s.m_cache.length := by rw [hc.1]; exact hiN
  have hid : i < s.m_isDirty.length := by rw [hc.2.1]; exact hiN
  have hc1 := writeHit_dirtied_consistent hc (memcpy pg.data page.data G.pageSize) hpg
  have hf : flushCacheCell { s with
      m_isDirty := s.m_isDirty.set i true
      m_cache := s.m_cache.set i
        (some { pg with data := memcpy pg.data page.data G.pageSize }) } i
      = some { s with
          m_cache := s.m_cache.set i (some ⟨pg.number, memcpy pg.data page.data G.pageSize⟩)
          m_source := s.m_source.write ⟨pg.number, memcpy pg.data page.data G.pageSize⟩ } := by
    unfold flushCacheCell
    simp only [List.getElem?_set_self hid, List.getElem?_set_self hil, List.set_set,
      clean_set_false hcl]
  unfold writeHit
  rw [hi]
  simp only [hid, if_true, hpg, hf]
  exact touch_eq (flushCacheCell_consistent hc1 hf) hiN

/-- A write of a resident page, on a cache without dirty slots. -/
theorem write_hit {N : Nat} (H : Header) (G : GlobalConfiguration)
    {s : CachedPageReadWriter} (hc : Consistent N s) (hcl : Clean s) {page : Page} {i : Nat}
    (hi : mapFind s.m_posInCache page.number = some i) :
    ∃ pg, s.m_cache[i]? = some (some pg) ∧ pg.number = page.number
      ∧ CachedPageReadWriter.write H G s page
        = some { writeLog H G (counted H G s) page with
            m_cache := s.m_cache.set i (some ⟨pg.number, memcpy pg.data page.data G.pageSize⟩)
            m_source := (counted H G s).m_source.write
              ⟨pg.number, memcpy pg.data page.data G.pageSize⟩
            m_lruList := i :: s.m_lruList.erase i } := by
  obtain ⟨_, _, _, _, c5, _⟩ := (consistent_iff N s).mp hc
  have hp := (c5 page.number i).mp hi
  obtain ⟨pg, hpg, hnum⟩ := (pageAt_eq_some _ _ _).mp hp
  obtain ⟨f1, f2, f3, f4, _⟩ := counted_fields H G s
  have hc2 : Consistent N (writeLog H G (counted H G s) page) :=
    consistent_frame hc f1 f3 f4 (by rw [← f2]; rfl) (fun i h => by rw [← f2]; exact h)
  have hcl2 : Clean (writeLog H G (counted H G s) page) := by
    intro j; show (counted H G s).m_isDirty[j]? ≠ some true; rw [f2]; exact hcl j
  have hi2 : mapFind (writeLog H G (counted H G s) page).m_posInCache page.number = some i := by
    show mapFind (counted H G s).m_posInCache page.number = some i; rw [f4]; exact hi
  have hpg2 : (writeLog H G (counted H G s) page).m_cache[i]? = some (some pg) := by
    show (counted H G s).m_cache[i]? = some (some pg); rw [f1]; exact hpg
  refine ⟨pg, hpg, hnum, ?_⟩
  unfold CachedPageReadWriter.write
  rw [writeCount_clean H G hc hcl]
  simp only [hi2, writeHit_clean G hc2 hcl2 hi2 hpg2]
  simp only [writeLog, f1, f3]

/-- A write of a page that is not resident, on a cache without dirty slots. -/
theorem write_miss {N : Nat} (H : Header) (G : GlobalConfiguration)
    {s : CachedPageReadWriter} (hc : Consistent N s) (hcl : Clean s) {page : Page} {b : Nat}
    (hn : mapFind s.m_posInCache page.number = none) (hb : s.m_lruList.getLast? = some b) :
    CachedPageReadWriter.write H G s page
      = some { loaded (writeLog H G (counted H G s) page) b
                ⟨page.number, memcpy (List.replicate G.pageSize 0) page.data G.pageSize⟩ with
            m_source := (counted H G s).m_source.write
              ⟨page.number, memcpy (List.replicate G.pageSize 0) page.data G.pageSize⟩ } := by
  obtain ⟨f1, f2, f3, f4, _⟩ := counted_fields H G s
  have hc2 : Consistent N (writeLog H G (counted H G s) page) :=
    consistent_frame hc f1 f3 f4 (by rw [← f2]; rfl) (fun i h => by rw [← f2]; exact h)
  have hcl2 : Clean (writeLog H G (counted H G s) page) := by
    intro j; show (counted H G s).m_isDirty[j]? ≠ some true; rw [f2]; exact hcl j
  have hn2 : mapFind (writeLog H G (counted H G s) page).m_posInCache page.number = none := by
    show mapFind (counted H G s).m_posInCache page.number = none; rw [f4]; exact hn
  have hb2 : (writeLog H G (counted H G s) page).m_lruList.getLast? = some b := by
    show (counted H G s).m_lruList.getLast? = some b; rw [f3]; exact hb
  have hbN : b < N :=
    List.mem_range.mp (hc.2.2.1.mem_iff.mp (List.mem_of_getLast?_eq_some hb))
  have hl := loadSlot_clean G hc2 hcl2 hb2 page.number
  obtain ⟨hc3, _, hm3, hfresh⟩ := loadSlot_consistent G hc2 hn2 hl
  have hcl3 : Clean { writeLog H G (counted H G s) page with
      m_cache := (writeLog H G (counted H G s) page).m_cache.set b
        (some (Page.fresh page.number G.pageSize))
      m_posInCache := mapInsert (evictedMap (writeLog H G (counted H G s) page) b)
        page.number b } := hcl2
  unfold CachedPageReadWriter.write
  rw [writeCount_clean H G hc hcl]
  simp only [hn2, hl, writeHit_clean G hc3 hcl3 hm3 hfresh]
  simp only [loaded, Page.fresh, List.set_set]
  rfl

/-! ## Reachable caches have no dirty slot and agree with the store -/

theorem slot_unique {N : Nat} {s : CachedPageReadWriter} (hc : Consistent N s) {i j : Nat}
    {pg pg' : Page} (hi : s.m_cache[i]? = some (some pg)) (hj : s.m_cache[j]? = some (some pg'))
    (hnum : pg.number = pg'.number) : i = j := by
  obtain ⟨_, _, _, _, c5, _⟩ := (consistent_iff N s).mp hc
  have h1 := (c5 _ _).mpr (pageAt_of_getElem _ _ _ hi)
  have h2 := (c5 _ _).mpr (pageAt_of_getElem _ _ _ hj)
  rw [hnum, h2] at h1
  exact (Option.some.inj h1).symm

theorem not_resident_ne {N : Nat} {s : CachedPageReadWriter} (hc : Consistent N s) {n j : Nat}
    {pg : Page} (hn : mapFind s.m_posInCache n = none) (hj : s.m_cache[j]? = some (some pg)) :
    pg.number ≠ n := by
  obtain ⟨_, _, _, _, c5, _⟩ := (consistent_iff N s).mp hc
  intro h
  have h2 := (c5 _ _).mpr (pageAt_of_getElem _ _ _ hj)
  rw [h, hn] at h2
  cases h2

theorem getElem?_set_some {α : Type} {l : List α} {b j : Nat} {x y : α}
    (h : (l.set b x)[j]? = some y) : (j = b ∧ y = x) ∨ (j ≠ b ∧ l[j]? = some y) := by
  rw [List.getElem?_set] at h
  by_cases hbj : b = j
  · subst hbj
    simp only [if_true] at h
    split at h
    · exact Or.inl ⟨rfl, (Option.some.inj h).symm⟩
    · cases h
  · simp only [hbj, if_false] at h
    exact Or.inr ⟨fun e => hbj e.symm, h⟩

theorem last_none_read (G : GlobalConfiguration) {s : CachedPageReadWriter} {n : Nat}
    (hn : mapFind s.m_posInCache n = none) (hl : s.m_lruList.getLast? = none) :
    CachedPageReadWriter.read G s n = none := by
  simp [CachedPageReadWriter.read, hn, readMiss, loadSlot, freeCachePosition, hl]

theorem last_none_loadSlot (G : GlobalConfiguration) {s : CachedPageReadWriter} {n : Nat}
    (hl : s.m_lruList.getLast? = none) : loadSlot G s n = none := by
  simp [loadSlot, freeCachePosition, hl]

/-- What a successful read does to a cache without dirty slots. -/
theorem read_cases {N : Nat} (G : GlobalConfiguration) {s s' : CachedPageReadWriter}
    (hc : Consistent N s) (hcl : Clean s) {n : Nat} {d : Bytes}
    (h : CachedPageReadWriter.read G s n = some (d, s')) :
    (∃ i pg, mapFind s.m_posInCache n = some i ∧ s.m_cache[i]? = some (some pg)
        ∧ pg.number = n ∧ d = pg.data.take G.pageSize
        ∧ s' = { s with m_lruList := i :: s.m_lruList.erase i })
    ∨ (∃ b, mapFind s.m_posInCache n = none ∧ s.m_lruList.getLast? = some b
        ∧ d = (s.m_source.pages n).take G.pageSize
        ∧ s' = { loaded s b ⟨n, s.m_source.pages n⟩ with
            m_source := (s.m_source.read (Page.fresh n G.pageSize)).2 }) := by
  cases hf : mapFind s.m_posInCache n with
  | some i =>
    obtain ⟨pg, hpg, hnum, hr⟩ := read_hit G hc hf
    rw [hr] at h
    simp only [Option.some.injEq, Prod.mk.injEq] at h
    exact Or.inl ⟨i, pg, rfl, hpg, hnum, h.1.symm, h.2.symm⟩
  | none =>
    cases hl : s.m_lruList.getLast? with
    | none => rw [last_none_read G hf hl] at h; cases h
    | some b =>
      rw [read_miss G hc hcl hf hl] at h
      simp only [Option.some.injEq, Prod.mk.injEq] at h
      exact Or.inr ⟨b, rfl, rfl, h.1.symm, h.2.symm⟩

/-- What a successful write does to a cache without dirty slots. -/
theorem write_cases {N : Nat} (H : Header) (G : GlobalConfiguration)
    {s s' : CachedPageReadWriter} (hc : Consistent N s) (hcl : Clean s) {page : Page}
    (h : CachedPageReadWriter.write H G s page = some s') :
    (∃ i pg, mapFind s.m_posInCache page.number = some i ∧ s.m_cache[i]? = some (some pg)
        ∧ pg.number = page.number
        ∧ s' = { writeLog H G (counted H G s) page with
            m_cache := s.m_cache.set i (some ⟨pg.number, memcpy pg.data page.data G.pageSize⟩)
            m_source := (counted H G s).m_source.write
              ⟨pg.number, memcpy pg.data page.data G.pageSize⟩
            m_lruList := i :: s.m_lruList.erase i })
    ∨ (∃ b, mapFind s.m_posInCache page.number = none ∧ s.m_lruList.getLast? = some b
        ∧ s' = { loaded (writeLog H G (counted H G s) page) b
                ⟨page.number, memcpy (List.replicate G.pageSize 0) page.data G.pageSize⟩ with
            m_source := (counted H G s).m_source.write
              ⟨page.number, memcpy (List.replicate G.pageSize 0) page.data G.pageSize⟩ }) := by
  cases hf : mapFind s.m_posInCache page.number with
  | some i =>
    obtain ⟨pg, hpg, hnum, hr⟩ := write_hit H G hc hcl hf
    rw [hr] at h
    simp only [Option.some.injEq] at h
    exact Or.inl ⟨i, pg, rfl, hpg, hnum, h.symm⟩
  | none =>
    cases hl : s.m_lruList.getLast? with
    | none =>
      exfalso
      obtain ⟨s1, h1, h2⟩ := write_some H G s s' page h
      rw [writeCount_clean H G hc hcl] at h1
      simp only [Option.some.injEq] at h1
      subst h1
      obtain ⟨_, _, f3, f4, _⟩ := counted_fields H G s
      rcases h2 with ⟨b, hb, _⟩ | ⟨_, b, s3, hl3, _⟩
      · rw [f4, hf] at hb; cases hb
      · have hl2 : (writeLog H G (counted H G s) page).m_lruList.getLast? = none := by
          show (counted H G s).m_lruList.getLast? = none
          rw [f3]; exact hl
        rw [last_none_loadSlot G hl2] at hl3
        cases hl3
    | some b =>
      rw [write_miss H G hc hcl hf hl] at h
      simp only [Option.some.injEq] at h
      exact Or.inr ⟨b, rfl, rfl, h.symm⟩

theorem loaded_cache_cases {s : CachedPageReadWriter} {b j : Nat} {pg x : Page}
    (h : (loaded s b pg).m_cache[j]? = some (some x)) :
    (j = b ∧ x = pg) ∨ (j ≠ b ∧ s.m_cache[j]? = some (some x)) := by
  rcases getElem?_set_some (l := s.m_cache) h with ⟨h1, h2⟩ | ⟨h1, h2⟩
  · exact Or.inl ⟨h1, (Option.some.inj h2)⟩
  · exact Or.inr ⟨h1, h2⟩

theorem step_clean_synced {N : Nat} (H : Header) (G : GlobalConfiguration)
    {s s' : CachedPageReadWriter} {o : Op} (hc : Consistent N s) (hcl : Clean s)
    (hsy : Synced s) (h : step H G s o = some s') : Clean s' ∧ Synced s' := by
  cases o with
  | read n =>
    simp only [step, Option.map_eq_some'] at h
    obtain ⟨⟨d, s1⟩, h1, rfl⟩ := h
    rcases read_cases G hc hcl h1 with ⟨i, pg, _, _, _, _, rfl⟩ | ⟨b, hn, _, _, rfl⟩
    · exact ⟨hcl, hsy⟩
    · refine ⟨hcl, ?_⟩
      intro j x hx
      rcases loaded_cache_cases hx with ⟨_, rfl⟩ | ⟨_, hx1⟩
      · rfl
      · exact hsy j x hx1
  | write page =>
    obtain ⟨f1, f2, f3, f4, f5⟩ := counted_fields H G s
    rcases write_cases H G hc hcl h with ⟨i, pg, hi, hpg, hnum, rfl⟩ | ⟨b, hn, _, rfl⟩
    · have hcl1 : ∀ j : Nat, (counted H G s).m_isDirty[j]? ≠ some true := by
        intro j; rw [f2]; exact hcl j
      refine ⟨hcl1, ?_⟩
      intro j x hx
      simp only [PageReadWriter.write, f5]
      rcases getElem?_set_some (l := s.m_cache) hx with ⟨_, h2⟩ | ⟨h1, h2⟩
      · rw [Option.some.inj h2]; simp
      · have hne : x.number ≠ pg.number := fun e => h1 (slot_unique hc h2 hpg e)
        simp only [hne, if_false]
        exact hsy j x h2
    · have hcl1 : ∀ j : Nat, (counted H G s).m_isDirty[j]? ≠ some true := by
        intro j; rw [f2]; exact hcl j
      refine ⟨hcl1, ?_⟩
      intro j x hx
      simp only [PageReadWriter.write, f5]
      rcases loaded_cache_cases hx with ⟨_, rfl⟩ | ⟨_, hx1⟩
      · simp
      · have hx2 : s.m_cache[j]? = some (some x) := by rw [← f1]; exact hx1
        have hne : x.number ≠ page.number := not_resident_ne hc hn hx2
        simp only [hne, if_false]
        exact hsy j x hx2
  | flush =>
    simp only [step, flush_clean H G hc hcl, Option.some.injEq] at h
    subst h
    exact ⟨hcl, hsy⟩
  | deallocatePageNumber n =>
    rcases deallocatePageNumber_some s s' n h with ⟨_, rfl⟩ | ⟨slot, _, _, _, _, rfl⟩
    · exact ⟨hcl, hsy⟩
    · have hcl1 : ∀ j : Nat, (s.m_isDirty.set slot false)[j]? ≠ some true := by
        intro j; rw [clean_set_false hcl]; exact hcl j
      refine ⟨hcl1, ?_⟩
      intro j x hx
      rcases getElem?_set_some (l := s.m_cache) hx with ⟨_, h2⟩ | ⟨_, h2⟩
      · cases h2
      · exact hsy j x h2

theorem new_clean_synced (H : Header) (G : GlobalConfiguration) (source : PageReadWriter)
    (journal : Option Bytes) (fuel : Nat) (s : CachedPageReadWriter)
    (h : CachedPageReadWriter.new H G source journal fuel = some (Except.ok s)) :
    Clean s ∧ Synced s := by
  obtain ⟨_, h1, h2, _⟩ := new_ok H G source journal fuel s h
  constructor
  · intro i hi
    rw [h2, List.getElem?_replicate] at hi
    split at hi <;> cases hi
  · intro i pg hpg
    rw [h1, List.getElem?_replicate] at hpg
    split at hpg <;> cases hpg

theorem run_inv {N : Nat} (H : Header) (G : GlobalConfiguration) (ops : List Op) :
    ∀ {s s' : CachedPageReadWriter}, Consistent N s → Clean s → Synced s →
      run H G s ops = some s' → Consistent N s' ∧ Clean s' ∧ Synced s' := by
  induction ops with
  | nil =>
    intro s s' hc hcl hsy h
    simp only [run, Option.some.injEq] at h
    exact h ▸ ⟨hc, hcl, hsy⟩
  | cons op rest ih =>
    intro s s' hc hcl hsy h
    simp only [run] at h
    split at h
    · cases h
    · next s1 h1 =>
      obtain ⟨hcl1, hsy1⟩ := step_clean_synced H G hc hcl hsy h1
      exact ih (step_consistent H G hc h1) hcl1 hsy1 h

/-! ## Read after write -/

theorem example_new :
    CachedPageReadWriter.new exampleHeader exampleConf exampleStore none 0
      = some (Except.ok exampleFresh) := by
  rfl

theorem example_run (ops : List Op)
    (h : (run exampleHeader exampleConf exampleFresh ops).isSome = true) :
    run exampleHeader exampleConf exampleFresh ops = some (exampleAfter ops) := by
  unfold exampleAfter
  cases hr : run exampleHeader exampleConf exampleFresh ops with
  | none => rw [hr] at h; cases h
  | some s => rfl

theorem take_memcpy (old bytes : Bytes) (n : Nat) (h : bytes.length = n) :
    (memcpy old bytes n).take n = bytes := by
  unfold memcpy
  have h1 : bytes.take n = bytes := List.take_of_length_le (by omega)
  rw [h1, List.take_left' h]

theorem step_pages {N : Nat} (H : Header) (G : GlobalConfiguration)
    {s s' : CachedPageReadWriter} {op : Op} (hc : Consistent N s) (hcl : Clean s)
    (h : step H G s op = some s') (p : Nat) (hop : ¬ overwrites p op) :
    s'.m_source.pages p = s.m_source.pages p := by
  cases op with
  | read n =>
    simp only [step, Option.map_eq_some'] at h
    obtain ⟨⟨d, s1⟩, h1, rfl⟩ := h
    rcases read_cases G hc hcl h1 with ⟨i, pg, _, _, _, _, rfl⟩ | ⟨b, hn, _, _, rfl⟩
    · rfl
    · rfl
  | write page =>
    have hne : ¬ p = page.number := fun e => hop e.symm
    obtain ⟨_, _, _, _, f5⟩ := counted_fields H G s
    rcases write_cases H G hc hcl h with ⟨i, pg, hi, hpg, hnum, rfl⟩ | ⟨b, hn, _, rfl⟩
    · simp only [PageReadWriter.write, f5, hnum, hne, if_false]
    · simp only [PageReadWriter.write, f5, hne, if_false]
  | flush =>
    simp only [step, flush_clean H G hc hcl, Option.some.injEq] at h
    subst h
    rfl
  | deallocatePageNumber n =>
    rcases deallocatePageNumber_some s s' n h with ⟨_, rfl⟩ | ⟨slot, _, _, _, _, rfl⟩
    · rfl
    · rfl

theorem run_pages {N : Nat} (H : Header) (G : GlobalConfiguration) (p : Nat) (ops : List Op) :
    ∀ {s s' : CachedPageReadWriter}, Consistent N s → Clean s → Synced s →
      run H G s ops = some s' → (∀ op ∈ ops, ¬ overwrites p op) →
      s'.m_source.pages p = s.m_source.pages p := by
  induction ops with
  | nil =>
    intro s s' _ _ _ h _
    simp only [run, Option.some.injEq] at h
    rw [h]
  | cons op rest ih =>
    intro s s' hc hcl hsy h hops
    simp only [run] at h
    split at h
    · cases h
    · next s1 h1 =>
      obtain ⟨hcl1, hsy1⟩ := step_clean_synced H G hc hcl hsy h1
      rw [ih (step_consistent H G hc h1) hcl1 hsy1 h
        (fun o ho => hops o (List.mem_cons_of_mem _ ho))]
      exact step_pages H G hc hcl h1 p (hops op (List.mem_cons_self _ _))

theorem write_pages {N : Nat} (H : Header) (G : GlobalConfiguration)
    {s s' : CachedPageReadWriter} (hc : Consistent N s) (hcl : Clean s) {page : Page}
    (h : CachedPageReadWriter.write H G s page = some s')
    (hlen : page.data.length = G.pageSize) :
    (s'.m_source.pages page.number).take G.pageSize = page.data := by
  rcases write_cases H G hc hcl h with ⟨i, pg, hi, hpg, hnum, rfl⟩ | ⟨b, hn, _, rfl⟩
  · simp only [PageReadWriter.write, hnum, if_true]
    exact take_memcpy _ _ _ hlen
  · simp only [PageReadWriter.write, if_true]
    exact take_memcpy _ _ _ hlen

/-- C1. Read-after-write: on a cache of at least one slot, in any state
reached from construction, after `write(p, bytes)` and any further calls of
read, write, flush and deallocatePageNumber none of which writes or
deallocates page p (they may evict p and may trigger threshold flushes),
`read(p)` returns exactly `bytes`. -/
theorem read_after_write (H : Header) (G : GlobalConfiguration) (source : PageReadWriter)
    (journal : Option Bytes) (fuel : Nat) (s0 s1 : CachedPageReadWriter)
    (before after : List Op) (p : Nat) (bytes : Bytes)
    (hN : 0 < G.cacheSize / G.pageSize)
    (hnew : CachedPageReadWriter.new H G source journal fuel = some (Except.ok s0))
    (hrun : run H G s0 before = some s1)
    (hlen : bytes.length = G.pageSize)
    (hafter : ∀ op ∈ after, ¬ overwrites p op) :
    ∃ s2 s3 s4, CachedPageReadWriter.write H G s1 ⟨p, bytes⟩ = some s2
      ∧ run H G s2 after = some s3
      ∧ CachedPageReadWriter.read G s3 p = some (bytes, s4) := by
  have hc0 := new_consistent H G source journal fuel s0 hnew
  obtain ⟨hcl0, hsy0⟩ := new_clean_synced H G source journal fuel s0 hnew
  obtain ⟨hc1, hcl1, hsy1⟩ := run_inv H G before hc0 hcl0 hsy0 hrun
  obtain ⟨s2, hw⟩ := write_total H G hc1 hN ⟨p, bytes⟩
  have hc2 := write_consistent H G hc1 hw
  obtain ⟨hcl2, hsy2⟩ := step_clean_synced H G (o := Op.write ⟨p, bytes⟩) hc1 hcl1 hsy1 hw
  obtain ⟨s3, hr⟩ := run_total H G hN after hc2
  obtain ⟨hc3, hcl3, hsy3⟩ := run_inv H G after hc2 hcl2 hsy2 hr
  have hp2 := write_pages H G hc1 hcl1 hw hlen
  have hp3 : (s3.m_source.pages p).take G.pageSize = bytes := by
    rw [run_pages H G p after hc2 hcl2 hsy2 hr hafter]; exact hp2
  obtain ⟨d, s4, hrd⟩ := read_total G hc3 hN p
  refine ⟨s2, s3, s4, hw, hr, ?_⟩
  rw [hrd]
  rcases read_cases G hc3 hcl3 hrd with ⟨i, pg, _, hpg, hnum, hd, _⟩ | ⟨b, _, _, hd, _⟩
  · rw [hd, ← hsy3 i pg hpg, hnum, hp3]
  · rw [hd, hp3]

/-- C1, on the example cache of 2 slots: after write(1, [1,1,1,1]), the calls
write(2), read(2), write(3) (which evict page 1) and flush, read(1) returns
[1,1,1,1]. -/
theorem read_after_write_witness :
    (0 < exampleConf.cacheSize / exampleConf.pageSize
      ∧ CachedPageReadWriter.new exampleHeader exampleConf exampleStore none 0
          = some (Except.ok exampleFresh)
      ∧ run exampleHeader exampleConf exampleFresh [Op.read 7] = some (exampleAfter [Op.read 7])
      ∧ ([1, 1, 1, 1] : Bytes).length = exampleConf.pageSize
      ∧ ∀ op ∈ [Op.write ⟨2, [2, 2, 2, 2]⟩, Op.read 2, Op.write ⟨3, [3, 3, 3, 3]⟩, Op.flush],
          ¬ overwrites 1 op)
    ∧ ∃ s2 s3 s4,
        CachedPageReadWriter.write exampleHeader exampleConf (exampleAfter [Op.read 7])
          ⟨1, [1, 1, 1, 1]⟩ = some s2
        ∧ run exampleHeader exampleConf s2
            [Op.write ⟨2, [2, 2, 2, 2]⟩, Op.read 2, Op.write ⟨3, [3, 3, 3, 3]⟩, Op.flush]
          = some s3
        ∧ CachedPageReadWriter.read exampleConf s3 1 = some ([1, 1, 1, 1], s4) := by
  have h1 : 0 < exampleConf.cacheSize / exampleConf.pageSize := by decide
  have h3 := example_run [Op.read 7] rfl
  have h5 : ∀ op ∈ [Op.write ⟨2, [2, 2, 2, 2]⟩, Op.read 2, Op.write ⟨3, [3, 3, 3, 3]⟩, Op.flush],
      ¬ overwrites 1 op := by
    intro op hop
    simp only [List.mem_cons, List.mem_singleton, List.not_mem_nil, or_false] at hop
    rcases hop with rfl | rfl | rfl | rfl <;> simp [overwrites]
  exact ⟨⟨h1, example_new, h3, rfl, h5⟩,
    read_after_write exampleHeader exampleConf exampleStore none 0 exampleFresh
      (exampleAfter [Op.read 7]) [Op.read 7] _ 1 [1, 1, 1, 1] h1 example_new h3 rfl h5⟩

/-! ## What `write` and `flush` do to the journal -/

theorem writeHit_logFd (G : GlobalConfiguration) {s s' : CachedPageReadWriter} {page : Page}
    (h : writeHit G s page = some s') :
    s'.m_logFd = s.m_logFd ∧ s'.m_writesCounter = s.m_writesCounter := by
  obtain ⟨b, pg, s2, _, _, _, hf, ht⟩ := writeHit_some G s s' page h
  obtain ⟨_, _, _, f4, f5, _⟩ := flushCacheCell_some _ s2 b hf
  obtain ⟨_, rfl⟩ := touch_some s2 s' b ht
  exact ⟨f5, f4⟩

theorem loadSlot_logFd (G : GlobalConfiguration) {s s' : CachedPageReadWriter} {b n : Nat}
    (h : loadSlot G s n = some (b, s')) :
    s'.m_logFd = s.m_logFd ∧ s'.m_writesCounter = s.m_writesCounter := by
  obtain ⟨s1, hf, _, rfl⟩ := loadSlot_some G s s' b n h
  obtain ⟨_, _, _, _, _, f6, f7, _⟩ := freeCachePosition_some s s1 b hf
  exact ⟨f7, f6⟩

theorem writeCount_logFd (H : Header) (G : GlobalConfiguration) {s s1 : CachedPageReadWriter}
    (h : writeCount H G s = some s1) :
    s1.m_logFd = (counted H G s).m_logFd
      ∧ s1.m_writesCounter = (counted H G s).m_writesCounter := by
  unfold counted
  rcases writeCount_some H G s s1 h with ⟨hT, hf⟩ | ⟨hT, rfl⟩
  · obtain ⟨s2, h2, rfl⟩ := flush_some H G _ s1 hf
    obtain ⟨_, _, _, g4, g5, _⟩ := flushCells_some _ _ s2 h2
    rw [if_pos hT]
    constructor
    · show writeLogStumb H G (sysWrite s2.m_logFd (LOG_ACTION_CHECKPOINT H)) = _
      rw [g5]
    · exact g4
  · rw [if_neg hT]
    exact ⟨rfl, rfl⟩

theorem write_logFd (H : Header) (G : GlobalConfiguration) {s s' : CachedPageReadWriter}
    {page : Page} (h : CachedPageReadWriter.write H G s page = some s') :
    s'.m_logFd = (writeLog H G (counted H G s) page).m_logFd
      ∧ s'.m_writesCounter = (counted H G s).m_writesCounter := by
  obtain ⟨s1, h1, h2⟩ := write_some H G s s' page h
  obtain ⟨c1, c2⟩ := writeCount_logFd H G h1
  have hw : (writeLog H G s1 page).m_logFd = (writeLog H G (counted H G s) page).m_logFd := by
    simp only [writeLog, c1]
  rcases h2 with ⟨_, _, hh⟩ | ⟨_, b, s3, hl, hh⟩
  · obtain ⟨w1, w2⟩ := writeHit_logFd G hh
    exact ⟨w1.trans hw, w2.trans c2⟩
  · obtain ⟨w1, w2⟩ := writeHit_logFd G hh
    obtain ⟨l1, l2⟩ := loadSlot_logFd G hl
    exact ⟨(w1.trans l1).trans hw, (w2.trans l2).trans c2⟩

theorem counted_logFd (H : Header) (G : GlobalConfiguration) (s : CachedPageReadWriter)
    (heof : s.m_logFd.pos = s.m_logFd.bytes.length)
    (hD : H.LOG_SEEK_DELIM_SIZE ≤ H.SIZEOF_SIZE_T + G.pageSize) :
    (counted H G s).m_logFd.bytes
        = s.m_logFd.bytes ++ (if s.m_writesCounter = H.CHECKPOINT_THRESHOLD then
            stubRecord H G (LOG_ACTION_CHECKPOINT H) else [])
      ∧ (counted H G s).m_logFd.pos = (counted H G s).m_logFd.bytes.length := by
  unfold counted
  split
  · have := writeLogStumb_append H G s.m_logFd (LOG_ACTION_CHECKPOINT H) heof hD
    constructor
    · show (writeLogStumb H G (sysWrite s.m_logFd (LOG_ACTION_CHECKPOINT H))).bytes = _
      rw [this]
    · show (writeLogStumb H G (sysWrite s.m_logFd (LOG_ACTION_CHECKPOINT H))).pos
        = (writeLogStumb H G (sysWrite s.m_logFd (LOG_ACTION_CHECKPOINT H))).bytes.length
      rw [this]
  · rw [List.append_nil]
    exact ⟨rfl, heof⟩

theorem sysWrite_append (bytes buf : Bytes) :
    sysWrite ⟨bytes, bytes.length⟩ buf = ⟨bytes ++ buf, (bytes ++ buf).length⟩ := by
  rw [sysWrite_eof _ _ rfl]
  simp

theorem writeLog_logFd (H : Header) (G : GlobalConfiguration) (s : CachedPageReadWriter)
    (page : Page) (heof : s.m_logFd.pos = s.m_logFd.bytes.length) :
    (writeLog H G s page).m_logFd.bytes = s.m_logFd.bytes ++ changeRecord H G page
      ∧ (writeLog H G s page).m_logFd.pos = (writeLog H G s page).m_logFd.bytes.length := by
  unfold writeLog changeRecord
  simp only
  generalize s.m_logFd = fd at heof
  obtain ⟨bytes, pos⟩ := fd
  change pos = bytes.length at heof
  subst heof
  rw [sysWrite_append, sysWrite_append, sysWrite_append]
  simp only [List.append_assoc, and_self]

/-- The journal after a successful `write`: the journal before, one CHECKPOINT
record if the counter stood at the threshold, one CHANGE record. -/
theorem write_journal (H : Header) (G : GlobalConfiguration) {s s' : CachedPageReadWriter}
    {page : Page} (h : CachedPageReadWriter.write H G s page = some s')
    (heof : s.m_logFd.pos = s.m_logFd.bytes.length)
    (hD : H.LOG_SEEK_DELIM_SIZE ≤ H.SIZEOF_SIZE_T + G.pageSize) :
    s'.m_logFd.bytes
        = s.m_logFd.bytes ++ (if s.m_writesCounter = H.CHECKPOINT_THRESHOLD then
            stubRecord H G (LOG_ACTION_CHECKPOINT H) else []) ++ changeRecord H G page
      ∧ s'.m_logFd.pos = s'.m_logFd.bytes.length
      ∧ s'.m_writesCounter
          = if s.m_writesCounter = H.CHECKPOINT_THRESHOLD then 0 else s.m_writesCounter + 1 := by
  obtain ⟨w1, w2⟩ := write_logFd H G h
  obtain ⟨c1, c2⟩ := counted_logFd H G s heof hD
  obtain ⟨l1, l2⟩ := writeLog_logFd H G (counted H G s) page c2
  refine ⟨by rw [w1, l1, c1], by rw [w1]; exact l2, ?_⟩
  rw [w2]
  unfold counted
  split <;> rfl

theorem flush_journal (H : Header) (G : GlobalConfiguration) {s s' : CachedPageReadWriter}
    (h : CachedPageReadWriter.flush H G s = some s')
    (heof : s.m_logFd.pos = s.m_logFd.bytes.length)
    (hD : H.LOG_SEEK_DELIM_SIZE ≤ H.SIZEOF_SIZE_T + G.pageSize) :
    s'.m_logFd.bytes = s.m_logFd.bytes ++ stubRecord H G (LOG_ACTION_CHECKPOINT H)
      ∧ s'.m_logFd.pos = s'.m_logFd.bytes.length
      ∧ s'.m_writesCounter = s.m_writesCounter := by
  obtain ⟨s1, h1, rfl⟩ := flush_some H G s s' h
  obtain ⟨_, _, _, g4, g5, _⟩ := flushCells_some _ s s1 h1
  have := writeLogStumb_append H G s.m_logFd (LOG_ACTION_CHECKPOINT H) heof hD
  refine ⟨?_, ?_, g4⟩
  · show (writeLogStumb H G (sysWrite s1.m_logFd (LOG_ACTION_CHECKPOINT H))).bytes = _
    rw [g5, this]
  · show (writeLogStumb H G (sysWrite s1.m_logFd (LOG_ACTION_CHECKPOINT H))).pos
      = (writeLogStumb H G (sysWrite s1.m_logFd (LOG_ACTION_CHECKPOINT H))).bytes.length
    rw [g5, this]

theorem isChange_changeRecord (H : Header) (G : GlobalConfiguration) (page : Page) :
    isChange H (changeRecord H G page) = true := by
  unfold isChange changeRecord
  rw [List.append_assoc, List.take_left' (length_CHANGE H)]
  simp [strcmp_self]

theorem isCheckpoint_changeRecord (H : Header) (G : GlobalConfiguration) (page : Page)
    (hA : 7 < H.LOG_ACTION_SIZE) : isCheckpoint H (changeRecord H G page) = false := by
  unfold isCheckpoint changeRecord
  rw [List.append_assoc, List.take_left' (length_CHANGE H), decide_eq_false_iff_not,
    strcmp_eq_zero_iff, cstr_CHANGE H hA, cstr_CHECKPOINT H hA]
  decide

theorem isCheckpoint_stubRecord (H : Header) (G : GlobalConfiguration) :
    isCheckpoint H (stubRecord H G (LOG_ACTION_CHECKPOINT H)) = true := by
  unfold isCheckpoint stubRecord
  rw [List.append_assoc, List.take_left' (length_CHECKPOINT H)]
  simp [strcmp_self]

theorem isChange_stubRecord (H : Header) (G : GlobalConfiguration)
    (hA : 7 < H.LOG_ACTION_SIZE) :
    isChange H (stubRecord H G (LOG_ACTION_CHECKPOINT H)) = false := by
  apply isChange_of_tag H hA
  right; right
  unfold stubRecord
  rw [List.append_assoc, List.take_left' (length_CHECKPOINT H)]

theorem recordPage_changeRecord (H : Header) (G : GlobalConfiguration) (page : Page)
    (hlen : page.data.length = G.pageSize) (hnum : page.number < 256 ^ H.SIZEOF_SIZE_T) :
    recordPage H G (changeRecord H G page) = page := by
  unfold recordPage changeRecord
  have h1 : page.data.take G.pageSize = page.data := List.take_of_length_le (by omega)
  have h2 : (LOG_ACTION_CHANGE H ++ encodeSizeT H.SIZEOF_SIZE_T page.number ++ page.data).drop
      H.LOG_ACTION_SIZE = encodeSizeT H.SIZEOF_SIZE_T page.number ++ page.data := by
    rw [List.append_assoc, List.drop_left' (length_CHANGE H)]
  have h3 : (LOG_ACTION_CHANGE H ++ encodeSizeT H.SIZEOF_SIZE_T page.number ++ page.data).drop
      (H.LOG_ACTION_SIZE + H.SIZEOF_SIZE_T) = page.data := by
    rw [List.drop_left' (by simp [length_CHANGE, encodeSizeT_length])]
  rw [h1, h2, h3, List.take_left' (encodeSizeT_length _ _), h1,
    decode_encodeSizeT_of_lt _ _ hnum]

/-- C6. On a well-formed cache (dirty slots allowed) of at least one slot
whose journal cursor is at the end of the file, `write(p, bytes)` returns and
the journal after it is the journal before it, then one CHECKPOINT record
exactly when the counter stood at the threshold, then one CHANGE record of
full length carrying `p` and `bytes`; counted record by record, the CHANGE
records are one more than before. -/
theorem write_appends_one_change (H : Header) (G : GlobalConfiguration)
    (s : CachedPageReadWriter) (page : Page) (recs : List Bytes)
    (hc : Consistent (slots G) s) (hN : 0 < slots G)
    (hA : 7 < H.LOG_ACTION_SIZE)
    (hD : H.LOG_SEEK_DELIM_SIZE ≤ H.SIZEOF_SIZE_T + G.pageSize)
    (heof : s.m_logFd.pos = s.m_logFd.bytes.length)
    (hrecs : s.m_logFd.bytes = recs.flatten)
    (hlen : page.data.length = G.pageSize)
    (hnum : page.number < 256 ^ H.SIZEOF_SIZE_T) :
    ∃ s', CachedPageReadWriter.write H G s page = some s'
      ∧ s'.m_logFd.bytes
          = s.m_logFd.bytes ++ (if s.m_writesCounter = H.CHECKPOINT_THRESHOLD then
              stubRecord H G (LOG_ACTION_CHECKPOINT H) else []) ++ changeRecord H G page
      ∧ s'.m_logFd.bytes
          = (recs ++ (if s.m_writesCounter = H.CHECKPOINT_THRESHOLD then
              [stubRecord H G (LOG_ACTION_CHECKPOINT H)] else [])
              ++ [changeRecord H G page]).flatten
      ∧ (changeRecord H G page).length = recordSize H G
      ∧ isChange H (changeRecord H G page) = true
      ∧ recordPage H G (changeRecord H G page) = page
      ∧ isCheckpoint H (stubRecord H G (LOG_ACTION_CHECKPOINT H)) = true
      ∧ (recs ++ (if s.m_writesCounter = H.CHECKPOINT_THRESHOLD then
              [stubRecord H G (LOG_ACTION_CHECKPOINT H)] else [])
              ++ [changeRecord H G page]).countP (isChange H)
          = recs.countP (isChange H) + 1 := by
  obtain ⟨s', hw⟩ := write_total H G hc hN page
  obtain ⟨j1, _, _⟩ := write_journal H G hw heof hD
  refine ⟨s', hw, j1, ?_, changeRecord_length H G page hlen, isChange_changeRecord H G page,
    recordPage_changeRecord H G page hlen hnum, isCheckpoint_stubRecord H G, ?_⟩
  · rw [j1, hrecs]
    split <;> simp
  · split
    · simp [List.countP_append, List.countP_cons, isChange_changeRecord,
        isChange_stubRecord H G hA]
    · simp [List.countP_append, List.countP_cons, isChange_changeRecord]

/-! ### flush on a cache with dirty slots -/

theorem flushCells_pages {N : Nat} {s0 : CachedPageReadWriter} (hc0 : Consistent N s0)
    (l : PosMap) :
    ∀ (s s' : CachedPageReadWriter), s.m_cache = s0.m_cache →
    (∀ (i : Nat) (pg : Page), s0.m_isDirty[i]? = some true → s.m_isDirty[i]? ≠ some true →
      s0.m_cache[i]? = some (some pg) → s.m_source.pages pg.number = pg.data) →
    flushCells l s = some s' →
    (∀ (i : Nat) (pg : Page), s0.m_isDirty[i]? = some true → s'.m_isDirty[i]? ≠ some true →
      s0.m_cache[i]? = some (some pg) → s'.m_source.pages pg.number = pg.data)
    ∧ ∃ ws, s'.m_source.calls = s.m_source.calls ++ ws
        ∧ ∀ c ∈ ws, ∃ n d, c = StoreCall.write n d := by
  induction l with
  | nil =>
    intro s s' _ hinv h
    simp only [flushCells, Option.some.injEq] at h
    subst h
    exact ⟨hinv, [], by simp, by simp⟩
  | cons e rest ih =>
    intro s s' hcache hinv h
    simp only [flushCells] at h
    split at h
    · cases h
    · next s1 h1 =>
      obtain ⟨f1, _, _, _, _, f6, f7⟩ := flushCacheCell_some s s1 e.2 h1
      have hinv1 : ∀ (i : Nat) (pg : Page), s0.m_isDirty[i]? = some true →
          s1.m_isDirty[i]? ≠ some true → s0.m_cache[i]? = some (some pg) →
          s1.m_source.pages pg.number = pg.data := by
        intro i pg hd0 hd1 hpg
        rcases f7 with ⟨hfalse, hsrc⟩ | ⟨_, pge, hpge, hsrc⟩
        · rw [hsrc]
          apply hinv i pg hd0 _ hpg
          rw [f6, list_set_eq_self _ _ _ hfalse] at hd1
          exact hd1
        · rw [hsrc]
          rw [hcache] at hpge
          by_cases hie : i = e.2
          · subst hie
            rw [hpg] at hpge
            simp only [Option.some.injEq] at hpge
            subst hpge
            simp [PageReadWriter.write]
          · have hne : pg.number ≠ pge.number := fun e1 => hie (slot_unique hc0 hpg hpge e1)
            simp only [PageReadWriter.write, hne, if_false]
            apply hinv i pg hd0 _ hpg
            rw [f6, List.getElem?_set] at hd1
            have : ¬ e.2 = i := fun e1 => hie e1.symm
            simpa [this] using hd1
      obtain ⟨r1, ws, r2, r3⟩ := ih s1 s' (f1.trans hcache) hinv1 h
      refine ⟨r1, ?_⟩
      rcases f7 with ⟨_, hsrc⟩ | ⟨_, pge, _, hsrc⟩
      · exact ⟨ws, by rw [r2, hsrc], r3⟩
      · refine ⟨StoreCall.write pge.number pge.data :: ws, ?_, ?_⟩
        · rw [r2, hsrc]; simp [PageReadWriter.write]
        · intro c hc
          rcases List.mem_cons.mp hc with rfl | hc
          · exact ⟨_, _, rfl⟩
          · exact r3 c hc

/-- C7. On a well-formed cache, dirty slots allowed, whose journal cursor is at
the end of the file, `flush()` returns; it appends exactly one record to the
journal, a CHECKPOINT record; afterwards no slot is dirty, the store holds the
cached bytes of every page that was resident and dirty, the store received
page writes followed by one flush, and the slots, the position map and the
LRU list are as before. -/
theorem flush_appends_checkpoint (H : Header) (G : GlobalConfiguration) (N : Nat)
    (s : CachedPageReadWriter) (hc : Consistent N s)
    (hD : H.LOG_SEEK_DELIM_SIZE ≤ H.SIZEOF_SIZE_T + G.pageSize)
    (heof : s.m_logFd.pos = s.m_logFd.bytes.length) :
    ∃ s', CachedPageReadWriter.flush H G s = some s'
      ∧ s'.m_logFd.bytes = s.m_logFd.bytes ++ stubRecord H G (LOG_ACTION_CHECKPOINT H)
      ∧ (stubRecord H G (LOG_ACTION_CHECKPOINT H)).length = recordSize H G
      ∧ isCheckpoint H (stubRecord H G (LOG_ACTION_CHECKPOINT H)) = true
      ∧ Clean s'
      ∧ (∀ (i : Nat) (pg : Page), s.m_isDirty[i]? = some true →
          s.m_cache[i]? = some (some pg) → s'.m_source.pages pg.number = pg.data)
      ∧ (∃ ws, s'.m_source.calls = s.m_source.calls ++ ws ++ [StoreCall.flush]
          ∧ ∀ c ∈ ws, ∃ n d, c = StoreCall.write n d)
      ∧ s'.m_cache = s.m_cache ∧ s'.m_posInCache = s.m_posInCache
      ∧ s'.m_lruList = s.m_lruList := by
  obtain ⟨s', hf⟩ := flush_total H G hc
  obtain ⟨j1, _, _⟩ := flush_journal H G hf heof hD
  obtain ⟨s1, h1, rfl⟩ := flush_some H G s s' hf
  obtain ⟨g1, g2, g3, _, _, _, g7⟩ := flushCells_some _ s s1 h1
  obtain ⟨p1, ws, p2, p3⟩ := flushCells_pages hc s.m_posInCache s s1 rfl
    (fun i pg hd hnd _ => absurd hd hnd) h1
  obtain ⟨_, _, _, _, c5, c6⟩ := (consistent_iff N s).mp hc
  have hclean : ∀ i : Nat, s1.m_isDirty[i]? ≠ some true := by
    intro i hi
    obtain ⟨hd, hnot⟩ := g7 i hi
    cases hp : pageAt s.m_cache i with
    | none => exact c6 i hd hp
    | some p => exact hnot (p, i) (mem_of_mapFind _ _ _ ((c5 p i).mpr hp)) rfl
  refine ⟨_, hf, j1, stubRecord_length H G _ (length_CHECKPOINT H) hD,
    isCheckpoint_stubRecord H G, hclean, ?_, ⟨ws, ?_, p3⟩, g1, g3, g2⟩
  · intro i pg hd hpg
    exact p1 i pg hd (hclean i) hpg
  · simp [PageReadWriter.flush, p2]

set_option maxRecDepth 100000 in
/-- C6, on the example cache after three writes (the counter stands at the
threshold 3): the fourth write appends a CHECKPOINT record and a CHANGE
record. -/
theorem write_appends_one_change_witness :
    (Consistent (slots exampleConf) (exampleAfter exampleWrites)
      ∧ 0 < slots exampleConf
      ∧ 7 < exampleHeader.LOG_ACTION_SIZE
      ∧ exampleHeader.LOG_SEEK_DELIM_SIZE ≤ exampleHeader.SIZEOF_SIZE_T + exampleConf.pageSize
      ∧ (exampleAfter exampleWrites).m_logFd.pos
          = (exampleAfter exampleWrites).m_logFd.bytes.length
      ∧ (exampleAfter exampleWrites).m_logFd.bytes
          = [stubRecord exampleHeader exampleConf (LOG_ACTION_CHECKPOINT exampleHeader),
             stubRecord exampleHeader exampleConf (LOG_ACTION_DB_OPEN exampleHeader),
             changeRecord exampleHeader exampleConf ⟨1, [1, 1, 1, 1]⟩,
             changeRecord exampleHeader exampleConf ⟨2, [2, 2, 2, 2]⟩,
             changeRecord exampleHeader exampleConf ⟨3, [3, 3, 3, 3]⟩].flatten
      ∧ ([4, 4, 4, 4] : Bytes).length = exampleConf.pageSize
      ∧ 4 < 256 ^ exampleHeader.SIZEOF_SIZE_T)
    ∧ ∃ s', CachedPageReadWriter.write exampleHeader exampleConf (exampleAfter exampleWrites)
          ⟨4, [4, 4, 4, 4]⟩ = some s'
      ∧ s'.m_logFd.bytes
          = (exampleAfter exampleWrites).m_logFd.bytes
            ++ stubRecord exampleHeader exampleConf (LOG_ACTION_CHECKPOINT exampleHeader)
            ++ changeRecord exampleHeader exampleConf ⟨4, [4, 4, 4, 4]⟩ := by
  have h1 : Consistent (slots exampleConf) (exampleAfter exampleWrites) := by decide
  have h6 : (exampleAfter exampleWrites).m_logFd.bytes
      = [stubRecord exampleHeader exampleConf (LOG_ACTION_CHECKPOINT exampleHeader),
         stubRecord exampleHeader exampleConf (LOG_ACTION_DB_OPEN exampleHeader),
         changeRecord exampleHeader exampleConf ⟨1, [1, 1, 1, 1]⟩,
         changeRecord exampleHeader exampleConf ⟨2, [2, 2, 2, 2]⟩,
         changeRecord exampleHeader exampleConf ⟨3, [3, 3, 3, 3]⟩].flatten := by decide
  refine ⟨⟨h1, by decide, by decide, by decide, by decide, h6, rfl, by decide⟩, ?_⟩
  obtain ⟨s', hw, hj, _⟩ := write_appends_one_change exampleHeader exampleConf
    (exampleAfter exampleWrites) ⟨4, [4, 4, 4, 4]⟩ _ h1 (by decide) (by decide) (by decide)
    (by decide) h6 rfl (by decide)
  exact ⟨s', hw, hj⟩

/-- C7, on a cache whose slot 1 is dirty with page 1 = [9,9,9,9]: after the
flush the store holds those bytes for page 1. -/
theorem flush_appends_checkpoint_witness :
    (Consistent 2 exampleDirty
      ∧ exampleHeader.LOG_SEEK_DELIM_SIZE ≤ exampleHeader.SIZEOF_SIZE_T + exampleConf.pageSize
      ∧ exampleDirty.m_logFd.pos = exampleDirty.m_logFd.bytes.length)
    ∧ ∃ s', CachedPageReadWriter.flush exampleHeader exampleConf exampleDirty = some s'
      ∧ s'.m_logFd.bytes = exampleDirty.m_logFd.bytes
          ++ stubRecord exampleHeader exampleConf (LOG_ACTION_CHECKPOINT exampleHeader)
      ∧ Clean s'
      ∧ s'.m_source.pages 1 = [9, 9, 9, 9]
      ∧ s'.m_cache = exampleDirty.m_cache ∧ s'.m_posInCache = exampleDirty.m_posInCache
      ∧ s'.m_lruList = exampleDirty.m_lruList := by
  have h1 : Consistent 2 exampleDirty := by decide
  refine ⟨⟨h1, by decide, by decide⟩, ?_⟩
  obtain ⟨s', hf, hj, _, _, hcl, hp, _, hca, hm, hl⟩ :=
    flush_appends_checkpoint exampleHeader exampleConf 2 exampleDirty h1 (by decide) (by decide)
  exact ⟨s', hf, hj, hcl, hp 1 ⟨1, [9, 9, 9, 9]⟩ rfl rfl, hca, hm, hl⟩

/-! ### The threshold scenario -/

theorem new_journal_eof (H : Header) (G : GlobalConfiguration) (source : PageReadWriter)
    (journal : Option Bytes) (fuel : Nat) (s : CachedPageReadWriter)
    (h : CachedPageReadWriter.new H G source journal fuel = some (Except.ok s))
    (hD : H.LOG_SEEK_DELIM_SIZE ≤ H.SIZEOF_SIZE_T + G.pageSize) :
    s.m_logFd.pos = s.m_logFd.bytes.length ∧ s.m_writesCounter = 0 := by
  obtain ⟨_, _, _, _, _, h6, fd, source1, _, _, h9⟩ := new_ok H G source journal fuel s h
  rw [h9, lseekEnd_zero, writeLogStumb_append H G _ _ rfl hD]
  exact ⟨rfl, h6⟩

theorem run_writes_below (H : Header) (G : GlobalConfiguration) {N : Nat} (hN : 0 < N)
    (hD : H.LOG_SEEK_DELIM_SIZE ≤ H.SIZEOF_SIZE_T + G.pageSize) (pages : List Page) :
    ∀ (s : CachedPageReadWriter), Consistent N s → s.m_logFd.pos = s.m_logFd.bytes.length →
      s.m_writesCounter + pages.length ≤ H.CHECKPOINT_THRESHOLD →
      ∃ s', run H G s (pages.map Op.write) = some s' ∧ Consistent N s'
        ∧ s'.m_logFd.pos = s'.m_logFd.bytes.length
        ∧ s'.m_logFd.bytes = s.m_logFd.bytes ++ (pages.map (changeRecord H G)).flatten
        ∧ s'.m_writesCounter = s.m_writesCounter + pages.length := by
  induction pages with
  | nil => intro s hc heof _; exact ⟨s, rfl, hc, heof, by simp, rfl⟩
  | cons pg rest ih =>
    intro s hc heof hcnt
    simp only [List.length_cons] at hcnt
    obtain ⟨s1, hw⟩ := write_total H G hc hN pg
    obtain ⟨j1, j2, j3⟩ := write_journal H G hw heof hD
    have hT : ¬ s.m_writesCounter = H.CHECKPOINT_THRESHOLD := by omega
    simp only [hT, if_false, List.append_nil] at j1 j3
    obtain ⟨s2, r1, r2, r3, r4, r5⟩ := ih s1 (write_consistent H G hc hw) j2 (by omega)
    refine ⟨s2, ?_, r2, r3, ?_, ?_⟩
    · simp only [List.map_cons, run, step, hw, r1]
    · rw [r4, j1]; simp
    · rw [r5, j3, List.length_cons]; omega

/-- C8. Threshold scenario: on a freshly constructed cache of at least one
slot, `CHECKPOINT_THRESHOLD + 1` writes with no explicit flush all return, and
they append to the journal the CHANGE records of the first
`CHECKPOINT_THRESHOLD` writes, then one CHECKPOINT record, then the CHANGE
record of the last write: one CHECKPOINT among the appended records,
immediately before the CHANGE record of the write that triggered it. -/
theorem threshold_scenario (H : Header) (G : GlobalConfiguration) (source : PageReadWriter)
    (journal : Option Bytes) (fuel : Nat) (s0 : CachedPageReadWriter)
    (first : List Page) (last : Page)
    (hnew : CachedPageReadWriter.new H G source journal fuel = some (Except.ok s0))
    (hN : 0 < G.cacheSize / G.pageSize)
    (hA : 7 < H.LOG_ACTION_SIZE)
    (hD : H.LOG_SEEK_DELIM_SIZE ≤ H.SIZEOF_SIZE_T + G.pageSize)
    (hlen : first.length = H.CHECKPOINT_THRESHOLD) :
    ∃ s, run H G s0 ((first ++ [last]).map Op.write) = some s
      ∧ s.m_logFd.bytes
          = s0.m_logFd.bytes
            ++ (first.map (changeRecord H G)
                ++ [stubRecord H G (LOG_ACTION_CHECKPOINT H), changeRecord H G last]).flatten
      ∧ (first.map (changeRecord H G)
          ++ [stubRecord H G (LOG_ACTION_CHECKPOINT H), changeRecord H G last]).countP
            (isCheckpoint H) = 1
      ∧ (first.map (changeRecord H G)
          ++ [stubRecord H G (LOG_ACTION_CHECKPOINT H), changeRecord H G last]).countP
            (isChange H) = H.CHECKPOINT_THRESHOLD + 1 := by
  have hc0 : Consistent (slots G) s0 := new_consistent H G source journal fuel s0 hnew
  obtain ⟨heof0, hcnt0⟩ := new_journal_eof H G source journal fuel s0 hnew hD
  obtain ⟨s1, r1, r2, r3, r4, r5⟩ :=
    run_writes_below H G (N := slots G) hN hD first s0 hc0 heof0 (by omega)
  obtain ⟨s2, hw⟩ := write_total H G r2 hN last
  obtain ⟨j1, _, _⟩ := write_journal H G hw r3 hD
  have hT : s1.m_writesCounter = H.CHECKPOINT_THRESHOLD := by omega
  simp only [hT, if_true] at j1
  refine ⟨s2, ?_, ?_, ?_, ?_⟩
  · rw [List.map_append, run_append, r1]
    simp [run, step, hw]
  · rw [j1, r4]; simp
  · have h0 : (first.map (changeRecord H G)).countP (isCheckpoint H) = 0 := by
      rw [List.countP_eq_zero]
      intro r hr
      obtain ⟨pg, _, rfl⟩ := List.mem_map.mp hr
      simp [isCheckpoint_changeRecord H G pg hA]
    simp [List.countP_append, List.countP_cons, h0, isCheckpoint_stubRecord,
      isCheckpoint_changeRecord H G last hA]
  · have h0 : (first.map (changeRecord H G)).countP (isChange H) = first.length := by
      rw [← List.length_map first (changeRecord H G), List.countP_eq_length]
      intro r hr
      obtain ⟨pg, _, rfl⟩ := List.mem_map.mp hr
      exact isChange_changeRecord H G pg
    simp [List.countP_append, List.countP_cons, h0, isChange_stubRecord H G hA,
      isChange_changeRecord, hlen]

/-- C8, on the example configuration (threshold 3): four writes to pages 1, 2,
3, 4 of a freshly constructed cache. -/
theorem threshold_scenario_witness :
    (CachedPageReadWriter.new exampleHeader exampleConf exampleStore none 0
        = some (Except.ok exampleFresh)
      ∧ 0 < exampleConf.cacheSize / exampleConf.pageSize
      ∧ 7 < exampleHeader.LOG_ACTION_SIZE
      ∧ exampleHeader.LOG_SEEK_DELIM_SIZE ≤ exampleHeader.SIZEOF_SIZE_T + exampleConf.pageSize
      ∧ ([⟨1, [1, 1, 1, 1]⟩, ⟨2, [2, 2, 2, 2]⟩, ⟨3, [3, 3, 3, 3]⟩] : List Page).length
          = exampleHeader.CHECKPOINT_THRESHOLD)
    ∧ ∃ s, run exampleHeader exampleConf exampleFresh
          ((([⟨1, [1, 1, 1, 1]⟩, ⟨2, [2, 2, 2, 2]⟩, ⟨3, [3, 3, 3, 3]⟩] : List Page)
            ++ [(⟨4, [4, 4, 4, 4]⟩ : Page)]).map Op.write) = some s
      ∧ s.m_logFd.bytes
          = exampleFresh.m_logFd.bytes
            ++ [changeRecord exampleHeader exampleConf ⟨1, [1, 1, 1, 1]⟩,
                changeRecord exampleHeader exampleConf ⟨2, [2, 2, 2, 2]⟩,
                changeRecord exampleHeader exampleConf ⟨3, [3, 3, 3, 3]⟩,
                stubRecord exampleHeader exampleConf (LOG_ACTION_CHECKPOINT exampleHeader),
                changeRecord exampleHeader exampleConf ⟨4, [4, 4, 4, 4]⟩].flatten := by
  refine ⟨⟨example_new, by decide, by decide, by decide, rfl⟩, ?_⟩
  obtain ⟨s, hr, hj, _⟩ := threshold_scenario exampleHeader exampleConf exampleStore none 0
    exampleFresh [⟨1, [1, 1, 1, 1]⟩, ⟨2, [2, 2, 2, 2]⟩, ⟨3, [3, 3, 3, 3]⟩] ⟨4, [4, 4, 4, 4]⟩
    example_new (by decide) (by decide) (by decide) rfl
  exact ⟨s, hr, hj⟩

/-! ## Eviction takes the least recently used page -/

theorem lastAccess_snoc (ops : List Op) (op : Op) (p : Nat) :
    lastAccess (ops ++ [op]) p
      = if accesses p op = true then ops.length + 1 else lastAccess ops p := by
  unfold lastAccess
  simp [lastAccessRev]

theorem lastAccessRev_le (ops : List Op) (p : Nat) : lastAccessRev ops p ≤ ops.length := by
  induction ops with
  | nil => simp [lastAccessRev]
  | cons op rest ih =>
    simp only [lastAccessRev, List.length_cons]
    split
    · omega
    · omega

theorem lastAccess_le (ops : List Op) (p : Nat) : lastAccess ops p ≤ ops.length := by
  unfold lastAccess
  have := lastAccessRev_le ops.reverse p
  simpa using this

theorem consistent_lru_nodup {N : Nat} {s : CachedPageReadWriter} (hc : Consistent N s) :
    s.m_lruList.Nodup :=
  hc.2.2.1.nodup_iff.mpr (List.nodup_range N)

theorem pageAt_unique {N : Nat} {s : CachedPageReadWriter} (hc : Consistent N s) {i j p : Nat}
    (hi : pageAt s.m_cache i = some p) (hj : pageAt s.m_cache j = some p) : i = j := by
  obtain ⟨_, _, _, _, c5, _⟩ := (consistent_iff N s).mp hc
  have h1 := (c5 p i).mpr hi
  rw [(c5 p j).mpr hj] at h1
  exact (Option.some.inj h1).symm

/-- The LRU order after slot `i` was moved to the front holding page `p`, the
page just accessed, the other slots keeping their pages. -/
theorem recency_front {ops : List Op} {s : CachedPageReadWriter} (hnd : s.m_lruList.Nodup)
    (hR : Recency ops s) (op : Op) (cache : List (Option Page)) (i p : Nat)
    (hacc : accesses p op = true) (hothers : ∀ y, y ≠ p → accesses y op = false)
    (hp : pageAt cache i = some p)
    (hsame : ∀ j, j ≠ i → pageAt cache j = pageAt s.m_cache j)
    (hne : ∀ j, j ≠ i → pageAt s.m_cache j ≠ some p) :
    (i :: s.m_lruList.erase i).Pairwise (fun a b => ∀ y, pageAt cache b = some y →
      ∃ x, pageAt cache a = some x
        ∧ lastAccess (ops ++ [op]) y < lastAccess (ops ++ [op]) x) := by
  have hLp : lastAccess (ops ++ [op]) p = ops.length + 1 := by
    rw [lastAccess_snoc, if_pos hacc]
  have hLy : ∀ y, y ≠ p → lastAccess (ops ++ [op]) y = lastAccess ops y := by
    intro y hy
    rw [lastAccess_snoc, hothers y hy]
    simp
  rw [List.pairwise_cons]
  constructor
  · intro b hb y hy
    have hbi : b ≠ i := fun e => (hnd.mem_erase_iff.mp hb).1 e
    rw [hsame b hbi] at hy
    have hyp : y ≠ p := fun e => hne b hbi (e ▸ hy)
    refine ⟨p, hp, ?_⟩
    rw [hLp, hLy y hyp]
    have := lastAccess_le ops y
    omega
  · have hsub : (s.m_lruList.erase i).Pairwise (fun a b => ∀ y, pageAt s.m_cache b = some y →
        ∃ x, pageAt s.m_cache a = some x ∧ lastAccess ops y < lastAccess ops x) :=
      hR.sublist (List.erase_sublist _ _)
    refine hsub.imp_of_mem ?_
    intro a b ha hb hab y hy
    have hai : a ≠ i := fun e => (hnd.mem_erase_iff.mp ha).1 e
    have hbi : b ≠ i := fun e => (hnd.mem_erase_iff.mp hb).1 e
    rw [hsame b hbi] at hy
    obtain ⟨x, hx, hlt⟩ := hab y hy
    have hyp : y ≠ p := fun e => hne b hbi (e ▸ hy)
    have hxp : x ≠ p := fun e => hne a hai (e ▸ hx)
    refine ⟨x, by rw [hsame a hai]; exact hx, ?_⟩
    rw [hLy y hyp, hLy x hxp]
    exact hlt

theorem recency_same {ops : List Op} {s : CachedPageReadWriter} (hR : Recency ops s) (op : Op)
    (hacc : ∀ y, accesses y op = false) :
    s.m_lruList.Pairwise (fun a b => ∀ y, pageAt s.m_cache b = some y →
      ∃ x, pageAt s.m_cache a = some x
        ∧ lastAccess (ops ++ [op]) y < lastAccess (ops ++ [op]) x) := by
  refine hR.imp ?_
  intro a b hab y hy
  obtain ⟨x, hx, hlt⟩ := hab y hy
  refine ⟨x, hx, ?_⟩
  rw [lastAccess_snoc, lastAccess_snoc, hacc y, hacc x]
  simpa using hlt

theorem accesses_read (n y : Nat) (hy : y ≠ n) : accesses y (Op.read n) = false := by
  simp only [accesses, beq_eq_false_iff_ne, ne_eq]
  exact fun e => hy e.symm

theorem accesses_write (page : Page) (y : Nat) (hy : y ≠ page.number) :
    accesses y (Op.write page) = false := by
  simp only [accesses, beq_eq_false_iff_ne, ne_eq]
  exact fun e => hy e.symm

theorem pageAt_set_same (cache : List (Option Page)) (i : Nat) (pg : Page)
    (h : pageAt cache i = some pg.number) (j : Nat) :
    pageAt (cache.set i (some pg)) j = pageAt cache j := by
  rw [pageAt_set _ _ _ _ (pageAt_lt _ _ _ h)]
  by_cases hj : j = i
  · simp [hj, h]
  · simp [hj]

theorem step_recency {N : Nat} (H : Header) (G : GlobalConfiguration) {ops : List Op}
    {s s' : CachedPageReadWriter} {o : Op} (hc : Consistent N s) (hcl : Clean s)
    (hR : Recency ops s) (h : step H G s o = some s') : Recency (ops ++ [o]) s' := by
  have hnd := consistent_lru_nodup hc
  obtain ⟨c1, _, _, _, c5, _⟩ := (consistent_iff N s).mp hc
  cases o with
  | read n =>
    simp only [step, Option.map_eq_some'] at h
    obtain ⟨⟨d, s1⟩, h1, rfl⟩ := h
    rcases read_cases G hc hcl h1 with ⟨i, pg, hi, hpg, hnum, _, rfl⟩ | ⟨b, hn, hb, _, rfl⟩
    · have hp : pageAt s.m_cache i = some n := (c5 n i).mp hi
      exact recency_front hnd hR (Op.read n) s.m_cache i n (by simp [accesses])
        (accesses_read n) hp (fun _ _ => rfl)
        (fun j hj hjp => hj (pageAt_unique hc hjp hp))
    · have hbN : b < s.m_cache.length := by
        rw [c1]
        exact List.mem_range.mp (hc.2.2.1.mem_iff.mp (List.mem_of_getLast?_eq_some hb))
      refine recency_front hnd hR (Op.read n) _ b n (by simp [accesses])
        (accesses_read n) ?_ ?_ ?_
      · show pageAt (s.m_cache.set b _) b = some n
        rw [pageAt_set _ _ _ _ hbN]; simp
      · intro j hj
        show pageAt (s.m_cache.set b _) j = _
        rw [pageAt_set _ _ _ _ hbN]; simp [hj]
      · intro j _ hjp
        rw [← c5, hn] at hjp; cases hjp
  | write page =>
    obtain ⟨f1, _, f3, _, _⟩ := counted_fields H G s
    rcases write_cases H G hc hcl h with ⟨i, pg, hi, hpg, hnum, rfl⟩ | ⟨b, hn, hb, rfl⟩
    · have hp : pageAt s.m_cache i = some page.number := (c5 _ i).mp hi
      refine recency_front hnd hR (Op.write page) _ i page.number (by simp [accesses])
        (accesses_write page) ?_ ?_ ?_
      · show pageAt (s.m_cache.set i _) i = some page.number
        rw [pageAt_set _ _ _ _ (pageAt_lt _ _ _ hp)]; simp [hnum]
      · intro j hj
        show pageAt (s.m_cache.set i _) j = _
        rw [pageAt_set _ _ _ _ (pageAt_lt _ _ _ hp)]; simp [hj]
      · exact fun j hj hjp => hj (pageAt_unique hc hjp hp)
    · have hbN : b < s.m_cache.length := by
        rw [c1]
        exact List.mem_range.mp (hc.2.2.1.mem_iff.mp (List.mem_of_getLast?_eq_some hb))
      have hgoal := recency_front hnd hR (Op.write page)
        (s.m_cache.set b (some ⟨page.number,
          memcpy (List.replicate G.pageSize 0) page.data G.pageSize⟩)) b page.number
        (by simp [accesses]) (accesses_write page)
        (by rw [pageAt_set _ _ _ _ hbN]; simp)
        (fun j hj => by rw [pageAt_set _ _ _ _ hbN]; simp [hj])
        (fun j _ hjp => by rw [← c5, hn] at hjp; cases hjp)
      show List.Pairwise _ (b :: (counted H G s).m_lruList.erase b)
      simp only [loaded, writeLog, f1, f3]
      exact hgoal
  | flush =>
    simp only [step, flush_clean H G hc hcl, Option.some.injEq] at h
    subst h
    exact recency_same hR Op.flush (fun _ => rfl)
  | deallocatePageNumber n =>
    rcases deallocatePageNumber_some s s' n h with ⟨_, rfl⟩ | ⟨slot, hs, hl, _, _, rfl⟩
    · exact recency_same hR (Op.deallocatePageNumber n) (fun _ => rfl)
    · have hbase := recency_same hR (Op.deallocatePageNumber n) (fun _ => rfl)
      show List.Pairwise _ (s.m_lruList.erase slot ++ [slot])
      rw [List.pairwise_append]
      refine ⟨?_, List.pairwise_singleton _ _, ?_⟩
      · refine (hbase.sublist (List.erase_sublist _ _)).imp_of_mem ?_
        intro a b ha hb hab y hy
        have hai : a ≠ slot := fun e => (hnd.mem_erase_iff.mp ha).1 e
        have hbi : b ≠ slot := fun e => (hnd.mem_erase_iff.mp hb).1 e
        have hy1 : pageAt s.m_cache b = some y := by
          have : pageAt (s.m_cache.set slot none) b = some y := hy
          rwa [pageAt_set _ _ _ _ hl, if_neg hbi] at this
        obtain ⟨x, hx, hlt⟩ := hab y hy1
        refine ⟨x, ?_, hlt⟩
        show pageAt (s.m_cache.set slot none) a = some x
        rw [pageAt_set _ _ _ _ hl, if_neg hai]; exact hx
      · intro a _ b hb y hy
        rw [List.mem_singleton] at hb
        subst hb
        have : pageAt (s.m_cache.set b none) b = some y := hy
        rw [pageAt_set _ _ _ _ hl] at this
        simp at this

theorem run_recency {N : Nat} (H : Header) (G : GlobalConfiguration) (ops : List Op) :
    ∀ (pre : List Op) {s s' : CachedPageReadWriter}, Consistent N s → Clean s → Synced s →
      Recency pre s → run H G s ops = some s' → Recency (pre ++ ops) s' := by
  induction ops with
  | nil =>
    intro pre s s' _ _ _ hR h
    simp only [run, Option.some.injEq] at h
    subst h
    simpa using hR
  | cons op rest ih =>
    intro pre s s' hc hcl hsy hR h
    simp only [run] at h
    split at h
    · cases h
    · next s1 h1 =>
      obtain ⟨hcl1, hsy1⟩ := step_clean_synced H G hc hcl hsy h1
      have := ih (pre ++ [op]) (step_consistent H G hc h1) hcl1 hsy1
        (step_recency H G hc hcl hR h1) h
      simpa using this

theorem new_recency (H : Header) (G : GlobalConfiguration) (source : PageReadWriter)
    (journal : Option Bytes) (fuel : Nat) (s : CachedPageReadWriter)
    (h : CachedPageReadWriter.new H G source journal fuel = some (Except.ok s)) :
    Recency [] s := by
  obtain ⟨_, h1, _⟩ := new_ok H G source journal fuel s h
  unfold Recency
  apply List.pairwise_of_forall
  intro a b y hy
  rw [h1] at hy
  obtain ⟨pg, hpg, _⟩ := (pageAt_eq_some _ _ _).mp hy
  rw [List.getElem?_replicate] at hpg
  split at hpg <;> cases hpg

theorem mapFind_loaded {N : Nat} {s : CachedPageReadWriter} (hc : Consistent N s)
    (b : Nat) (pg : Page) (x : Nat) :
    mapFind (loaded s b pg).m_posInCache x
      = if x = pg.number then some b
        else if mapFind s.m_posInCache x = some b then none else mapFind s.m_posInCache x := by
  show mapFind (mapInsert (evictedMap s b) pg.number b) x = _
  rw [mapFind_mapInsert, mapFind_evictedMap hc]

/-- C10. LRU eviction: in a state reached from construction in which every
slot holds a page, a read or a write of a page p that is not resident returns
and evicts exactly one page, the one held by the back slot of the LRU list,
whose last read or write is older than that of every other resident page; the
other resident pages stay, and p is resident in the slot at the front of the
LRU list. -/
theorem lru_eviction (H : Header) (G : GlobalConfiguration) (source : PageReadWriter)
    (journal : Option Bytes) (fuel : Nat) (s0 s : CachedPageReadWriter) (before : List Op)
    (o : Op) (p : Nat)
    (hnew : CachedPageReadWriter.new H G source journal fuel = some (Except.ok s0))
    (hrun : run H G s0 before = some s)
    (hN : 0 < G.cacheSize / G.pageSize)
    (hfull : ∀ i, i < G.cacheSize / G.pageSize → pageAt s.m_cache i ≠ none)
    (hop : o = Op.read p ∨ ∃ d, o = Op.write ⟨p, d⟩)
    (hmiss : mapFind s.m_posInCache p = none) :
    ∃ q b s', step H G s o = some s'
      ∧ s.m_lruList.getLast? = some b ∧ pageAt s.m_cache b = some q
      ∧ (∀ r, r ≠ q → mapFind s.m_posInCache r ≠ none →
          lastAccess before q < lastAccess before r)
      ∧ (∀ x, mapFind s'.m_posInCache x ≠ none
          ↔ (x = p ∨ (x ≠ q ∧ mapFind s.m_posInCache x ≠ none)))
      ∧ mapFind s'.m_posInCache p = some b ∧ s'.m_lruList.head? = some b := by
  have hc0 := new_consistent H G source journal fuel s0 hnew
  obtain ⟨hcl0, hsy0⟩ := new_clean_synced H G source journal fuel s0 hnew
  obtain ⟨hc, hcl, hsy⟩ := run_inv H G before hc0 hcl0 hsy0 hrun
  have hR : Recency before s := by
    have := run_recency H G before [] hc0 hcl0 hsy0
      (new_recency H G source journal fuel s0 hnew) hrun
    simpa using this
  obtain ⟨c1, _, c3, _, c5, _⟩ := (consistent_iff (slots G) s).mp hc
  obtain ⟨b, hb, hbN⟩ := lru_getLast hc hN
  obtain ⟨q, hq⟩ := Option.ne_none_iff_exists'.mp (hfull b hbN)
  obtain ⟨s', hs'⟩ := step_total H G hc hN o
  have hold : ∀ r, r ≠ q → mapFind s.m_posInCache r ≠ none →
      lastAccess before q < lastAccess before r := by
    intro r hrq hr
    obtain ⟨a, ha⟩ := Option.ne_none_iff_exists'.mp hr
    have hpa : pageAt s.m_cache a = some r := (c5 r a).mp ha
    have hab : a ≠ b := fun e => hrq (Option.some.inj ((e ▸ hpa).symm.trans hq))
    obtain ⟨init, hinit⟩ := List.getLast?_eq_some_iff.mp hb
    have haN : a < slots G := c1 ▸ pageAt_lt _ _ _ hpa
    have hamem : a ∈ s.m_lruList := c3.mem_iff.mpr (List.mem_range.mpr haN)
    have hainit : a ∈ init := by
      rw [hinit] at hamem
      rcases List.mem_append.mp hamem with h | h
      · exact h
      · exact absurd (List.mem_singleton.mp h) hab
    unfold Recency at hR
    rw [hinit, List.pairwise_append] at hR
    obtain ⟨x, hx, hlt⟩ := hR.2.2 a hainit b (List.mem_singleton.mpr rfl) q hq
    rw [hpa] at hx
    rw [Option.some.inj hx]
    exact hlt
  have hres : ∀ (pg : Page), pg.number = p → ∀ x,
      mapFind (loaded s b pg).m_posInCache x ≠ none
        ↔ (x = p ∨ (x ≠ q ∧ mapFind s.m_posInCache x ≠ none)) := by
    intro pg hpg x
    rw [mapFind_loaded hc, hpg]
    by_cases hxp : x = p
    · simp [hxp]
    · simp only [hxp, if_false, false_or]
      by_cases hxq : x = q
      · subst hxq
        simp [(c5 x b).mpr hq]
      · have : ¬ mapFind s.m_posInCache x = some b := by
          intro hx
          rw [c5] at hx
          rw [hq] at hx
          exact hxq (Option.some.inj hx).symm
        simp [this, hxq]
  have hfront : ∀ (pg : Page), pg.number = p →
      mapFind (loaded s b pg).m_posInCache p = some b := by
    intro pg hpg
    rw [mapFind_loaded hc, hpg]
    simp
  refine ⟨q, b, s', hs', hb, hq, hold, ?_⟩
  rcases hop with rfl | ⟨d, rfl⟩
  · simp only [step, Option.map_eq_some'] at hs'
    obtain ⟨⟨d, s1⟩, h1, rfl⟩ := hs'
    rw [read_miss G hc hcl hmiss hb] at h1
    simp only [Option.some.injEq, Prod.mk.injEq] at h1
    obtain ⟨_, rfl⟩ := h1
    exact ⟨hres _ rfl, hfront _ rfl, rfl⟩
  · simp only [step] at hs'
    rw [write_miss H G hc hcl hmiss hb] at hs'
    simp only [Option.some.injEq] at hs'
    subst hs'
    obtain ⟨f1, f2, f3, f4, _⟩ := counted_fields H G s
    have hev : evictedMap (writeLog H G (counted H G s) ⟨p, d⟩) b = evictedMap s b := by
      have e1 : (writeLog H G (counted H G s) ⟨p, d⟩).m_cache = s.m_cache := f1
      have e2 : (writeLog H G (counted H G s) ⟨p, d⟩).m_posInCache = s.m_posInCache := f4
      unfold evictedMap
      rw [e1, e2]
    refine ⟨?_, ?_, rfl⟩
    · intro x
      have := hres ⟨p, memcpy (List.replicate G.pageSize 0) d G.pageSize⟩ rfl x
      simp only [loaded, hev] at this ⊢
      exact this
    · have := hfront ⟨p, memcpy (List.replicate G.pageSize 0) d G.pageSize⟩ rfl
      simp only [loaded, hev] at this ⊢
      exact this

set_option maxRecDepth 100000 in
/-- C10, on the example cache of 2 slots: after write(1), write(2), read(1),
the call write(3) evicts page 2 and keeps page 1. -/
theorem lru_eviction_witness :
    (CachedPageReadWriter.new exampleHeader exampleConf exampleStore none 0
        = some (Except.ok exampleFresh)
      ∧ run exampleHeader exampleConf exampleFresh exampleBefore
          = some (exampleAfter exampleBefore)
      ∧ 0 < exampleConf.cacheSize / exampleConf.pageSize
      ∧ (∀ i, i < exampleConf.cacheSize / exampleConf.pageSize →
          pageAt (exampleAfter exampleBefore).m_cache i ≠ none)
      ∧ mapFind (exampleAfter exampleBefore).m_posInCache 3 = none)
    ∧ ∃ s', step exampleHeader exampleConf (exampleAfter exampleBefore)
          (Op.write ⟨3, [3, 3, 3, 3]⟩) = some s'
      ∧ mapFind s'.m_posInCache 2 = none
      ∧ mapFind s'.m_posInCache 1 ≠ none
      ∧ mapFind s'.m_posInCache 3 ≠ none
      ∧ lastAccess exampleBefore 2 < lastAccess exampleBefore 1 := by
  have h4 : ∀ i, i < exampleConf.cacheSize / exampleConf.pageSize →
      pageAt (exampleAfter exampleBefore).m_cache i ≠ none := by decide
  have h5 : mapFind (exampleAfter exampleBefore).m_posInCache 3 = none := by decide
  refine ⟨⟨rfl, rfl, by decide, h4, h5⟩, ?_⟩
  obtain ⟨q, b, s', hs, hb, hq, hold, hres, _, _⟩ :=
    lru_eviction exampleHeader exampleConf exampleStore none 0 exampleFresh
      (exampleAfter exampleBefore) exampleBefore (Op.write ⟨3, [3, 3, 3, 3]⟩) 3 rfl rfl
      (by decide) h4 (Or.inr ⟨_, rfl⟩) h5
  have hb0 : (exampleAfter exampleBefore).m_lruList.getLast? = some 0 := by decide
  have hb1 : b = 0 := (Option.some.inj (hb.symm.trans hb0))
  subst hb1
  have hq0 : pageAt (exampleAfter exampleBefore).m_cache 0 = some 2 := by decide
  have hq1 : q = 2 := (Option.some.inj (hq.symm.trans hq0))
  subst hq1
  have h1 : mapFind (exampleAfter exampleBefore).m_posInCache 1 ≠ none := by decide
  refine ⟨s', hs, ?_, (hres 1).mpr (Or.inr ⟨by decide, h1⟩), (hres 3).mpr (Or.inl rfl),
    hold 1 (by decide) h1⟩
  by_contra hne
  rcases (hres 2).mp hne with h | h
  · exact absurd h (by decide)
  · exact h.1 rfl

/-! ## Crash durability -/

theorem afterLastCheckpoint_snoc (H : Header) (recs : List Bytes) (r : Bytes) :
    afterLastCheckpoint H (recs ++ [r])
      = if isCheckpoint H r then some []
        else (afterLastCheckpoint H recs).map (fun l => l ++ [r]) := by
  induction recs with
  | nil =>
    simp only [List.nil_append, afterLastCheckpoint]
    split <;> rfl
  | cons x xs ih =>
    rw [List.cons_append, afterLastCheckpoint, afterLastCheckpoint, ih]
    by_cases hr : isCheckpoint H r = true
    · simp [hr]
    · simp only [hr, Bool.false_eq_true, if_false]
      cases hxs : afterLastCheckpoint H xs with
      | some l => simp
      | none =>
        simp only [Option.map_none']
        by_cases hx : isCheckpoint H x = true
        · simp [hx]
        · simp [hx]

theorem changesOf_snoc (H : Header) (G : GlobalConfiguration) (post : List Bytes) (r : Bytes) :
    changesOf H G (post ++ [r])
      = changesOf H G post ++ (if isChange H r then [recordPage H G r] else []) := by
  unfold changesOf
  rw [List.filter_append, List.map_append]
  congr 1
  by_cases h : isChange H r = true
  · simp [h]
  · simp [h]

theorem isCheckpoint_stub_open (H : Header) (G : GlobalConfiguration)
    (hA : 7 < H.LOG_ACTION_SIZE) :
    isCheckpoint H (stubRecord H G (LOG_ACTION_DB_OPEN H)) = false := by
  unfold isCheckpoint stubRecord
  rw [List.append_assoc, List.take_left' (length_DB_OPEN H), decide_eq_false_iff_not,
    strcmp_eq_zero_iff, cstr_DB_OPEN H hA, cstr_CHECKPOINT H hA]
  decide

theorem isChange_stub_open (H : Header) (G : GlobalConfiguration)
    (hA : 7 < H.LOG_ACTION_SIZE) :
    isChange H (stubRecord H G (LOG_ACTION_DB_OPEN H)) = false := by
  apply isChange_of_tag H hA
  left
  unfold stubRecord
  rw [List.append_assoc, List.take_left' (length_DB_OPEN H)]

theorem writesOf_snoc (ops : List Op) (op : Op) :
    writesOf (ops ++ [op])
      = writesOf ops ++ (match op with
          | Op.write page => [page]
          | _ => []) := by
  unfold writesOf
  rw [List.filterMap_append]
  cases op <;> simp

theorem lastWrite_snoc_write (ops : List Op) (page : Page) (p : Nat) :
    lastWrite (ops ++ [Op.write page]) p
      = if page.number = p then some page.data else lastWrite ops p := by
  unfold lastWrite
  rw [writesOf_snoc]
  exact lastData_snoc _ _ _

theorem lastWrite_snoc_other (ops : List Op) (op : Op) (p : Nat)
    (h : ∀ page, op ≠ Op.write page) : lastWrite (ops ++ [op]) p = lastWrite ops p := by
  unfold lastWrite
  rw [writesOf_snoc]
  cases op with
  | write page => exact absurd rfl (h page)
  | read n => simp
  | flush => simp
  | deallocatePageNumber n => simp

theorem memcpy_full (old d : Bytes) (n : Nat) (hd : d.length = n) (hold : old.length ≤ n) :
    memcpy old d n = d := by
  unfold memcpy
  rw [List.take_of_length_le (by omega), List.drop_of_length_le hold, List.append_nil]

theorem new_durable (H : Header) (G : GlobalConfiguration) (source : PageReadWriter)
    (s : CachedPageReadWriter)
    (h : CachedPageReadWriter.new H G source none 0 = some (Except.ok s))
    (hA : 7 < H.LOG_ACTION_SIZE)
    (hD : H.LOG_SEEK_DELIM_SIZE ≤ H.SIZEOF_SIZE_T + G.pageSize)
    (hsz : ∀ n, (source.pages n).length = G.pageSize) :
    Durable H G [] s := by
  obtain ⟨_, _, _, _, _, _, fd, source1, h7, h8, h9⟩ := new_ok H G source none 0 s h
  simp only [Option.some.injEq, Prod.mk.injEq] at h7
  obtain ⟨hfd, hsrc⟩ := h7
  have e1 := writeLogStumb_append H G ⟨[], 0⟩ (LOG_ACTION_CHECKPOINT H) rfl hD
  rw [e1] at hfd
  subst hfd
  subst hsrc
  rw [lseekEnd_zero, writeLogStumb_append H G _ _ rfl hD] at h9
  refine ⟨[stubRecord H G (LOG_ACTION_CHECKPOINT H), stubRecord H G (LOG_ACTION_DB_OPEN H)],
    [stubRecord H G (LOG_ACTION_DB_OPEN H)], ?_, ?_, ?_, ?_, ?_, ?_, ?_, ?_⟩
  · rw [h9]; simp
  · rw [h9]
  · intro r hr
    simp only [List.mem_cons, List.mem_singleton, List.not_mem_nil, or_false] at hr
    rcases hr with rfl | rfl
    · exact stubRecord_length H G _ (length_CHECKPOINT H) hD
    · exact stubRecord_length H G _ (length_DB_OPEN H) hD
  · simp [afterLastCheckpoint, isCheckpoint_stub_open H G hA, isCheckpoint_stubRecord]
  · rw [h8]; exact hsz
  · intro p d hd; simp [lastWrite, writesOf, lastData] at hd
  · intro p _ hd; simp [lastWrite, writesOf, lastData] at hd
  · intro p d hd
    simp [changesOf, isChange_stub_open H G hA, lastData] at hd

theorem durable_snoc_other (H : Header) (G : GlobalConfiguration) {ops : List Op}
    {s t : CachedPageReadWriter} (op : Op) (hd : Durable H G ops s)
    (hop : ∀ page, op ≠ Op.write page) (hfd : t.m_logFd = s.m_logFd)
    (hpages : t.m_source.pages = s.m_source.pages)
    (hunfl : t.m_source.unflushed = s.m_source.unflushed) :
    Durable H G (ops ++ [op]) t := by
  obtain ⟨recs, post, d1, d2, d3, d4, d5, d6, d7, d8⟩ := hd
  refine ⟨recs, post, by rw [hfd]; exact d1, by rw [hfd]; exact d2, d3, d4,
    by rw [hpages]; exact d5, ?_, ?_, ?_⟩
  · intro p d h
    rw [lastWrite_snoc_other ops op p hop] at h
    rw [hpages]; exact d6 p d h
  · intro p hp h
    rw [lastWrite_snoc_other ops op p hop] at h
    rw [hunfl] at hp
    exact d7 p hp h
  · intro p d h
    rw [lastWrite_snoc_other ops op p hop]
    exact d8 p d h

theorem durable_flushed (H : Header) (G : GlobalConfiguration) {ops : List Op}
    {s t : CachedPageReadWriter} (hd : Durable H G ops s)
    (hD : H.LOG_SEEK_DELIM_SIZE ≤ H.SIZEOF_SIZE_T + G.pageSize)
    (hfd : t.m_logFd = writeLogStumb H G (sysWrite s.m_logFd (LOG_ACTION_CHECKPOINT H)))
    (hsrc : t.m_source = s.m_source.flush) :
    Durable H G ops t := by
  obtain ⟨recs, post, d1, d2, d3, d4, d5, d6, d7, d8⟩ := hd
  rw [writeLogStumb_append H G _ _ d2 hD] at hfd
  refine ⟨recs ++ [stubRecord H G (LOG_ACTION_CHECKPOINT H)], [], ?_, ?_, ?_, ?_, ?_, ?_, ?_, ?_⟩
  · rw [hfd, d1]; simp
  · rw [hfd]
  · intro r hr
    rcases List.mem_append.mp hr with h | h
    · exact d3 r h
    · rw [List.mem_singleton.mp h]
      exact stubRecord_length H G _ (length_CHECKPOINT H) hD
  · rw [afterLastCheckpoint_snoc, isCheckpoint_stubRecord]
    simp
  · rw [hsrc]; exact d5
  · intro p d h; rw [hsrc]; exact d6 p d h
  · intro p hp; rw [hsrc] at hp; simp [PageReadWriter.flush] at hp
  · intro p d h; simp [changesOf, lastData] at h

theorem durable_counted (H : Header) (G : GlobalConfiguration) {ops : List Op}
    {s : CachedPageReadWriter} (hd : Durable H G ops s)
    (hD : H.LOG_SEEK_DELIM_SIZE ≤ H.SIZEOF_SIZE_T + G.pageSize) :
    Durable H G ops (counted H G s) := by
  unfold counted
  split
  · exact durable_flushed H G hd hD rfl rfl
  · exact hd

theorem durable_write (H : Header) (G : GlobalConfiguration) {ops : List Op}
    {c t : CachedPageReadWriter} (page : Page) (hd : Durable H G ops c)
    (hA : 7 < H.LOG_ACTION_SIZE)
    (hlen : page.data.length = G.pageSize) (hnum : page.number < 256 ^ H.SIZEOF_SIZE_T)
    (hfd : t.m_logFd = (writeLog H G c page).m_logFd)
    (hsrc : t.m_source = c.m_source.write page) :
    Durable H G (ops ++ [Op.write page]) t := by
  obtain ⟨recs, post, d1, d2, d3, d4, d5, d6, d7, d8⟩ := hd
  obtain ⟨l1, l2⟩ := writeLog_logFd H G c page d2
  have hch : changesOf H G (post ++ [changeRecord H G page]) = changesOf H G post ++ [page] := by
    rw [changesOf_snoc, isChange_changeRecord, recordPage_changeRecord H G page hlen hnum]
    simp
  refine ⟨recs ++ [changeRecord H G page], post ++ [changeRecord H G page],
    ?_, ?_, ?_, ?_, ?_, ?_, ?_, ?_⟩
  · rw [hfd, l1, d1]; simp
  · rw [hfd]; exact l2
  · intro r hr
    rcases List.mem_append.mp hr with h | h
    · exact d3 r h
    · rw [List.mem_singleton.mp h]
      exact changeRecord_length H G page hlen
  · rw [afterLastCheckpoint_snoc, isCheckpoint_changeRecord H G page hA, d4]
    simp
  · intro n
    rw [hsrc]
    simp only [PageReadWriter.write]
    split
    · exact hlen
    · exact d5 n
  · intro p d h
    rw [lastWrite_snoc_write] at h
    rw [hsrc]
    simp only [PageReadWriter.write]
    by_cases hp : page.number = p
    · rw [if_pos hp] at h
      rw [if_pos hp.symm]
      exact Option.some.inj h
    · rw [if_neg hp] at h
      rw [if_neg (fun e => hp e.symm)]
      exact d6 p d h
  · intro p hp h
    rw [hch, lastData_snoc]
    rw [lastWrite_snoc_write] at h
    rw [hsrc] at hp
    simp only [PageReadWriter.write, List.mem_cons] at hp
    by_cases hpp : page.number = p
    · simp [hpp]
    · rw [if_neg hpp] at h ⊢
      rcases hp with hp | hp
      · exact absurd hp.symm hpp
      · exact d7 p hp h
  · intro p d h
    rw [hch, lastData_snoc] at h
    rw [lastWrite_snoc_write]
    by_cases hpp : page.number = p
    · rw [if_pos hpp] at h ⊢
      exact h
    · rw [if_neg hpp] at h ⊢
      exact d8 p d h

theorem step_durable {N : Nat} (H : Header) (G : GlobalConfiguration) {ops : List Op}
    {s s' : CachedPageReadWriter} {o : Op} (hc : Consistent N s) (hcl : Clean s)
    (hsy : Synced s) (hd : Durable H G ops s)
    (hA : 7 < H.LOG_ACTION_SIZE)
    (hD : H.LOG_SEEK_DELIM_SIZE ≤ H.SIZEOF_SIZE_T + G.pageSize)
    (hop : sessionOp H G o) (h : step H G s o = some s') :
    Durable H G (ops ++ [o]) s' := by
  cases o with
  | read n =>
    simp only [step, Option.map_eq_some'] at h
    obtain ⟨⟨d, s1⟩, h1, rfl⟩ := h
    rcases read_cases G hc hcl h1 with ⟨i, pg, _, _, _, _, rfl⟩ | ⟨b, hn, _, _, rfl⟩
    · exact durable_snoc_other H G (Op.read n) hd (fun _ e => by cases e) rfl rfl rfl
    · exact durable_snoc_other H G (Op.read n) hd (fun _ e => by cases e) rfl rfl rfl
  | write page =>
    obtain ⟨hlen, hnum⟩ := hop
    have hdc := durable_counted H G hd hD
    obtain ⟨f1, _, _, _, f5⟩ := counted_fields H G s
    have hsz : ∀ n, (s.m_source.pages n).length = G.pageSize := by
      obtain ⟨_, _, _, _, _, _, d5, _⟩ := hd
      exact d5
    rcases write_cases H G hc hcl h with ⟨i, pg, hi, hpg, hnum1, rfl⟩ | ⟨b, hn, _, rfl⟩
    · refine durable_write H G page hdc hA hlen hnum rfl ?_
      have hold : pg.data.length ≤ G.pageSize := by
        rw [← hsy i pg hpg, hsz]
      show (counted H G s).m_source.write _ = (counted H G s).m_source.write page
      rw [memcpy_full _ _ _ hlen hold, hnum1]
    · refine durable_write H G page hdc hA hlen hnum rfl ?_
      show (counted H G s).m_source.write _ = (counted H G s).m_source.write page
      rw [memcpy_full _ _ _ hlen (by simp)]
  | flush =>
    simp only [step, flush_clean H G hc hcl, Option.some.injEq] at h
    subst h
    exact durable_snoc_other H G Op.flush (durable_flushed H G hd hD rfl rfl)
      (fun _ e => by cases e) rfl rfl rfl
  | deallocatePageNumber n => exact absurd hop (by simp [sessionOp])

theorem run_durable {N : Nat} (H : Header) (G : GlobalConfiguration)
    (hA : 7 < H.LOG_ACTION_SIZE)
    (hD : H.LOG_SEEK_DELIM_SIZE ≤ H.SIZEOF_SIZE_T + G.pageSize) (ops : List Op) :
    ∀ (pre : List Op) {s s' : CachedPageReadWriter}, Consistent N s → Clean s → Synced s →
      Durable H G pre s → (∀ op ∈ ops, sessionOp H G op) → run H G s ops = some s' →
      Durable H G (pre ++ ops) s' := by
  induction ops with
  | nil =>
    intro pre s s' _ _ _ hd _ h
    simp only [run, Option.some.injEq] at h
    subst h
    simpa using hd
  | cons op rest ih =>
    intro pre s s' hc hcl hsy hd hops h
    simp only [run] at h
    split at h
    · cases h
    · next s1 h1 =>
      obtain ⟨hcl1, hsy1⟩ := step_clean_synced H G hc hcl hsy h1
      have := ih (pre ++ [op]) (step_consistent H G hc h1) hcl1 hsy1
        (step_durable H G hc hcl hsy hd hA hD (hops op (List.mem_cons_self _ _)) h1)
        (fun o ho => hops o (List.mem_cons_of_mem _ ho)) h
      simpa using this

/-- C2. Crash durability: run any sequence of reads, writes and flushes on a
cache constructed on no journal, and stop after any call. Let the surviving
store be any page map that agrees with the live store on every page not
written since the store was last flushed. Then the constructor run on the
journal left behind and the surviving store returns (given enough fuel), and
in the store it leaves every page written during the session holds the
payload of its last write. -/
theorem crash_durability (H : Header) (G : GlobalConfiguration)
    (source survivor : PageReadWriter) (s0 s : CachedPageReadWriter) (ops : List Op)
    (hA : 7 < H.LOG_ACTION_SIZE)
    (hD : H.LOG_SEEK_DELIM_SIZE ≤ H.SIZEOF_SIZE_T + G.pageSize)
    (hsz : ∀ n, (source.pages n).length = G.pageSize)
    (hnew : CachedPageReadWriter.new H G source none 0 = some (Except.ok s0))
    (hops : ∀ op ∈ ops, sessionOp H G op)
    (hrun : run H G s0 ops = some s)
    (hsurv : ∀ p, p ∉ s.m_source.unflushed → survivor.pages p = s.m_source.pages p) :
    ∃ fuel0, ∀ fuel, fuel0 ≤ fuel →
      ∃ r, CachedPageReadWriter.new H G survivor (some s.m_logFd.bytes) fuel
          = some (Except.ok r)
        ∧ ∀ p d, lastWrite ops p = some d → r.m_source.pages p = d := by
  have hc0 := new_consistent H G source none 0 s0 hnew
  obtain ⟨hcl0, hsy0⟩ := new_clean_synced H G source none 0 s0 hnew
  have hconf := (new_ok H G source none 0 s0 hnew).1
  have hd0 := new_durable H G source s0 hnew hA hD hsz
  have hd := run_durable H G hA hD ops [] hc0 hcl0 hsy0 hd0 hops hrun
  simp only [List.nil_append] at hd
  obtain ⟨recs, post, d1, _, d3, d4, _, d6, d7, d8⟩ := hd
  refine ⟨recs.length + 1, ?_⟩
  intro fuel hfuel
  have hrec := recover_eq H G (by omega) recs post survivor d3 d4 0 fuel (by omega)
  unfold CachedPageReadWriter.new
  simp only [hconf, ne_eq, not_true_eq_false, if_false, d1, hrec]
  refine ⟨_, rfl, ?_⟩
  intro p d hp
  show (writeAll survivor (changesOf H G post)).pages p = d
  rw [writeAll_pages]
  cases hl : lastData (changesOf H G post) p with
  | some d' =>
    have := d8 p d' hl
    rw [hp] at this
    simp only [Option.getD_some]
    exact (Option.some.inj this).symm
  | none =>
    simp only [Option.getD_none]
    have hnot : p ∉ s.m_source.unflushed := by
      intro hmem
      exact d7 p hmem (by rw [hp]; simp) hl
    rw [hsurv p hnot]
    exact d6 p d hp

/-- C2, on the example cache: after write(1), write(2), read(1), write(3) and no
flush, a store that lost every write is recovered from the journal. -/
theorem crash_durability_witness :
    (7 < exampleHeader.LOG_ACTION_SIZE
      ∧ exampleHeader.LOG_SEEK_DELIM_SIZE ≤ exampleHeader.SIZEOF_SIZE_T + exampleConf.pageSize
      ∧ (∀ n, (exampleStore.pages n).length = exampleConf.pageSize)
      ∧ CachedPageReadWriter.new exampleHeader exampleConf exampleStore none 0
          = some (Except.ok exampleFresh)
      ∧ (∀ op ∈ exampleOps, sessionOp exampleHeader exampleConf op)
      ∧ run exampleHeader exampleConf exampleFresh exampleOps = some (exampleAfter exampleOps)
      ∧ (∀ p, p ∉ (exampleAfter exampleOps).m_source.unflushed →
          exampleStore.pages p = (exampleAfter exampleOps).m_source.pages p))
    ∧ ∃ fuel0, ∀ fuel, fuel0 ≤ fuel →
      ∃ r, CachedPageReadWriter.new exampleHeader exampleConf exampleStore
          (some (exampleAfter exampleOps).m_logFd.bytes) fuel = some (Except.ok r)
        ∧ ∀ p d, lastWrite exampleOps p = some d → r.m_source.pages p = d := by
  have h3 : ∀ n, (exampleStore.pages n).length = exampleConf.pageSize := fun _ => rfl
  have h5 : ∀ op ∈ exampleOps, sessionOp exampleHeader exampleConf op := by
    intro op hop
    simp only [exampleOps, List.mem_cons, List.mem_singleton, List.not_mem_nil, or_false] at hop
    rcases hop with rfl | rfl | rfl | rfl <;> simp [sessionOp, exampleConf, exampleHeader]
  have hpages : ∀ p, (exampleAfter exampleOps).m_source.pages p
      = if p = 3 then [3, 3, 3, 3] else if p = 2 then [2, 2, 2, 2]
        else if p = 1 then [1, 1, 1, 1] else [0, 0, 0, 0] := fun _ => rfl
  have hun : (exampleAfter exampleOps).m_source.unflushed = [3, 2, 1] := rfl
  have h7 : ∀ p, p ∉ (exampleAfter exampleOps).m_source.unflushed →
      exampleStore.pages p = (exampleAfter exampleOps).m_source.pages p := by
    intro p hp
    rw [hun] at hp
    simp only [List.mem_cons, List.mem_singleton, List.not_mem_nil, or_false, not_or] at hp
    rw [hpages, if_neg hp.1, if_neg hp.2.1, if_neg hp.2.2]
    rfl
  exact ⟨⟨by decide, by decide, h3, rfl, h5, rfl, h7⟩,
    crash_durability exampleHeader exampleConf exampleStore exampleStore exampleFresh
      (exampleAfter exampleOps) exampleOps (by decide) (by decide) h3 rfl h5 rfl h7⟩

/-! ## Deallocation and write-back -/

theorem memcpy_zeros (data : Bytes) (n : Nat) :
    memcpy (List.replicate n 0) data n = data.take n := by
  simp [memcpy]

/-- A read of a page that is not resident, dirty slots allowed: it returns what
the store holds for the page. -/
theorem read_miss_store {N : Nat} (G : GlobalConfiguration) {s : CachedPageReadWriter}
    (hc : Consistent N s) (hN : 0 < N) {n : Nat} (hn : mapFind s.m_posInCache n = none) :
    ∃ d s', CachedPageReadWriter.read G s n = some (d, s')
      ∧ d = (s.m_source.pages n).take G.pageSize := by
  obtain ⟨d, s', hr⟩ := read_total G hc hN n
  refine ⟨d, s', hr, ?_⟩
  unfold CachedPageReadWriter.read at hr
  rw [hn] at hr
  simp only at hr
  split at hr
  · cases hr
  · next s1 hm =>
    obtain ⟨_, b, _, hb, hcell⟩ := readMiss_consistent G hc hn hm
    obtain ⟨b', pg, hb', hpg, _, hd⟩ := readHit_some G s1 s' n d hr
    rw [hb] at hb'
    have hbb : b = b' := Option.some.inj hb'
    subst hbb
    rw [hcell] at hpg
    have hpg1 : pg = ⟨n, s1.m_source.pages n⟩ := (Option.some.inj (Option.some.inj hpg)).symm
    subst hpg1
    rw [hd, memcpy_zeros]
    obtain ⟨b2, s2, pg2, hl, _, _, rfl⟩ := readMiss_some G s s1 n hm
    obtain ⟨s3, hf, _, rfl⟩ := loadSlot_some G s s2 b2 n hl
    obtain ⟨_, _, _, _, _, _, _, f8⟩ := freeCachePosition_some s s3 b2 hf
    show (s3.m_source.pages n).take G.pageSize = _
    rcases f8 with ⟨_, _, hsrc⟩ | ⟨_, _, ⟨_, hsrc⟩ | ⟨_, pgv, hpgv, hsrc⟩⟩
    · rw [hsrc]
    · rw [hsrc]
    · rw [hsrc]
      have hne : ¬ n = pgv.number := fun e => not_resident_ne hc hn hpgv e.symm
      simp only [PageReadWriter.write, hne, if_false]

/-- C11. Deallocation: on a well-formed cache (N ≥ 1, dirty slots allowed)
`deallocatePageNumber(p)` returns; afterwards p is not resident, the store
received the deallocation and no page write (its pages are as before), the
journal is as before, every other resident page keeps its slot and bytes, and a
following `read(p)` returns what the store holds for p. -/
theorem deallocate_discards (G : GlobalConfiguration) (N : Nat) (s : CachedPageReadWriter)
    (p : Nat) (hc : Consistent N s) (hN : 0 < N) :
    ∃ s', CachedPageReadWriter.deallocatePageNumber s p = some s'
      ∧ mapFind s'.m_posInCache p = none
      ∧ (∀ i, pageAt s'.m_cache i ≠ some p)
      ∧ s'.m_source.calls = s.m_source.calls ++ [StoreCall.deallocatePageNumber p]
      ∧ s'.m_source.pages = s.m_source.pages
      ∧ s'.m_logFd = s.m_logFd
      ∧ (∀ q, q ≠ p → mapFind s'.m_posInCache q = mapFind s.m_posInCache q)
      ∧ (∀ (i : Nat) (pg : Page), s.m_cache[i]? = some (some pg) → pg.number ≠ p →
          s'.m_cache[i]? = some (some pg))
      ∧ ∃ d s'', CachedPageReadWriter.read G s' p = some (d, s'')
          ∧ d = (s.m_source.pages p).take G.pageSize := by
  obtain ⟨s', hd⟩ := deallocatePageNumber_total hc p
  have hc' := deallocatePageNumber_consistent hc hd
  obtain ⟨_, _, _, _, c5, _⟩ := (consistent_iff N s).mp hc
  obtain ⟨_, _, _, _, c5', _⟩ := (consistent_iff N s').mp hc'
  have hfacts : mapFind s'.m_posInCache p = none
      ∧ s'.m_source.calls = s.m_source.calls ++ [StoreCall.deallocatePageNumber p]
      ∧ s'.m_source.pages = s.m_source.pages
      ∧ s'.m_logFd = s.m_logFd
      ∧ (∀ q, q ≠ p → mapFind s'.m_posInCache q = mapFind s.m_posInCache q)
      ∧ (∀ (i : Nat) (pg : Page), s.m_cache[i]? = some (some pg) → pg.number ≠ p →
          s'.m_cache[i]? = some (some pg)) := by
    rcases deallocatePageNumber_some s s' p hd with ⟨hn, rfl⟩ | ⟨slot, hs, hl, _, _, rfl⟩
    · exact ⟨hn, rfl, rfl, rfl, fun _ _ => rfl, fun _ _ h _ => h⟩
    · refine ⟨by simp [mapFind_mapErase], rfl, rfl, rfl, ?_, ?_⟩
      · intro q hq
        simp [mapFind_mapErase, hq]
      · intro i pg hpg hne
        have hi : slot ≠ i := by
          intro e
          subst e
          have := (c5 p slot).mp hs
          rw [pageAt_of_getElem _ _ _ hpg] at this
          exact hne (Option.some.inj this)
        show (s.m_cache.set slot none)[i]? = some (some pg)
        rw [List.getElem?_set, if_neg hi]
        exact hpg
  obtain ⟨h1, h2, h3, h4, h5, h6⟩ := hfacts
  obtain ⟨d, s'', hr, hdd⟩ := read_miss_store G hc' hN h1
  refine ⟨s', hd, h1, ?_, h2, h3, h4, h5, h6, d, s'', hr, by rw [hdd, h3]⟩
  intro i hi
  rw [← c5', h1] at hi
  cases hi

/-- C11, on the cache whose slot 1 is dirty with page 1 = [9,9,9,9]: after
deallocatePageNumber(1) the store was not written and read(1) returns the
store's zero bytes, not the cached bytes. -/
theorem deallocate_discards_witness :
    (Consistent 2 exampleDirty ∧ 0 < 2)
    ∧ ∃ s', CachedPageReadWriter.deallocatePageNumber exampleDirty 1 = some s'
      ∧ mapFind s'.m_posInCache 1 = none
      ∧ s'.m_source.calls = exampleDirty.m_source.calls ++ [StoreCall.deallocatePageNumber 1]
      ∧ s'.m_logFd = exampleDirty.m_logFd
      ∧ ∃ d s'', CachedPageReadWriter.read exampleConf s' 1 = some (d, s'')
          ∧ d = [0, 0, 0, 0] := by
  have h1 : Consistent 2 exampleDirty := by decide
  refine ⟨⟨h1, by decide⟩, ?_⟩
  obtain ⟨s', hd, hm, _, hcalls, _, hfd, _, _, d, s'', hr, hdd⟩ :=
    deallocate_discards exampleConf 2 exampleDirty 1 h1 (by decide)
  exact ⟨s', hd, hm, hcalls, hfd, d, s'', hr, hdd⟩

/-- C12. Write-back on eviction: on a well-formed cache whose back slot of the
LRU list holds page q, `freeCachePosition` returns that slot. If the slot is
dirty, the slot is first flushed (the store receives q's cached bytes and the
flag is cleared while q is still resident) and then q leaves the position map
and the slot is emptied; if the slot is clean, q leaves the map and the slot
without any call to the store. -/
theorem eviction_writes_back (N : Nat) (s : CachedPageReadWriter) (b : Nat) (pg : Page)
    (hc : Consistent N s) (hb : s.m_lruList.getLast? = some b)
    (hpg : s.m_cache[b]? = some (some pg)) :
    (s.m_isDirty[b]? = some true →
      ∃ s1, flushCacheCell s b = some s1
        ∧ s1.m_source.calls = s.m_source.calls ++ [StoreCall.write pg.number pg.data]
        ∧ s1.m_source.pages pg.number = pg.data
        ∧ s1.m_isDirty[b]? = some false
        ∧ s1.m_cache = s.m_cache ∧ s1.m_posInCache = s.m_posInCache
        ∧ freeCachePosition s
            = some (b, { s1 with m_posInCache := mapErase s.m_posInCache pg.number
                                 m_cache := s.m_cache.set b none })
        ∧ mapFind (mapErase s.m_posInCache pg.number) pg.number = none)
    ∧ (s.m_isDirty[b]? = some false →
        freeCachePosition s
          = some (b, { s with m_posInCache := mapErase s.m_posInCache pg.number
                              m_cache := s.m_cache.set b none })) := by
  have hbN : b < N :=
    List.mem_range.mp (hc.2.2.1.mem_iff.mp (List.mem_of_getLast?_eq_some hb))
  have hbd : b < s.m_isDirty.length := by rw [hc.2.1]; exact hbN
  constructor
  · intro hd
    have hf : flushCacheCell s b
        = some { s with m_source := s.m_source.write pg
                        m_isDirty := s.m_isDirty.set b false } := by
      unfold flushCacheCell
      rw [hd]
      simp only [hpg]
    refine ⟨_, hf, ?_, ?_, ?_, rfl, rfl, ?_, ?_⟩
    · simp [PageReadWriter.write]
    · simp [PageReadWriter.write]
    · simp [List.getElem?_set, hbd]
    · unfold freeCachePosition
      rw [hb]
      simp only [hpg, hf]
    · simp [mapFind_mapErase]
  · intro hd
    have hf : flushCacheCell s b = some s := by
      unfold flushCacheCell
      rw [hd]
    unfold freeCachePosition
    rw [hb]
    simp only [hpg, hf]

/-- C12, on a cache whose back slot holds page 1 dirty with [9,9,9,9]: taking a
slot writes those bytes to the store before page 1 leaves the map. -/
theorem eviction_writes_back_witness :
    (Consistent 2 exampleDirtyBack
      ∧ exampleDirtyBack.m_lruList.getLast? = some 1
      ∧ exampleDirtyBack.m_cache[1]? = some (some ⟨1, [9, 9, 9, 9]⟩)
      ∧ exampleDirtyBack.m_isDirty[1]? = some true)
    ∧ ∃ s1, flushCacheCell exampleDirtyBack 1 = some s1
        ∧ s1.m_source.calls = exampleDirtyBack.m_source.calls ++ [StoreCall.write 1 [9, 9, 9, 9]]
        ∧ s1.m_source.pages 1 = [9, 9, 9, 9]
        ∧ s1.m_isDirty[1]? = some false
        ∧ s1.m_cache = exampleDirtyBack.m_cache
        ∧ s1.m_posInCache = exampleDirtyBack.m_posInCache
        ∧ freeCachePosition exampleDirtyBack
            = some (1, { s1 with m_posInCache := mapErase exampleDirtyBack.m_posInCache 1
                                 m_cache := exampleDirtyBack.m_cache.set 1 none })
        ∧ mapFind (mapErase exampleDirtyBack.m_posInCache 1) 1 = none := by
  have h1 : Consistent 2 exampleDirtyBack := by decide
  exact ⟨⟨h1, rfl, rfl, rfl⟩,
    (eviction_writes_back 2 exampleDirtyBack 1 ⟨1, [9, 9, 9, 9]⟩ h1 rfl rfl).1 rfl⟩

/-! ## The configuration check -/

/-- C13. Configuration check: for a page size above 0, the constructor fails
with the configuration error exactly when `cacheSize % pageSize` is not 0, and
then its result is that error whatever the journal, the store and the fuel (it
has thrown before `access`, `open` and any call to the store, and hands back
no journal and no store); otherwise a cache it returns has
`cacheSize / pageSize` slots, all empty and clean, an empty position map and
the counter at 0, and on a journal that does not exist yet it does return. -/
theorem configuration_check (H : Header) (G : GlobalConfiguration) (source : PageReadWriter)
    (journal : Option Bytes) (fuel : Nat) (_hps : 0 < G.pageSize) :
    (G.cacheSize % G.pageSize ≠ 0 →
      ∀ (source1 : PageReadWriter) (journal1 : Option Bytes) (fuel1 : Nat),
        CachedPageReadWriter.new H G source1 journal1 fuel1
          = some (Except.error "Page size should divide cache size."))
    ∧ ((∃ msg, CachedPageReadWriter.new H G source journal fuel = some (Except.error msg))
        ↔ G.cacheSize % G.pageSize ≠ 0)
    ∧ (G.cacheSize % G.pageSize = 0 →
        (∀ s, CachedPageReadWriter.new H G source journal fuel = some (Except.ok s) →
          s.m_cache = List.replicate (G.cacheSize / G.pageSize) none
          ∧ s.m_isDirty = List.replicate (G.cacheSize / G.pageSize) false
          ∧ s.m_lruList = List.range (G.cacheSize / G.pageSize)
          ∧ s.m_posInCache = [] ∧ s.m_writesCounter = 0
          ∧ G.cacheSize / G.pageSize * G.pageSize = G.cacheSize)
        ∧ ∃ s, CachedPageReadWriter.new H G source none fuel = some (Except.ok s)) := by
  have herr : G.cacheSize % G.pageSize ≠ 0 →
      ∀ (source1 : PageReadWriter) (journal1 : Option Bytes) (fuel1 : Nat),
        CachedPageReadWriter.new H G source1 journal1 fuel1
          = some (Except.error "Page size should divide cache size.") := by
    intro h source1 journal1 fuel1
    unfold CachedPageReadWriter.new
    rw [if_pos h]
  refine ⟨herr, ⟨?_, fun h => ⟨_, herr h source journal fuel⟩⟩, ?_⟩
  · rintro ⟨msg, hmsg⟩ h0
    unfold CachedPageReadWriter.new at hmsg
    rw [if_neg (by simpa using h0)] at hmsg
    simp only at hmsg
    split at hmsg
    · cases hmsg
    · simp at hmsg
  · intro h0
    constructor
    · intro s hs
      obtain ⟨_, h1, h2, h3, h4, h5, _⟩ := new_ok H G source journal fuel s hs
      refine ⟨h1, h2, h3, h4, h5, ?_⟩
      exact Nat.div_mul_cancel (Nat.dvd_of_mod_eq_zero h0)
    · unfold CachedPageReadWriter.new
      rw [if_neg (by simpa using h0)]
      exact ⟨_, rfl⟩

/-- C13, on a page size of 4 and a cache size of 10: the constructor throws. -/
theorem configuration_check_witness :
    0 < (⟨4, 10⟩ : GlobalConfiguration).pageSize
    ∧ CachedPageReadWriter.new exampleHeader ⟨4, 10⟩ exampleStore (some scenarioJournal.flatten) 9
        = some (Except.error "Page size should divide cache size.") :=
  ⟨by decide,
    (configuration_check exampleHeader ⟨4, 10⟩ exampleStore none 0 (by decide)).1 (by decide)
      exampleStore (some scenarioJournal.flatten) 9⟩

/-! ## Record framing -/

theorem lseekCur_bytes (f : Fd) (off : Int) : (lseekCur f off).bytes = f.bytes := by
  unfold lseekCur
  split <;> rfl

theorem sysRead_bytes (f : Fd) (buf : Bytes) (n : Nat) :
    (sysRead f buf n).2.2.bytes = f.bytes := rfl

theorem backwardScan_bytes (H : Header) (G : GlobalConfiguration) (fuel : Nat) :
    ∀ (fd fd' : Fd) (rt rt' : Bytes), backwardScan H G fuel fd rt = some (fd', rt') →
      fd'.bytes = fd.bytes := by
  induction fuel with
  | zero => intro fd fd' rt rt' h; simp [backwardScan] at h
  | succ k ih =>
    intro fd fd' rt rt' h
    rw [backwardScan] at h
    split at h
    · have := ih _ _ _ _ h
      rw [this, lseekCur_bytes, sysRead_bytes, lseekCur_bytes]
    · simp only [Option.some.injEq, Prod.mk.injEq] at h
      rw [← h.1, lseekCur_bytes, sysRead_bytes, lseekCur_bytes]

theorem forwardReplay_bytes (H : Header) (G : GlobalConfiguration) (fuel : Nat) :
    ∀ (fd fd' : Fd) (rt : Bytes) (src src' : PageReadWriter),
      forwardReplay H G fuel fd rt src = some (fd', src') → fd'.bytes = fd.bytes := by
  induction fuel with
  | zero => intro fd fd' rt src src' h; simp [forwardReplay] at h
  | succ k ih =>
    intro fd fd' rt src src' h
    rw [forwardReplay] at h
    split at h
    · split at h
      · have := ih _ _ _ _ _ h
        rw [this, sysRead_bytes, sysRead_bytes, sysRead_bytes]
      · have := ih _ _ _ _ _ h
        rw [this, lseekCur_bytes, sysRead_bytes]
    · simp only [Option.some.injEq, Prod.mk.injEq] at h
      rw [← h.1, sysRead_bytes]

theorem recover_bytes (H : Header) (G : GlobalConfiguration) (fuel : Nat) (fd fd' : Fd)
    (src src' : PageReadWriter) (h : recover H G fuel fd src = some (fd', src')) :
    fd'.bytes = fd.bytes := by
  unfold recover at h
  split at h
  · cases h
  · next fd1 rt hb =>
    have h1 := backwardScan_bytes H G fuel _ _ _ _ hb
    have h2 := forwardReplay_bytes H G fuel _ _ _ _ _ h
    rw [h2, lseekCur_bytes, h1]
    unfold lseekEnd
    split <;> rfl

/-- The constructor on an existing journal appends one DB_OPEN record. -/
theorem new_existing_bytes (H : Header) (G : GlobalConfiguration) (source : PageReadWriter)
    (journal : Bytes) (fuel : Nat) (s : CachedPageReadWriter)
    (h : CachedPageReadWriter.new H G source (some journal) fuel = some (Except.ok s))
    (hD : H.LOG_SEEK_DELIM_SIZE ≤ H.SIZEOF_SIZE_T + G.pageSize) :
    s.m_logFd.bytes = journal ++ stubRecord H G (LOG_ACTION_DB_OPEN H) := by
  obtain ⟨_, _, _, _, _, _, fd, source1, h7, _, h9⟩ := new_ok H G source (some journal) fuel s h
  simp only at h7
  have hb := recover_bytes H G fuel _ _ _ _ h7
  rw [h9, lseekEnd_zero, writeLogStumb_append H G _ _ rfl hD]
  show fd.bytes ++ _ = _
  rw [hb]

/-- The constructor on no journal writes a CHECKPOINT and a DB_OPEN record. -/
theorem new_fresh_bytes (H : Header) (G : GlobalConfiguration) (source : PageReadWriter)
    (fuel : Nat) (s : CachedPageReadWriter)
    (h : CachedPageReadWriter.new H G source none fuel = some (Except.ok s))
    (hD : H.LOG_SEEK_DELIM_SIZE ≤ H.SIZEOF_SIZE_T + G.pageSize) :
    s.m_logFd.bytes = stubRecord H G (LOG_ACTION_CHECKPOINT H)
      ++ stubRecord H G (LOG_ACTION_DB_OPEN H) := by
  obtain ⟨_, _, _, _, _, _, fd, source1, h7, _, h9⟩ := new_ok H G source none fuel s h
  simp only [Option.some.injEq, Prod.mk.injEq] at h7
  have e1 := writeLogStumb_append H G ⟨[], 0⟩ (LOG_ACTION_CHECKPOINT H) rfl hD
  rw [e1] at h7
  rw [h9, lseekEnd_zero, writeLogStumb_append H G _ _ rfl hD, ← h7.1]
  simp

theorem flatten_length_of_sized (R : Nat) (recs : List Bytes)
    (h : ∀ r ∈ recs, r.length = R) : recs.flatten.length = recs.length * R := by
  induction recs with
  | nil => simp
  | cons r rest ih =>
    simp only [List.flatten_cons, List.length_append, List.length_cons]
    rw [h r (List.mem_cons_self _ _), ih (fun x hx => h x (List.mem_cons_of_mem _ hx))]
    ring

theorem framed_append (H : Header) (G : GlobalConfiguration) {s t : CachedPageReadWriter}
    {recs : List Bytes} (hf : Framed H G s recs) (added : List Bytes)
    (hadd : ∀ r ∈ added, r.length = recordSize H G)
    (hb : t.m_logFd.bytes = s.m_logFd.bytes ++ added.flatten)
    (hp : t.m_logFd.pos = t.m_logFd.bytes.length) : Framed H G t (recs ++ added) := by
  obtain ⟨_, h1, h2, r0, h3, h4⟩ := hf
  refine ⟨hp, by rw [hb, h1]; simp, ?_, r0, List.mem_append_left _ h3, h4⟩
  intro r hr
  rcases List.mem_append.mp hr with h | h
  · exact h2 r h
  · exact hadd r h

/-- The records an operation appends to the journal. -/
theorem step_framed {N : Nat} (H : Header) (G : GlobalConfiguration)
    {s s' : CachedPageReadWriter} {o : Op} {recs : List Bytes}
    (hc : Consistent N s) (hcl : Clean s) (hf : Framed H G s recs)
    (hD : H.LOG_SEEK_DELIM_SIZE ≤ H.SIZEOF_SIZE_T + G.pageSize)
    (hop : ∀ page, o = Op.write page → page.data.length = G.pageSize)
    (h : step H G s o = some s') : ∃ added, Framed H G s' (recs ++ added) := by
  cases o with
  | read n =>
    simp only [step, Option.map_eq_some'] at h
    obtain ⟨⟨d, s1⟩, h1, rfl⟩ := h
    refine ⟨[], ?_⟩
    rw [List.append_nil]
    rcases read_cases G hc hcl h1 with ⟨i, pg, _, _, _, _, rfl⟩ | ⟨b, hn, _, _, rfl⟩
    · exact hf
    · exact hf
  | write page =>
    obtain ⟨j1, j2, _⟩ := write_journal H G h hf.1 hD
    have hlen := hop page rfl
    by_cases hT : s.m_writesCounter = H.CHECKPOINT_THRESHOLD
    · refine ⟨_, framed_append H G hf
        [stubRecord H G (LOG_ACTION_CHECKPOINT H), changeRecord H G page] ?_ ?_ j2⟩
      · intro r hr
        simp only [List.mem_cons, List.mem_singleton, List.not_mem_nil, or_false] at hr
        rcases hr with rfl | rfl
        · exact stubRecord_length H G _ (length_CHECKPOINT H) hD
        · exact changeRecord_length H G page hlen
      · rw [j1, if_pos hT]; simp
    · refine ⟨_, framed_append H G hf [changeRecord H G page] ?_ ?_ j2⟩
      · intro r hr
        rw [List.mem_singleton.mp hr]
        exact changeRecord_length H G page hlen
      · rw [j1, if_neg hT]; simp
  | flush =>
    obtain ⟨j1, j2, _⟩ := flush_journal H G h hf.1 hD
    refine ⟨_, framed_append H G hf [stubRecord H G (LOG_ACTION_CHECKPOINT H)] ?_ ?_ j2⟩
    · intro r hr
      rw [List.mem_singleton.mp hr]
      exact stubRecord_length H G _ (length_CHECKPOINT H) hD
    · rw [j1]; simp
  | deallocatePageNumber n =>
    refine ⟨[], ?_⟩
    rw [List.append_nil]
    rcases deallocatePageNumber_some s s' n h with ⟨_, rfl⟩ | ⟨slot, _, _, _, _, rfl⟩
    · exact hf
    · exact hf

theorem run_framed {N : Nat} (H : Header) (G : GlobalConfiguration)
    (hD : H.LOG_SEEK_DELIM_SIZE ≤ H.SIZEOF_SIZE_T + G.pageSize) (ops : List Op) :
    ∀ {s s' : CachedPageReadWriter} {recs : List Bytes}, Consistent N s → Clean s → Synced s →
      Framed H G s recs →
      (∀ op ∈ ops, ∀ page, op = Op.write page → page.data.length = G.pageSize) →
      run H G s ops = some s' → ∃ added, Framed H G s' (recs ++ added) := by
  induction ops with
  | nil =>
    intro s s' recs _ _ _ hf _ h
    simp only [run, Option.some.injEq] at h
    exact ⟨[], by rw [List.append_nil]; exact h ▸ hf⟩
  | cons op rest ih =>
    intro s s' recs hc hcl hsy hf hops h
    simp only [run] at h
    split at h
    · cases h
    · next s1 h1 =>
      obtain ⟨hcl1, hsy1⟩ := step_clean_synced H G hc hcl hsy h1
      obtain ⟨a1, hf1⟩ := step_framed H G hc hcl hf hD (hops op (List.mem_cons_self _ _)) h1
      obtain ⟨a2, hf2⟩ := ih (step_consistent H G hc h1) hcl1 hsy1 hf1
        (fun o ho => hops o (List.mem_cons_of_mem _ ho)) h
      exact ⟨a1 ++ a2, by rw [← List.append_assoc]; exact hf2⟩

/-- The constructor on no journal leaves a framed journal of two records. -/
theorem new_framed (H : Header) (G : GlobalConfiguration) (source : PageReadWriter)
    (fuel : Nat) (s : CachedPageReadWriter)
    (h : CachedPageReadWriter.new H G source none fuel = some (Except.ok s))
    (hD : H.LOG_SEEK_DELIM_SIZE ≤ H.SIZEOF_SIZE_T + G.pageSize) :
    Framed H G s [stubRecord H G (LOG_ACTION_CHECKPOINT H), stubRecord H G (LOG_ACTION_DB_OPEN H)] := by
  refine ⟨(new_journal_eof H G source none fuel s h hD).1, ?_, ?_, _, List.mem_cons_self _ _,
    isCheckpoint_stubRecord H G⟩
  · rw [new_fresh_bytes H G source fuel s h hD]; simp
  · intro r hr
    simp only [List.mem_cons, List.mem_singleton, List.not_mem_nil, or_false] at hr
    rcases hr with rfl | rfl
    · exact stubRecord_length H G _ (length_CHECKPOINT H) hD
    · exact stubRecord_length H G _ (length_DB_OPEN H) hD

theorem afterLastCheckpoint_of_mem (H : Header) (recs : List Bytes)
    (h : ∃ r ∈ recs, isCheckpoint H r = true) : ∃ post, afterLastCheckpoint H recs = some post := by
  induction recs with
  | nil => obtain ⟨r, hr, _⟩ := h; cases hr
  | cons r rest ih =>
    obtain ⟨r0, hr0, hck⟩ := h
    simp only [afterLastCheckpoint]
    rcases List.mem_cons.mp hr0 with rfl | hm
    · cases afterLastCheckpoint H rest with
      | some l => exact ⟨l, rfl⟩
      | none => exact ⟨rest, by simp [hck]⟩
    · obtain ⟨post, hp⟩ := ih ⟨r0, hm, hck⟩
      exact ⟨post, by rw [hp]⟩

/-- The constructor on an existing journal, in terms of the recovery loops. -/
theorem new_of_recover (H : Header) (G : GlobalConfiguration) (source source1 : PageReadWriter)
    (journal : Bytes) (fuel : Nat) (fd : Fd) (hconf : G.cacheSize % G.pageSize = 0)
    (h : recover H G fuel ⟨journal, 0⟩ source = some (fd, source1)) :
    CachedPageReadWriter.new H G source (some journal) fuel
      = some (Except.ok
          { m_cache := List.replicate (G.cacheSize / G.pageSize) none
            m_isDirty := List.replicate (G.cacheSize / G.pageSize) false
            m_lruList := List.range (G.cacheSize / G.pageSize)
            m_posInCache := []
            m_writesCounter := 0
            m_logFd := writeLogStumb H G (sysWrite (lseekEnd fd 0) (LOG_ACTION_DB_OPEN H))
            m_source := source1 }) := by
  unfold CachedPageReadWriter.new
  simp only [hconf, ne_eq, not_true_eq_false, if_false, h]

theorem take_drop_flatten (R : Nat) (recs : List Bytes) (h : ∀ r ∈ recs, r.length = R) :
    ∀ (i : Nat) (hi : i < recs.length), (recs.flatten.drop (i * R)).take R = recs[i] := by
  induction recs with
  | nil => intro i hi; simp at hi
  | cons r rest ih =>
    intro i hi
    have hr : r.length = R := h r (List.mem_cons_self _ _)
    cases i with
    | zero =>
      simp only [Nat.zero_mul, List.drop_zero, List.flatten_cons, List.getElem_cons_zero]
      rw [List.take_append_of_le_length (by omega), ← hr, List.take_length]
    | succ k =>
      simp only [List.flatten_cons, List.getElem_cons_succ]
      have e : (k + 1) * R = r.length + k * R := by rw [hr]; ring
      rw [e, List.drop_append]
      exact ih (fun x hx => h x (List.mem_cons_of_mem _ hx)) k (by simpa using hi)

theorem close_journal (H : Header) (G : GlobalConfiguration) {s s' : CachedPageReadWriter}
    (h : CachedPageReadWriter.close H G s = some s')
    (heof : s.m_logFd.pos = s.m_logFd.bytes.length)
    (hD : H.LOG_SEEK_DELIM_SIZE ≤ H.SIZEOF_SIZE_T + G.pageSize) :
    s'.m_logFd.bytes = s.m_logFd.bytes ++ stubRecord H G (LOG_ACTION_CHECKPOINT H)
      ++ stubRecord H G (LOG_ACTION_DB_CLOSE H) := by
  unfold CachedPageReadWriter.close at h
  split at h
  · cases h
  · next s1 hfl =>
    obtain ⟨j1, j2, _⟩ := flush_journal H G hfl heof hD
    simp only [Option.some.injEq] at h
    subst h
    show (writeLogStumb H G (sysWrite s1.m_logFd (LOG_ACTION_DB_CLOSE H))).bytes = _
    rw [writeLogStumb_append H G _ _ j2 hD, j1]

/-- C14. Record framing: from a fresh journal, after any operations (writes
of pages of `pageSize` bytes) the journal is a sequence of records of
R = LOG_ACTION_SIZE + sizeof(size_t) + pageSize bytes each, record i starting
at offset i * R, so the file length is a multiple of R; the constructor wrote
two such records (CHECKPOINT, DB_OPEN); and from there every operation
returns and read and deallocatePageNumber append nothing, flush appends one
CHECKPOINT record of R bytes, write appends one CHANGE record of R bytes
(preceded by one CHECKPOINT record at the threshold), close appends a
CHECKPOINT and a DB_CLOSE record, reopening appends one DB_OPEN record, and
the stride of the recovery scan from the end of the file lands R bytes
before it. -/
theorem record_framing (H : Header) (G : GlobalConfiguration) (source : PageReadWriter)
    (fuel : Nat) (ops : List Op) (s0 s : CachedPageReadWriter)
    (hA : 0 < H.LOG_ACTION_SIZE)
    (hD : H.LOG_SEEK_DELIM_SIZE ≤ H.SIZEOF_SIZE_T + G.pageSize)
    (hN : 0 < slots G)
    (hops : ∀ op ∈ ops, ∀ page, op = Op.write page → page.data.length = G.pageSize)
    (h0 : CachedPageReadWriter.new H G source none fuel = some (Except.ok s0))
    (hrun : run H G s0 ops = some s) :
    recordSize H G = H.LOG_ACTION_SIZE + H.SIZEOF_SIZE_T + G.pageSize
    ∧ s0.m_logFd.bytes = stubRecord H G (LOG_ACTION_CHECKPOINT H)
        ++ stubRecord H G (LOG_ACTION_DB_OPEN H)
    ∧ s0.m_logFd.bytes.length = 2 * recordSize H G
    ∧ (∃ recs : List Bytes, s.m_logFd.bytes = recs.flatten
        ∧ (∀ r ∈ recs, r.length = recordSize H G)
        ∧ s.m_logFd.bytes.length = recs.length * recordSize H G
        ∧ (∀ (i : Nat) (hi : i < recs.length),
            (s.m_logFd.bytes.drop (i * recordSize H G)).take (recordSize H G) = recs[i])
        ∧ ∀ (source1 : PageReadWriter) (fuel1 : Nat), recs.length < fuel1 →
            ∃ t, CachedPageReadWriter.new H G source1 (some s.m_logFd.bytes) fuel1
                = some (Except.ok t)
              ∧ t.m_logFd.bytes = s.m_logFd.bytes ++ stubRecord H G (LOG_ACTION_DB_OPEN H)
              ∧ t.m_logFd.bytes.length = s.m_logFd.bytes.length + recordSize H G)
    ∧ s.m_logFd.bytes.length % recordSize H G = 0
    ∧ (∀ n, ∃ d t, CachedPageReadWriter.read G s n = some (d, t)
        ∧ t.m_logFd.bytes = s.m_logFd.bytes)
    ∧ (∀ n, ∃ t, CachedPageReadWriter.deallocatePageNumber s n = some t
        ∧ t.m_logFd.bytes = s.m_logFd.bytes)
    ∧ (∃ t, CachedPageReadWriter.flush H G s = some t
        ∧ t.m_logFd.bytes = s.m_logFd.bytes ++ stubRecord H G (LOG_ACTION_CHECKPOINT H)
        ∧ t.m_logFd.bytes.length = s.m_logFd.bytes.length + recordSize H G)
    ∧ (∀ page : Page, page.data.length = G.pageSize →
        (changeRecord H G page).length = recordSize H G
        ∧ ∃ t, CachedPageReadWriter.write H G s page = some t
          ∧ t.m_logFd.bytes
              = s.m_logFd.bytes ++ (if s.m_writesCounter = H.CHECKPOINT_THRESHOLD then
                  stubRecord H G (LOG_ACTION_CHECKPOINT H) else []) ++ changeRecord H G page
          ∧ t.m_logFd.bytes.length = s.m_logFd.bytes.length
              + (if s.m_writesCounter = H.CHECKPOINT_THRESHOLD then 2 else 1) * recordSize H G)
    ∧ (∃ t, CachedPageReadWriter.close H G s = some t
        ∧ t.m_logFd.bytes = s.m_logFd.bytes ++ stubRecord H G (LOG_ACTION_CHECKPOINT H)
            ++ stubRecord H G (LOG_ACTION_DB_CLOSE H)
        ∧ t.m_logFd.bytes.length = s.m_logFd.bytes.length + 2 * recordSize H G)
    ∧ (lseekCur (lseekEnd s.m_logFd 0) (-((recordSize H G : Nat) : Int))).pos + recordSize H G
        = s.m_logFd.bytes.length := by
  have hc0 := new_consistent H G source none fuel s0 h0
  obtain ⟨hcl0, hsy0⟩ := new_clean_synced H G source none fuel s0 h0
  have hf0 := new_framed H G source fuel s0 h0 hD
  obtain ⟨hc, hcl, hsy⟩ := run_inv H G ops hc0 hcl0 hsy0 hrun
  obtain ⟨added, hf⟩ := run_framed H G hD ops hc0 hcl0 hsy0 hf0 hops hrun
  obtain ⟨heof, hb, hsz, hck⟩ := hf
  have hconf := (new_ok H G source none fuel s0 h0).1
  have hlen := flatten_length_of_sized (recordSize H G) _ hsz
  have hCK := stubRecord_length H G _ (length_CHECKPOINT H) hD
  have hOP := stubRecord_length H G _ (length_DB_OPEN H) hD
  have hCL := stubRecord_length H G _ (length_DB_CLOSE H) hD
  have hR : 0 < recordSize H G := by unfold recordSize; omega
  refine ⟨rfl, new_fresh_bytes H G source fuel s0 h0 hD, ?_, ⟨_, hb, hsz, ?_, ?_, ?_⟩, ?_, ?_, ?_,
    ?_, ?_, ?_, ?_⟩
  · rw [new_fresh_bytes H G source fuel s0 h0 hD, List.length_append, hCK, hOP]; omega
  · rw [hb, hlen]
  · intro i hi
    rw [hb]
    exact take_drop_flatten (recordSize H G) _ hsz i hi
  · intro source1 fuel1 hfuel
    obtain ⟨post, hpost⟩ := afterLastCheckpoint_of_mem H _ hck
    have hrec := recover_eq H G hA _ post source1 hsz hpost 0 fuel1 hfuel
    rw [← hb] at hrec
    have hnew := new_of_recover H G source1 _ _ fuel1 _ hconf hrec
    refine ⟨_, hnew, ?_, ?_⟩
    · have := new_existing_bytes H G source1 _ fuel1 _ hnew hD
      exact this
    · rw [new_existing_bytes H G source1 _ fuel1 _ hnew hD, List.length_append, hOP]
  · rw [hb, hlen]; exact Nat.mul_mod_left _ _
  · intro n
    obtain ⟨d, t, ht⟩ := read_total G hc hN n
    refine ⟨d, t, ht, ?_⟩
    rcases read_cases G hc hcl ht with ⟨i, pg, _, _, _, _, rfl⟩ | ⟨b, hn, _, _, rfl⟩
    · rfl
    · rfl
  · intro n
    obtain ⟨t, ht⟩ := deallocatePageNumber_total hc n
    refine ⟨t, ht, ?_⟩
    rcases deallocatePageNumber_some s t n ht with ⟨_, rfl⟩ | ⟨slot, _, _, _, _, rfl⟩
    · rfl
    · rfl
  · obtain ⟨t, ht⟩ := flush_total H G hc
    obtain ⟨j1, _, _⟩ := flush_journal H G ht heof hD
    exact ⟨t, ht, j1, by rw [j1, List.length_append, hCK]⟩
  · intro page hp
    have hch := changeRecord_length H G page hp
    obtain ⟨t, ht⟩ := write_total H G hc hN page
    obtain ⟨j1, _, _⟩ := write_journal H G ht heof hD
    refine ⟨hch, t, ht, j1, ?_⟩
    rw [j1]
    by_cases hT : s.m_writesCounter = H.CHECKPOINT_THRESHOLD
    · simp only [if_pos hT, List.length_append, hCK, hch]; omega
    · simp only [if_neg hT, List.length_append, List.append_nil, hch]; omega
  · obtain ⟨t1, ht1⟩ := flush_total H G hc
    have ht : ∃ t, CachedPageReadWriter.close H G s = some t := by
      unfold CachedPageReadWriter.close
      rw [ht1]
      exact ⟨_, rfl⟩
    obtain ⟨t, ht⟩ := ht
    have j := close_journal H G ht heof hD
    exact ⟨t, ht, j, by rw [j, List.length_append, List.length_append, hCK, hCL]; omega⟩
  · rw [lseekEnd_zero, lseekCur_sub _ _ (by show recordSize H G ≤ s.m_logFd.bytes.length; rw [hb, hlen]; obtain ⟨r, hr, _⟩ := hck; have := List.length_pos_of_mem hr; nlinarith)]
    show s.m_logFd.bytes.length - recordSize H G + recordSize H G = _
    have : recordSize H G ≤ s.m_logFd.bytes.length := by
      rw [hb, hlen]; obtain ⟨r, hr, _⟩ := hck; have := List.length_pos_of_mem hr; nlinarith
    omega

set_option maxRecDepth 100000 in
/-- C14, at the eviction example: after write(1), write(2), read(1), write(3)
on the fresh example cache (records of 20 bytes) the journal holds 5 whole
records, and close appends two more. -/
theorem record_framing_witness :
    (0 < exampleHeader.LOG_ACTION_SIZE
      ∧ exampleHeader.LOG_SEEK_DELIM_SIZE ≤ exampleHeader.SIZEOF_SIZE_T + exampleConf.pageSize
      ∧ 0 < slots exampleConf
      ∧ (∀ op ∈ exampleOps, ∀ page, op = Op.write page →
          page.data.length = exampleConf.pageSize)
      ∧ CachedPageReadWriter.new exampleHeader exampleConf exampleStore none 0
          = some (Except.ok exampleFresh)
      ∧ run exampleHeader exampleConf exampleFresh exampleOps = some (exampleAfter exampleOps))
    ∧ recordSize exampleHeader exampleConf = 20
    ∧ (exampleAfter exampleOps).m_logFd.bytes.length = 100
    ∧ (exampleAfter exampleOps).m_logFd.bytes.length % recordSize exampleHeader exampleConf = 0
    ∧ ∃ t, CachedPageReadWriter.close exampleHeader exampleConf (exampleAfter exampleOps) = some t
        ∧ t.m_logFd.bytes.length = (exampleAfter exampleOps).m_logFd.bytes.length
            + 2 * recordSize exampleHeader exampleConf := by
  have hops : ∀ op ∈ exampleOps, ∀ page, op = Op.write page →
      page.data.length = exampleConf.pageSize := by
    intro op hop page e
    subst e
    simp only [exampleOps, List.mem_cons, Op.write.injEq, List.mem_singleton, List.not_mem_nil,
      or_false, false_or] at hop
    rcases hop with h | h | h | h
    · subst h; rfl
    · subst h; rfl
    · cases h
    · subst h; rfl
  have hrun : run exampleHeader exampleConf exampleFresh exampleOps
      = some (exampleAfter exampleOps) := example_run exampleOps (by decide)
  obtain ⟨_, _, _, _, h5, _, _, _, _, ⟨t, ht, _, hl⟩, _⟩ :=
    record_framing exampleHeader exampleConf exampleStore 0 exampleOps exampleFresh
      (exampleAfter exampleOps) (by decide) (by decide) (by decide) hops example_new hrun
  exact ⟨⟨by decide, by decide, by decide, hops, example_new, hrun⟩, rfl, by decide, h5,
    t, ht, hl⟩

/-! ## The last byte of a record -/

theorem getLast?_append_ne_nil {α : Type} (a b : List α) (h : b ≠ []) : (a ++ b).getLast? = b.getLast? := by
  rw [List.getLast?_append]
  cases hb : b.getLast? with
  | none => exact absurd (List.getLast?_eq_none_iff.mp hb) h
  | some x => rfl

theorem LOG_SEEK_DELIM_one (H : Header) (h1 : H.LOG_SEEK_DELIM_SIZE = 1) :
    LOG_SEEK_DELIM H = [124] := by
  unfold LOG_SEEK_DELIM charArray
  rw [h1]
  rfl

/-- A record laid out by `writeLogStumb` ends with the delimiter byte. -/
theorem stubRecord_getLast (H : Header) (G : GlobalConfiguration) (tag : Bytes)
    (h1 : H.LOG_SEEK_DELIM_SIZE = 1) : (stubRecord H G tag).getLast? = some 124 := by
  unfold stubRecord
  rw [LOG_SEEK_DELIM_one H h1, List.getLast?_concat]

/-- A CHANGE record ends with the last byte of the payload. -/
theorem changeRecord_getLast (H : Header) (G : GlobalConfiguration) (page : Page)
    (hp : page.data.length = G.pageSize) (hps : 0 < G.pageSize) :
    (changeRecord H G page).getLast? = page.data.getLast? := by
  unfold changeRecord
  rw [List.take_of_length_le (by omega)]
  exact getLast?_append_ne_nil _ _ (by intro h; rw [h] at hp; simp at hp; omega)

set_option maxRecDepth 100000 in
/-- C15, counterexample: the record that write(5, "AAAA") appends to the
journal of the fresh example cache is the CHANGE record of the page, whose
final byte is the payload byte 'A' (65), not the delimiter '|' (124). -/
theorem change_record_ends_with_payload :
    (CachedPageReadWriter.write exampleHeader exampleConf exampleFresh
        ⟨5, [65, 65, 65, 65]⟩).map (fun t => t.m_logFd.bytes)
      = some (exampleFresh.m_logFd.bytes
          ++ [67, 72, 65, 78, 71, 69, 95, 0, 5, 0, 0, 0, 0, 0, 0, 0, 65, 65, 65, 65])
    ∧ (CachedPageReadWriter.write exampleHeader exampleConf exampleFresh
        ⟨5, [65, 65, 65, 65]⟩).map (fun t => t.m_logFd.bytes.getLast?) = some (some 65)
    ∧ ¬ ((CachedPageReadWriter.write exampleHeader exampleConf exampleFresh
        ⟨5, [65, 65, 65, 65]⟩).map (fun t => t.m_logFd.bytes.getLast?) = some (some 124)) := by
  decide

/-- C15, amended. Terminal marker: with a one-byte delimiter, every
CHECKPOINT, DB_OPEN and DB_CLOSE record the program appends (in flush, in
close, in construction, and before the CHANGE record of a write at the
threshold) has the delimiter byte '|' as its final byte; the CHANGE record a
write appends carries no delimiter: its payload fills the record to the end
and its final byte is the last payload byte. -/
theorem terminal_marker (H : Header) (G : GlobalConfiguration) (N : Nat)
    (s : CachedPageReadWriter) (source : PageReadWriter) (fuel : Nat)
    (hc : Consistent N s) (hN : 0 < N) (heof : s.m_logFd.pos = s.m_logFd.bytes.length)
    (h1 : H.LOG_SEEK_DELIM_SIZE = 1) (hps : 0 < G.pageSize) :
    (∀ tag, (stubRecord H G tag).getLast? = some 124)
    ∧ (∃ t, CachedPageReadWriter.flush H G s = some t
        ∧ t.m_logFd.bytes = s.m_logFd.bytes ++ stubRecord H G (LOG_ACTION_CHECKPOINT H)
        ∧ t.m_logFd.bytes.getLast? = some 124)
    ∧ (∃ t, CachedPageReadWriter.close H G s = some t
        ∧ t.m_logFd.bytes = s.m_logFd.bytes ++ stubRecord H G (LOG_ACTION_CHECKPOINT H)
            ++ stubRecord H G (LOG_ACTION_DB_CLOSE H)
        ∧ t.m_logFd.bytes.getLast? = some 124)
    ∧ (G.cacheSize % G.pageSize = 0 →
        ∃ t, CachedPageReadWriter.new H G source none fuel = some (Except.ok t)
          ∧ t.m_logFd.bytes = stubRecord H G (LOG_ACTION_CHECKPOINT H)
              ++ stubRecord H G (LOG_ACTION_DB_OPEN H)
          ∧ t.m_logFd.bytes.getLast? = some 124)
    ∧ (∀ journal t, CachedPageReadWriter.new H G source (some journal) fuel = some (Except.ok t) →
        t.m_logFd.bytes = journal ++ stubRecord H G (LOG_ACTION_DB_OPEN H)
        ∧ t.m_logFd.bytes.getLast? = some 124)
    ∧ (∀ page : Page, page.data.length = G.pageSize →
        (changeRecord H G page).getLast? = page.data.getLast?
        ∧ ∃ t, CachedPageReadWriter.write H G s page = some t
          ∧ t.m_logFd.bytes
              = s.m_logFd.bytes ++ (if s.m_writesCounter = H.CHECKPOINT_THRESHOLD then
                  stubRecord H G (LOG_ACTION_CHECKPOINT H) else []) ++ changeRecord H G page
          ∧ t.m_logFd.bytes.getLast? = page.data.getLast?) := by
  have hD : H.LOG_SEEK_DELIM_SIZE ≤ H.SIZEOF_SIZE_T + G.pageSize := by omega
  have hstub : ∀ tag, (stubRecord H G tag).getLast? = some 124 :=
    fun tag => stubRecord_getLast H G tag h1
  have hne : ∀ tag, stubRecord H G tag ≠ [] := by
    intro tag h
    have := hstub tag
    rw [h] at this
    cases this
  refine ⟨hstub, ?_, ?_, ?_, ?_, ?_⟩
  · obtain ⟨t, ht⟩ := flush_total H G hc
    obtain ⟨j1, _, _⟩ := flush_journal H G ht heof hD
    exact ⟨t, ht, j1, by rw [j1, getLast?_append_ne_nil _ _ (hne _), hstub]⟩
  · obtain ⟨t1, ht1⟩ := flush_total H G hc
    have ht : ∃ t, CachedPageReadWriter.close H G s = some t := by
      unfold CachedPageReadWriter.close
      rw [ht1]
      exact ⟨_, rfl⟩
    obtain ⟨t, ht⟩ := ht
    have j := close_journal H G ht heof hD
    exact ⟨t, ht, j, by rw [j, getLast?_append_ne_nil _ _ (hne _), hstub]⟩
  · intro hconf
    have hnew : ∃ t, CachedPageReadWriter.new H G source none fuel = some (Except.ok t) := by
      unfold CachedPageReadWriter.new
      simp only [hconf, ne_eq, not_true_eq_false, if_false]
      exact ⟨_, rfl⟩
    obtain ⟨t, ht⟩ := hnew
    have j := new_fresh_bytes H G source fuel t ht hD
    exact ⟨t, ht, j, by rw [j, getLast?_append_ne_nil _ _ (hne _), hstub]⟩
  · intro journal t ht
    have j := new_existing_bytes H G source journal fuel t ht hD
    exact ⟨j, by rw [j, getLast?_append_ne_nil _ _ (hne _), hstub]⟩
  · intro page hp
    have hch := changeRecord_getLast H G page hp hps
    have hcne : changeRecord H G page ≠ [] := by
      intro h
      have := changeRecord_length H G page hp
      rw [h] at this
      unfold recordSize at this
      simp at this
      omega
    obtain ⟨t, ht⟩ := write_total H G hc hN page
    obtain ⟨j1, _, _⟩ := write_journal H G ht heof hD
    exact ⟨hch, t, ht, j1, by rw [j1, getLast?_append_ne_nil _ _ hcne, hch]⟩

set_option maxRecDepth 100000 in
/-- C15 amended, at the fresh example cache: flush appends a record ending in
'|', write(5, "AAAA") a record ending in 'A'. -/
theorem terminal_marker_witness :
    (Consistent 2 exampleFresh ∧ 0 < 2
      ∧ exampleFresh.m_logFd.pos = exampleFresh.m_logFd.bytes.length
      ∧ exampleHeader.LOG_SEEK_DELIM_SIZE = 1 ∧ 0 < exampleConf.pageSize)
    ∧ (∃ t, CachedPageReadWriter.flush exampleHeader exampleConf exampleFresh = some t
        ∧ t.m_logFd.bytes.getLast? = some 124)
    ∧ (∃ t, CachedPageReadWriter.write exampleHeader exampleConf exampleFresh
          ⟨5, [65, 65, 65, 65]⟩ = some t
        ∧ t.m_logFd.bytes.getLast? = some 65) := by
  obtain ⟨_, ⟨t, ht, _, hl⟩, _, _, _, hw⟩ :=
    terminal_marker exampleHeader exampleConf 2 exampleFresh exampleStore 0
      (by decide) (by decide) (by decide) (by decide) (by decide)
  obtain ⟨_, u, hu, _, hul⟩ := hw ⟨5, [65, 65, 65, 65]⟩ rfl
  exact ⟨⟨by decide, by decide, by decide, by decide, by decide⟩, ⟨t, ht, hl⟩, ⟨u, hu, hul⟩⟩

/-! ## Recovery run twice -/

/-- The constructor on a journal of whole records with a CHECKPOINT. -/
theorem new_recovered (H : Header) (G : GlobalConfiguration) (source : PageReadWriter)
    (recs post : List Bytes) (fuel : Nat) (hA : 0 < H.LOG_ACTION_SIZE)
    (hD : H.LOG_SEEK_DELIM_SIZE ≤ H.SIZEOF_SIZE_T + G.pageSize)
    (hconf : G.cacheSize % G.pageSize = 0)
    (hrecs : ∀ r ∈ recs, r.length = recordSize H G)
    (hpost : afterLastCheckpoint H recs = some post) (hfuel : recs.length < fuel) :
    ∃ s, CachedPageReadWriter.new H G source (some recs.flatten) fuel = some (Except.ok s)
      ∧ s.m_source = writeAll source (changesOf H G post)
      ∧ s.m_logFd.bytes = (recs ++ [stubRecord H G (LOG_ACTION_DB_OPEN H)]).flatten := by
  have hrec := recover_eq H G hA recs post source hrecs hpost 0 fuel hfuel
  have hnew := new_of_recover H G source _ _ fuel _ hconf hrec
  refine ⟨_, hnew, rfl, ?_⟩
  rw [new_existing_bytes H G source _ fuel _ hnew hD]
  simp

/-- Writing the same pages a second time leaves the page map as it is. -/
theorem writeAll_twice_pages (source : PageReadWriter) (pages : List Page) :
    (writeAll (writeAll source pages) pages).pages = (writeAll source pages).pages := by
  funext n
  rw [writeAll_pages, writeAll_pages]
  cases lastData pages n <;> rfl

/-- C16. Recovery idempotence: for a journal of whole records with a
CHECKPOINT and any store, the constructor returns (recovery 1) with the
journal extended by one DB_OPEN record; the constructor on that journal and
that store returns again (recovery 2), having replayed the same CHANGE
records (the pages after the last CHECKPOINT, the DB_OPEN record counting for
none), and the page contents of the store are those left by recovery 1. -/
theorem recovery_idempotent (H : Header) (G : GlobalConfiguration) (source : PageReadWriter)
    (recs post : List Bytes) (fuel fuel2 : Nat)
    (hA : 7 < H.LOG_ACTION_SIZE)
    (hD : H.LOG_SEEK_DELIM_SIZE ≤ H.SIZEOF_SIZE_T + G.pageSize)
    (hconf : G.cacheSize % G.pageSize = 0)
    (hrecs : ∀ r ∈ recs, r.length = recordSize H G)
    (hpost : afterLastCheckpoint H recs = some post)
    (hfuel : recs.length < fuel) (hfuel2 : recs.length + 1 < fuel2) :
    ∃ s1 s2,
      CachedPageReadWriter.new H G source (some recs.flatten) fuel = some (Except.ok s1)
      ∧ s1.m_logFd.bytes = recs.flatten ++ stubRecord H G (LOG_ACTION_DB_OPEN H)
      ∧ s1.m_source = writeAll source (changesOf H G post)
      ∧ CachedPageReadWriter.new H G s1.m_source (some s1.m_logFd.bytes) fuel2
          = some (Except.ok s2)
      ∧ afterLastCheckpoint H (recs ++ [stubRecord H G (LOG_ACTION_DB_OPEN H)])
          = some (post ++ [stubRecord H G (LOG_ACTION_DB_OPEN H)])
      ∧ changesOf H G (post ++ [stubRecord H G (LOG_ACTION_DB_OPEN H)]) = changesOf H G post
      ∧ s2.m_source = writeAll s1.m_source (changesOf H G post)
      ∧ s2.m_source.calls = s1.m_source.calls
          ++ (changesOf H G post).map (fun p => StoreCall.write p.number p.data)
      ∧ s2.m_source.pages = s1.m_source.pages
      ∧ s2.m_logFd.bytes = s1.m_logFd.bytes ++ stubRecord H G (LOG_ACTION_DB_OPEN H) := by
  have hpost2 : afterLastCheckpoint H (recs ++ [stubRecord H G (LOG_ACTION_DB_OPEN H)])
      = some (post ++ [stubRecord H G (LOG_ACTION_DB_OPEN H)]) := by
    rw [afterLastCheckpoint_snoc, isCheckpoint_stub_open H G hA, hpost]
    rfl
  have hch : changesOf H G (post ++ [stubRecord H G (LOG_ACTION_DB_OPEN H)])
      = changesOf H G post := by
    rw [changesOf_snoc, isChange_stub_open H G hA]
    simp
  have hrecs2 : ∀ r ∈ recs ++ [stubRecord H G (LOG_ACTION_DB_OPEN H)],
      r.length = recordSize H G := by
    intro r hr
    rcases List.mem_append.mp hr with h | h
    · exact hrecs r h
    · rw [List.mem_singleton.mp h]
      exact stubRecord_length H G _ (length_DB_OPEN H) hD
  obtain ⟨s1, n1, src1, b1⟩ :=
    new_recovered H G source recs post fuel (by omega) hD hconf hrecs hpost hfuel
  obtain ⟨s2, n2, src2, b2⟩ :=
    new_recovered H G s1.m_source _ _ fuel2 (by omega) hD hconf hrecs2 hpost2
      (by simpa using hfuel2)
  rw [hch] at src2
  rw [← b1] at n2
  refine ⟨s1, s2, n1, by rw [b1]; simp, src1, n2, hpost2, hch, src2, ?_, ?_, ?_⟩
  · rw [src2, writeAll_calls]
  · rw [src2, src1]
    exact writeAll_twice_pages _ _
  · rw [b2, b1]
    simp

set_option maxRecDepth 100000 in
/-- C16, at the journal of the recovery scenario: after the second recovery
page 5 is still "BBBB" and page 9 still "CCCC". -/
theorem recovery_idempotent_witness :
    (7 < exampleHeader.LOG_ACTION_SIZE
      ∧ exampleHeader.LOG_SEEK_DELIM_SIZE ≤ exampleHeader.SIZEOF_SIZE_T + exampleConf.pageSize
      ∧ exampleConf.cacheSize % exampleConf.pageSize = 0
      ∧ (∀ r ∈ scenarioJournal, r.length = recordSize exampleHeader exampleConf)
      ∧ afterLastCheckpoint exampleHeader scenarioJournal = some scenarioJournal.tail
      ∧ scenarioJournal.length < 5 ∧ scenarioJournal.length + 1 < 6)
    ∧ ∃ s1 s2,
        CachedPageReadWriter.new exampleHeader exampleConf exampleStore
          (some scenarioJournal.flatten) 5 = some (Except.ok s1)
        ∧ CachedPageReadWriter.new exampleHeader exampleConf s1.m_source
          (some s1.m_logFd.bytes) 6 = some (Except.ok s2)
        ∧ s2.m_source.pages = s1.m_source.pages
        ∧ s2.m_source.pages 5 = [66, 66, 66, 66] ∧ s2.m_source.pages 9 = [67, 67, 67, 67] := by
  refine ⟨⟨by decide, by decide, by decide, by decide, by decide, by decide, by decide⟩, ?_⟩
  obtain ⟨s1, s2, h1, _, h3, h4, _, _, _, _, h9, _⟩ :=
    recovery_idempotent exampleHeader exampleConf exampleStore scenarioJournal
      scenarioJournal.tail 5 6 (by decide) (by decide) (by decide) (by decide) (by decide)
      (by decide) (by decide)
  refine ⟨s1, s2, h1, h4, h9, ?_, ?_⟩
  · rw [h9, h3]; rfl
  · rw [h9, h3]; rfl

/-! ## Empty slots at the back of the LRU list -/

theorem pairwise_split (P : Nat → Prop) (l : List Nat)
    (h : l.Pairwise (fun a b => P b → P a)) :
    ∃ front back, l = front ++ back ∧ (∀ i ∈ front, P i) ∧ (∀ i ∈ back, ¬ P i) := by
  induction l with
  | nil => exact ⟨[], [], rfl, by simp, by simp⟩
  | cons a rest ih =>
    obtain ⟨h1, h2⟩ := List.pairwise_cons.mp h
    by_cases ha : P a
    · obtain ⟨front, back, e, hf, hb⟩ := ih h2
      refine ⟨a :: front, back, by rw [e]; rfl, ?_, hb⟩
      intro i hi
      rcases List.mem_cons.mp hi with rfl | hi
      · exact ha
      · exact hf i hi
    · refine ⟨[], a :: rest, rfl, by simp, ?_⟩
      intro i hi
      rcases List.mem_cons.mp hi with rfl | hi
      · exact ha
      · exact fun hp => ha (h1 i hi hp)

/-- In a list kept in order of recency the slots holding a page come first,
the empty slots last. -/
theorem recency_split {ops : List Op} {s : CachedPageReadWriter} (hR : Recency ops s) :
    ∃ front back, s.m_lruList = front ++ back
      ∧ (∀ i ∈ front, pageAt s.m_cache i ≠ none) ∧ (∀ i ∈ back, pageAt s.m_cache i = none) := by
  have h : s.m_lruList.Pairwise
      (fun a b => pageAt s.m_cache b ≠ none → pageAt s.m_cache a ≠ none) := by
    refine List.Pairwise.imp ?_ hR
    intro a b hab hb
    obtain ⟨y, hy⟩ := Option.ne_none_iff_exists'.mp hb
    obtain ⟨x, hx, _⟩ := hab y hy
    rw [hx]
    exact Option.some_ne_none x
  obtain ⟨front, back, e, hf, hb⟩ := pairwise_split _ _ h
  exact ⟨front, back, e, hf, fun i hi => not_not.mp (hb i hi)⟩

theorem pageAt_eq_none (cache : List (Option Page)) (i : Nat) (hi : i < cache.length) :
    pageAt cache i = none ↔ cache[i]? = some none := by
  unfold pageAt
  rw [List.getElem?_eq_getElem hi]
  cases cache[i] <;> simp

/-- C17. Empty slots are preferred: in a state reached from construction
(at least one slot) by reads, writes, flushes and deallocations, the LRU list
lists each slot index exactly once, with the slots holding a page first and
the empty slots last; if some slot is empty, `freeCachePosition` returns the
back slot, which is empty, and leaves the whole state (position map, store)
as it is; if no slot is empty, it returns the back slot after evicting its
page from the slot and the position map; so it evicts only when every slot
holds a page. -/
theorem empty_slot_preferred (H : Header) (G : GlobalConfiguration) (source : PageReadWriter)
    (journal : Option Bytes) (fuel : Nat) (s0 s : CachedPageReadWriter) (ops : List Op)
    (hnew : CachedPageReadWriter.new H G source journal fuel = some (Except.ok s0))
    (hrun : run H G s0 ops = some s)
    (hN : 0 < slots G) :
    s.m_lruList.Perm (List.range (slots G))
    ∧ s.m_lruList.Nodup
    ∧ (∀ i, i < slots G → s.m_lruList.count i = 1)
    ∧ (∃ front back, s.m_lruList = front ++ back
        ∧ (∀ i ∈ front, ∃ pg, s.m_cache[i]? = some (some pg))
        ∧ (∀ i ∈ back, s.m_cache[i]? = some none))
    ∧ ((∃ i, i < slots G ∧ s.m_cache[i]? = some none) →
        ∃ b, s.m_lruList.getLast? = some b ∧ s.m_cache[b]? = some none
          ∧ freeCachePosition s = some (b, s))
    ∧ ((∀ i, i < slots G → s.m_cache[i]? ≠ some none) →
        ∃ b pg, s.m_lruList.getLast? = some b ∧ s.m_cache[b]? = some (some pg)
          ∧ mapFind s.m_posInCache pg.number = some b
          ∧ freeCachePosition s
              = some (b, { s with m_cache := s.m_cache.set b none
                                  m_posInCache := mapErase s.m_posInCache pg.number })
          ∧ mapFind (mapErase s.m_posInCache pg.number) pg.number = none)
    ∧ (∀ b t, freeCachePosition s = some (b, t) →
        (t.m_posInCache ≠ s.m_posInCache ∨ t.m_cache ≠ s.m_cache
          ∨ t.m_source.calls ≠ s.m_source.calls) →
        ∀ i, i < slots G → s.m_cache[i]? ≠ some none) := by
  have hc0 := new_consistent H G source journal fuel s0 hnew
  obtain ⟨hcl0, hsy0⟩ := new_clean_synced H G source journal fuel s0 hnew
  obtain ⟨hc, hcl, hsy⟩ := run_inv H G ops hc0 hcl0 hsy0 hrun
  have hR : Recency ops s := by
    have := run_recency H G ops [] hc0 hcl0 hsy0
      (new_recency H G source journal fuel s0 hnew) hrun
    simpa using this
  obtain ⟨c1, _, c3, _, c5, _⟩ := (consistent_iff (slots G) s).mp hc
  have hnd : s.m_lruList.Nodup := c3.nodup_iff.mpr (List.nodup_range _)
  have hmem : ∀ i, i ∈ s.m_lruList ↔ i < slots G := fun i =>
    (c3.mem_iff).trans List.mem_range
  obtain ⟨front, back, e, hf, hb⟩ := recency_split hR
  have hback : ∀ i ∈ back, s.m_cache[i]? = some none := by
    intro i hi
    have hiN : i < s.m_cache.length := by
      rw [c1]; exact (hmem i).mp (by rw [e]; exact List.mem_append_right _ hi)
    exact (pageAt_eq_none _ _ hiN).mp (hb i hi)
  have hempty : (∃ i, i < slots G ∧ s.m_cache[i]? = some none) →
      ∃ b, s.m_lruList.getLast? = some b ∧ s.m_cache[b]? = some none
        ∧ freeCachePosition s = some (b, s) := by
    rintro ⟨i, hiN, hi⟩
    have him : i ∈ s.m_lruList := (hmem i).mpr hiN
    rw [e] at him
    have hib : i ∈ back := by
      rcases List.mem_append.mp him with h | h
      · have hp : pageAt s.m_cache i = none := by unfold pageAt; rw [hi]
        exact absurd hp (hf i h)
      · exact h
    have hne : back ≠ [] := List.ne_nil_of_mem hib
    obtain ⟨b, hbl, _⟩ := lru_getLast hc hN
    have hbb : b ∈ back := by
      rw [e, getLast?_append_ne_nil _ _ hne] at hbl
      exact List.mem_of_getLast?_eq_some hbl
    have hcb := hback b hbb
    refine ⟨b, hbl, hcb, ?_⟩
    unfold freeCachePosition
    rw [hbl]
    simp only
    rw [hcb]
  refine ⟨c3, hnd, ?_, ⟨front, back, e, ?_, hback⟩, hempty, ?_, ?_⟩
  · intro i hi
    exact List.count_eq_one_of_mem hnd ((hmem i).mpr hi)
  · intro i hi
    obtain ⟨p, hp⟩ := Option.ne_none_iff_exists'.mp (hf i hi)
    obtain ⟨pg, hpg, _⟩ := (pageAt_eq_some _ _ _).mp hp
    exact ⟨pg, hpg⟩
  · intro hfull
    obtain ⟨b, hbl, hbN⟩ := lru_getLast hc hN
    have hbc : b < s.m_cache.length := by rw [c1]; exact hbN
    have hpn : pageAt s.m_cache b ≠ none := fun h =>
      hfull b hbN ((pageAt_eq_none _ _ hbc).mp h)
    obtain ⟨p, hp⟩ := Option.ne_none_iff_exists'.mp hpn
    obtain ⟨pg, hpg, hnum⟩ := (pageAt_eq_some _ _ _).mp hp
    have hfree := freeCachePosition_clean hc hcl hbl
    have hev : evictedMap s b = mapErase s.m_posInCache pg.number := by
      unfold evictedMap
      rw [hp, hnum]
    rw [hev] at hfree
    refine ⟨b, pg, hbl, hpg, (c5 _ _).mpr (by rw [hp, hnum]), hfree, ?_⟩
    rw [mapFind_mapErase, if_pos rfl]
  · intro b t ht hchg i hiN hi
    obtain ⟨b1, _, _, hfree⟩ := hempty ⟨i, hiN, hi⟩
    rw [hfree] at ht
    simp only [Option.some.injEq, Prod.mk.injEq] at ht
    obtain ⟨_, rfl⟩ := ht
    rcases hchg with h | h | h <;> exact h rfl

set_option maxRecDepth 100000 in
/-- C17, at the example cache after write(1): slot 1 holds page 1, slot 0 is
empty and at the back of the LRU list; `freeCachePosition` returns slot 0 and
changes nothing. -/
theorem empty_slot_preferred_witness :
    (CachedPageReadWriter.new exampleHeader exampleConf exampleStore none 0
        = some (Except.ok exampleFresh)
      ∧ run exampleHeader exampleConf exampleFresh [Op.write ⟨1, [1, 1, 1, 1]⟩]
        = some (exampleAfter [Op.write ⟨1, [1, 1, 1, 1]⟩])
      ∧ 0 < slots exampleConf)
    ∧ (exampleAfter [Op.write ⟨1, [1, 1, 1, 1]⟩]).m_lruList = [1, 0]
    ∧ (exampleAfter [Op.write ⟨1, [1, 1, 1, 1]⟩]).m_cache = [none, some ⟨1, [1, 1, 1, 1]⟩]
    ∧ freeCachePosition (exampleAfter [Op.write ⟨1, [1, 1, 1, 1]⟩])
        = some (0, exampleAfter [Op.write ⟨1, [1, 1, 1, 1]⟩]) := by
  have hrun : run exampleHeader exampleConf exampleFresh [Op.write ⟨1, [1, 1, 1, 1]⟩]
      = some (exampleAfter [Op.write ⟨1, [1, 1, 1, 1]⟩]) := example_run _ (by decide)
  obtain ⟨_, _, _, _, h5, _, _⟩ :=
    empty_slot_preferred exampleHeader exampleConf exampleStore none 0 exampleFresh
      (exampleAfter [Op.write ⟨1, [1, 1, 1, 1]⟩]) [Op.write ⟨1, [1, 1, 1, 1]⟩]
      example_new hrun (by decide)
  obtain ⟨b, hb, _, hfree⟩ := h5 ⟨0, by decide, rfl⟩
  have hb0 : (exampleAfter [Op.write ⟨1, [1, 1, 1, 1]⟩]).m_lruList.getLast? = some 0 := by
    decide
  rw [hb0] at hb
  simp only [Option.some.injEq] at hb
  subst hb
  exact ⟨⟨example_new, hrun, by decide⟩, by decide, rfl, hfree⟩

/-! ## The position map and the slots -/

/-- C18. Position-map consistency: in a state reached from construction by
reads, writes, flushes and deallocations, the position map sends p to i
exactly when slot i holds the page numbered p; so every entry of the map
points to a slot of the cache that is not empty, every slot that is not empty
is the entry of its page, no two page numbers share a slot, no two slots hold
the same page number, and the map has one entry for each key. -/
theorem position_map_bijection (H : Header) (G : GlobalConfiguration) (source : PageReadWriter)
    (journal : Option Bytes) (fuel : Nat) (s0 s : CachedPageReadWriter) (ops : List Op)
    (hnew : CachedPageReadWriter.new H G source journal fuel = some (Except.ok s0))
    (hrun : run H G s0 ops = some s) :
    (∀ p i, mapFind s.m_posInCache p = some i
        ↔ ∃ pg, s.m_cache[i]? = some (some pg) ∧ pg.number = p)
    ∧ (∀ p i, mapFind s.m_posInCache p = some i → i < slots G ∧ s.m_cache[i]? ≠ some none)
    ∧ (∀ (i : Nat) (pg : Page), s.m_cache[i]? = some (some pg) → mapFind s.m_posInCache pg.number = some i)
    ∧ (∀ p q i, mapFind s.m_posInCache p = some i → mapFind s.m_posInCache q = some i → p = q)
    ∧ (∀ (i j : Nat) (pg pg' : Page), s.m_cache[i]? = some (some pg) → s.m_cache[j]? = some (some pg') →
        pg.number = pg'.number → i = j)
    ∧ (s.m_posInCache.map Prod.fst).Nodup
    ∧ s.m_cache.length = slots G := by
  have hc0 := new_consistent H G source journal fuel s0 hnew
  have hc := run_consistent H G ops hc0 hrun
  obtain ⟨c1, _, _, c4, c5, _⟩ := (consistent_iff (slots G) s).mp hc
  have hiff : ∀ p i, mapFind s.m_posInCache p = some i
      ↔ ∃ pg, s.m_cache[i]? = some (some pg) ∧ pg.number = p := fun p i =>
    (c5 p i).trans (pageAt_eq_some _ _ _)
  refine ⟨hiff, ?_, ?_, ?_, ?_, ?_, c1⟩
  · intro p i h
    obtain ⟨pg, hpg, _⟩ := (hiff p i).mp h
    refine ⟨?_, by rw [hpg]; simp⟩
    rw [← c1]
    exact pageAt_lt _ _ _ (pageAt_of_getElem _ _ _ hpg)
  · intro i pg h
    exact (hiff _ _).mpr ⟨pg, h, rfl⟩
  · intro p q i hp hq
    obtain ⟨pg, hpg, e1⟩ := (hiff p i).mp hp
    obtain ⟨pg', hpg', e2⟩ := (hiff q i).mp hq
    rw [hpg] at hpg'
    simp only [Option.some.injEq] at hpg'
    rw [← e1, ← e2, hpg']
  · intro i j pg pg' hi hj hnum
    exact slot_unique hc hi hj hnum
  · exact List.Pairwise.imp (fun h => Nat.ne_of_lt h) c4

set_option maxRecDepth 100000 in
/-- C18, at the eviction example: after write(1), write(2), read(1), write(3)
the map sends page 3 to slot 0 and page 1 to slot 1, which hold them, and
page 2, evicted, has no entry. -/
theorem position_map_bijection_witness :
    (CachedPageReadWriter.new exampleHeader exampleConf exampleStore none 0
        = some (Except.ok exampleFresh)
      ∧ run exampleHeader exampleConf exampleFresh exampleOps = some (exampleAfter exampleOps))
    ∧ (exampleAfter exampleOps).m_posInCache = [(1, 1), (3, 0)]
    ∧ (∃ pg, (exampleAfter exampleOps).m_cache[0]? = some (some pg) ∧ pg.number = 3)
    ∧ (∃ pg, (exampleAfter exampleOps).m_cache[1]? = some (some pg) ∧ pg.number = 1)
    ∧ ∀ (i : Nat) (pg : Page), (exampleAfter exampleOps).m_cache[i]? = some (some pg) → pg.number ≠ 2 := by
  have hrun : run exampleHeader exampleConf exampleFresh exampleOps
      = some (exampleAfter exampleOps) := example_run exampleOps (by decide)
  obtain ⟨h1, _, h3, _⟩ :=
    position_map_bijection exampleHeader exampleConf exampleStore none 0 exampleFresh
      (exampleAfter exampleOps) exampleOps example_new hrun
  refine ⟨⟨example_new, hrun⟩, by decide, (h1 3 0).mp (by decide), (h1 1 1).mp (by decide), ?_⟩
  intro i pg hpg h2
  have := h3 i pg hpg
  rw [h2] at this
  revert this
  have hnone : mapFind (exampleAfter exampleOps).m_posInCache 2 = none := by decide
  rw [hnone]
  intro h
  cases h

/-! ## The write counter -/

theorem succ_mod_period (T k : Nat) :
    ((k + 1) % (T + 1) = 0 ↔ k % (T + 1) = T)
    ∧ (k + 1) % (T + 1) = if k % (T + 1) = T then 0 else k % (T + 1) + 1 := by
  have hr : k % (T + 1) < T + 1 := Nat.mod_lt _ (Nat.succ_pos T)
  have e : (k + 1) % (T + 1) = (k % (T + 1) + 1) % (T + 1) := (Nat.mod_add_mod k (T + 1) 1).symm
  by_cases h : k % (T + 1) = T
  · have e0 : (k + 1) % (T + 1) = 0 := by rw [e, h, Nat.mod_self]
    rw [if_pos h]
    exact ⟨⟨fun _ => h, fun _ => e0⟩, e0⟩
  · have hlt : k % (T + 1) + 1 < T + 1 := by omega
    have e1 : (k + 1) % (T + 1) = k % (T + 1) + 1 := by rw [e, Nat.mod_eq_of_lt hlt]
    rw [if_neg h]
    exact ⟨⟨fun h0 => by omega, fun h0 => absurd h0 h⟩, e1⟩

theorem counted_source (H : Header) (G : GlobalConfiguration) (s : CachedPageReadWriter) :
    (counted H G s).m_source
      = if s.m_writesCounter = H.CHECKPOINT_THRESHOLD then s.m_source.flush else s.m_source := by
  unfold counted
  split <;> rfl

/-- The store after a write on a cache without dirty slots: the store after
the counter test (flushed at the threshold), then one write of the page. -/
theorem write_store {N : Nat} (H : Header) (G : GlobalConfiguration)
    {s t : CachedPageReadWriter} (hc : Consistent N s) (hcl : Clean s) {page : Page}
    (h : CachedPageReadWriter.write H G s page = some t) :
    t.m_source
      = (counted H G s).m_source.write ⟨page.number, t.m_source.pages page.number⟩ := by
  rcases write_cases H G hc hcl h with ⟨i, pg, _, _, hnum, rfl⟩ | ⟨b, _, _, rfl⟩
  · show (counted H G s).m_source.write ⟨pg.number, _⟩
      = (counted H G s).m_source.write
          ⟨page.number, ((counted H G s).m_source.write ⟨pg.number, _⟩).pages page.number⟩
    rw [hnum]
    simp [PageReadWriter.write]
  · show (counted H G s).m_source.write ⟨page.number, _⟩
      = (counted H G s).m_source.write
          ⟨page.number, ((counted H G s).m_source.write ⟨page.number, _⟩).pages page.number⟩
    simp [PageReadWriter.write]

/-- The calls the store receives in a write on a cache without dirty slots:
at the threshold its flush, then in every case one write of the page. -/
theorem write_store_calls {N : Nat} (H : Header) (G : GlobalConfiguration)
    {s t : CachedPageReadWriter} (hc : Consistent N s) (hcl : Clean s) {page : Page}
    (h : CachedPageReadWriter.write H G s page = some t) :
    t.m_source.calls
        = s.m_source.calls
          ++ (if s.m_writesCounter = H.CHECKPOINT_THRESHOLD then [StoreCall.flush] else [])
          ++ [StoreCall.write page.number (t.m_source.pages page.number)]
    ∧ t.m_source.unflushed
        = page.number
          :: (if s.m_writesCounter = H.CHECKPOINT_THRESHOLD then [] else s.m_source.unflushed) := by
  have e := write_store H G hc hcl h
  have e1 : t.m_source.calls = (counted H G s).m_source.calls
      ++ [StoreCall.write page.number (t.m_source.pages page.number)] := by
    conv_lhs => rw [e]
    rfl
  have e2 : t.m_source.unflushed = page.number :: (counted H G s).m_source.unflushed := by
    conv_lhs => rw [e]
    rfl
  rw [e1, e2, counted_source]
  by_cases hT : s.m_writesCounter = H.CHECKPOINT_THRESHOLD
  · rw [if_pos hT, if_pos hT, if_pos hT]
    exact ⟨rfl, rfl⟩
  · rw [if_neg hT, if_neg hT, if_neg hT, List.append_nil]
    exact ⟨rfl, rfl⟩

theorem succ_div_period (T k : Nat) :
    (k + 1) / (T + 1) = k / (T + 1) + if (k + 1) % (T + 1) = 0 then 1 else 0 := by
  rw [Nat.succ_div]
  by_cases h : (k + 1) % (T + 1) = 0
  · rw [if_pos h, if_pos (Nat.dvd_of_mod_eq_zero h)]
  · rw [if_neg h, if_neg (fun hd => h (Nat.mod_eq_zero_of_dvd hd))]

/-- Writes from a state whose counter is the number of earlier writes modulo
`CHECKPOINT_THRESHOLD + 1`: the records appended, the counter, and the number
of flush calls the store received. -/
theorem run_writes_period (H : Header) (G : GlobalConfiguration) {N : Nat} (hN : 0 < N)
    (hD : H.LOG_SEEK_DELIM_SIZE ≤ H.SIZEOF_SIZE_T + G.pageSize) (pages : List Page) :
    ∀ (s : CachedPageReadWriter) (k : Nat), Consistent N s → Clean s → Synced s →
      s.m_logFd.pos = s.m_logFd.bytes.length →
      s.m_writesCounter = k % (H.CHECKPOINT_THRESHOLD + 1) →
      ∃ s', run H G s (pages.map Op.write) = some s' ∧ Consistent N s' ∧ Clean s'
        ∧ s'.m_logFd.pos = s'.m_logFd.bytes.length
        ∧ s'.m_logFd.bytes = s.m_logFd.bytes ++ (periodicRecords H G k pages).flatten
        ∧ s'.m_writesCounter = (k + pages.length) % (H.CHECKPOINT_THRESHOLD + 1)
        ∧ s'.m_source.calls.count StoreCall.flush + k / (H.CHECKPOINT_THRESHOLD + 1)
            = s.m_source.calls.count StoreCall.flush
              + (k + pages.length) / (H.CHECKPOINT_THRESHOLD + 1) := by
  induction pages with
  | nil =>
    intro s k hc hcl _ heof hk
    exact ⟨s, rfl, hc, hcl, heof, by simp [periodicRecords], by simpa using hk, by simp⟩
  | cons p rest ih =>
    intro s k hc hcl hsy heof hk
    obtain ⟨s1, hw⟩ := write_total H G hc hN p
    obtain ⟨j1, j2, j3⟩ := write_journal H G hw heof hD
    obtain ⟨m1, m2⟩ := succ_mod_period H.CHECKPOINT_THRESHOLD k
    have hk1 : s1.m_writesCounter = (k + 1) % (H.CHECKPOINT_THRESHOLD + 1) := by
      rw [j3, m2, hk]
    have hstep : step H G s (Op.write p) = some s1 := hw
    obtain ⟨hcl1, hsy1⟩ := step_clean_synced H G hc hcl hsy hstep
    obtain ⟨hcalls, _⟩ := write_store_calls H G hc hcl hw
    obtain ⟨s2, r1, r2, r2c, r3, r4, r5, r6⟩ :=
      ih s1 (k + 1) (write_consistent H G hc hw) hcl1 hsy1 j2 hk1
    have hT : s.m_writesCounter = H.CHECKPOINT_THRESHOLD
        ↔ (k + 1) % (H.CHECKPOINT_THRESHOLD + 1) = 0 := by rw [hk]; exact m1.symm
    refine ⟨s2, ?_, r2, r2c, r3, ?_, ?_, ?_⟩
    · simp only [List.map_cons, run, step, hw, r1]
    · rw [r4, j1, periodicRecords]
      by_cases h0 : (k + 1) % (H.CHECKPOINT_THRESHOLD + 1) = 0
      · have hT1 : s.m_writesCounter = H.CHECKPOINT_THRESHOLD := hT.mpr h0
        simp [h0, hT1]
      · have hT1 : s.m_writesCounter ≠ H.CHECKPOINT_THRESHOLD := fun h => h0 (hT.mp h)
        simp [h0, hT1]
    · rw [r5, List.length_cons]
      congr 1
      omega
    · have hcount : s1.m_source.calls.count StoreCall.flush
          = s.m_source.calls.count StoreCall.flush
            + if (k + 1) % (H.CHECKPOINT_THRESHOLD + 1) = 0 then 1 else 0 := by
        rw [hcalls]
        by_cases h0 : (k + 1) % (H.CHECKPOINT_THRESHOLD + 1) = 0
        · have hT1 : s.m_writesCounter = H.CHECKPOINT_THRESHOLD := hT.mpr h0
          simp [h0, hT1, List.count_append, List.count_cons]
        · have hT1 : s.m_writesCounter ≠ H.CHECKPOINT_THRESHOLD := fun h => h0 (hT.mp h)
          simp [h0, hT1, List.count_append, List.count_cons]
      have hdiv := succ_div_period H.CHECKPOINT_THRESHOLD k
      have e : k + (rest.length + 1) = k + 1 + rest.length := by omega
      rw [List.length_cons, e]
      rw [hcount, hdiv] at r6
      omega

theorem periodicRecords_append (H : Header) (G : GlobalConfiguration) (a b : List Page) :
    ∀ k, periodicRecords H G k (a ++ b)
      = periodicRecords H G k a ++ periodicRecords H G (k + a.length) b := by
  induction a with
  | nil => intro k; simp [periodicRecords]
  | cons p rest ih =>
    intro k
    have e : k + 1 + rest.length = k + (rest.length + 1) := by omega
    have h := ih (k + 1)
    rw [e] at h
    show (if (k + 1) % (H.CHECKPOINT_THRESHOLD + 1) = 0 then
        [stubRecord H G (LOG_ACTION_CHECKPOINT H)] else [])
        ++ changeRecord H G p :: periodicRecords H G (k + 1) (rest ++ b) = _
    rw [h]
    simp only [periodicRecords, List.length_cons, List.append_assoc, List.cons_append]

theorem periodicRecords_below (H : Header) (G : GlobalConfiguration) (pages : List Page) :
    ∀ k, k + pages.length ≤ H.CHECKPOINT_THRESHOLD →
      periodicRecords H G k pages = pages.map (changeRecord H G) := by
  induction pages with
  | nil => intro k _; rfl
  | cons p rest ih =>
    intro k hk
    rw [List.length_cons] at hk
    have h0 : (k + 1) % (H.CHECKPOINT_THRESHOLD + 1) ≠ 0 := by
      rw [Nat.mod_eq_of_lt (by omega)]; omega
    simp only [periodicRecords, if_neg h0, List.nil_append, List.map_cons]
    rw [ih (k + 1) (by omega)]

theorem periodicRecords_shift (H : Header) (G : GlobalConfiguration) (pages : List Page) :
    ∀ k, periodicRecords H G (k + (H.CHECKPOINT_THRESHOLD + 1)) pages
      = periodicRecords H G k pages := by
  induction pages with
  | nil => intro k; rfl
  | cons p rest ih =>
    intro k
    have e : k + (H.CHECKPOINT_THRESHOLD + 1) + 1 = k + 1 + (H.CHECKPOINT_THRESHOLD + 1) := by
      omega
    simp only [periodicRecords]
    rw [e, ih (k + 1), Nat.add_mod_right]

/-- One period: the first `CHECKPOINT_THRESHOLD` writes append their CHANGE
records, the next one a CHECKPOINT record and its CHANGE record, and the
writes after it start a new period. -/
theorem periodicRecords_block (H : Header) (G : GlobalConfiguration) (first : List Page)
    (last : Page) (rest : List Page) (hlen : first.length = H.CHECKPOINT_THRESHOLD) :
    periodicRecords H G 0 (first ++ last :: rest)
      = first.map (changeRecord H G)
        ++ stubRecord H G (LOG_ACTION_CHECKPOINT H) :: changeRecord H G last
          :: periodicRecords H G 0 rest := by
  rw [periodicRecords_append, periodicRecords_below H G first 0 (by omega), Nat.zero_add, hlen]
  simp only [periodicRecords, Nat.mod_self, if_true, List.singleton_append]
  have := periodicRecords_shift H G rest 0
  rw [Nat.zero_add] at this
  rw [this]


set_option maxRecDepth 100000 in
/-- C19, counterexample: with threshold 3, the third write on the fresh
example cache brings the counter to 3 without resetting it and appends its
CHANGE record right after the CHANGE record of the second write, no CHECKPOINT
between them, and the store has received three writes and no flush; it is the
fourth write that flushes the store, appends a CHECKPOINT before its CHANGE
record and resets the counter. -/
theorem third_write_not_checkpointed :
    exampleHeader.CHECKPOINT_THRESHOLD = 3
    ∧ (run exampleHeader exampleConf exampleFresh exampleWrites).map
        (fun s => (s.m_logFd.bytes, s.m_writesCounter, s.m_source.calls))
      = some (exampleFresh.m_logFd.bytes
          ++ [changeRecord exampleHeader exampleConf ⟨1, [1, 1, 1, 1]⟩,
              changeRecord exampleHeader exampleConf ⟨2, [2, 2, 2, 2]⟩,
              changeRecord exampleHeader exampleConf ⟨3, [3, 3, 3, 3]⟩].flatten, 3,
          [StoreCall.write 1 [1, 1, 1, 1], StoreCall.write 2 [2, 2, 2, 2],
           StoreCall.write 3 [3, 3, 3, 3]])
    ∧ isCheckpoint exampleHeader (changeRecord exampleHeader exampleConf ⟨2, [2, 2, 2, 2]⟩)
        = false
    ∧ (run exampleHeader exampleConf exampleFresh
          (exampleWrites ++ [Op.write ⟨4, [4, 4, 4, 4]⟩])).map
        (fun s => (s.m_logFd.bytes, s.m_writesCounter, s.m_source.calls))
      = some (exampleFresh.m_logFd.bytes
          ++ [changeRecord exampleHeader exampleConf ⟨1, [1, 1, 1, 1]⟩,
              changeRecord exampleHeader exampleConf ⟨2, [2, 2, 2, 2]⟩,
              changeRecord exampleHeader exampleConf ⟨3, [3, 3, 3, 3]⟩,
              stubRecord exampleHeader exampleConf (LOG_ACTION_CHECKPOINT exampleHeader),
              changeRecord exampleHeader exampleConf ⟨4, [4, 4, 4, 4]⟩].flatten, 0,
          [StoreCall.write 1 [1, 1, 1, 1], StoreCall.write 2 [2, 2, 2, 2],
           StoreCall.write 3 [3, 3, 3, 3], StoreCall.flush,
           StoreCall.write 4 [4, 4, 4, 4]]) := by
  decide

/-- C19, amended. Write-counter step: write tests the counter before changing
it: when the counter equals T = CHECKPOINT_THRESHOLD it is reset to zero and
the full `flush` runs (its result is the state the rest of the write works
on: the store receives its flush call, nothing stays unflushed, a CHECKPOINT
record is appended) before the CHANGE record of that write is appended and
its page written to the store; otherwise the counter is incremented, no flush
runs, and only the CHANGE record is appended. So on a freshly constructed
cache (at least one slot) any sequence of writes with no explicit flush
returns, the counter ends as the number of writes modulo T + 1, the store has
received one flush for every T + 1 writes, and a CHECKPOINT record precedes
the CHANGE record of exactly the writes whose number is a multiple of T + 1:
the first T writes append CHANGE records only, write T + 1 is the first one
preceded by a flush and its CHECKPOINT, and the pattern recurs every T + 1
writes. -/
theorem write_counter_step (H : Header) (G : GlobalConfiguration) (source : PageReadWriter)
    (journal : Option Bytes) (fuel : Nat) (s0 : CachedPageReadWriter) (pages : List Page)
    (hnew : CachedPageReadWriter.new H G source journal fuel = some (Except.ok s0))
    (hN : 0 < slots G)
    (hD : H.LOG_SEEK_DELIM_SIZE ≤ H.SIZEOF_SIZE_T + G.pageSize) :
    (∀ (u t : CachedPageReadWriter) (page : Page),
      CachedPageReadWriter.write H G u page = some t →
      ∃ f, (if u.m_writesCounter = H.CHECKPOINT_THRESHOLD then
              CachedPageReadWriter.flush H G { u with m_writesCounter := 0 }
            else some { u with m_writesCounter := u.m_writesCounter + 1 }) = some f
        ∧ ((∃ b, mapFind f.m_posInCache page.number = some b
              ∧ writeHit G (writeLog H G f page) page = some t)
          ∨ (mapFind f.m_posInCache page.number = none
              ∧ ∃ b s3, loadSlot G (writeLog H G f page) page.number = some (b, s3)
                ∧ writeHit G s3 page = some t)))
    ∧ ∃ s, run H G s0 (pages.map Op.write) = some s
      ∧ s.m_logFd.bytes = s0.m_logFd.bytes ++ (periodicRecords H G 0 pages).flatten
      ∧ s.m_writesCounter = pages.length % (H.CHECKPOINT_THRESHOLD + 1)
      ∧ s.m_source.calls.count StoreCall.flush
          = s0.m_source.calls.count StoreCall.flush
            + pages.length / (H.CHECKPOINT_THRESHOLD + 1)
      ∧ (pages.length ≤ H.CHECKPOINT_THRESHOLD →
          periodicRecords H G 0 pages = pages.map (changeRecord H G))
      ∧ (∀ (first : List Page) (last : Page) (rest : List Page),
          pages = first ++ last :: rest → first.length = H.CHECKPOINT_THRESHOLD →
          periodicRecords H G 0 pages
            = first.map (changeRecord H G)
              ++ stubRecord H G (LOG_ACTION_CHECKPOINT H) :: changeRecord H G last
                :: periodicRecords H G 0 rest)
      ∧ (s.m_writesCounter = H.CHECKPOINT_THRESHOLD →
          CachedPageReadWriter.flush H G { s with m_writesCounter := 0 }
            = some { s with
                m_writesCounter := 0
                m_source := s.m_source.flush
                m_logFd := writeLogStumb H G (sysWrite s.m_logFd (LOG_ACTION_CHECKPOINT H)) })
      ∧ (∀ page : Page, ∃ t, CachedPageReadWriter.write H G s page = some t
          ∧ t.m_writesCounter
              = (if s.m_writesCounter = H.CHECKPOINT_THRESHOLD then 0
                 else s.m_writesCounter + 1)
          ∧ t.m_logFd.bytes
              = s.m_logFd.bytes ++ (if s.m_writesCounter = H.CHECKPOINT_THRESHOLD then
                  stubRecord H G (LOG_ACTION_CHECKPOINT H) else []) ++ changeRecord H G page
          ∧ t.m_source.calls
              = s.m_source.calls
                ++ (if s.m_writesCounter = H.CHECKPOINT_THRESHOLD then [StoreCall.flush]
                    else [])
                ++ [StoreCall.write page.number (t.m_source.pages page.number)]
          ∧ t.m_source.unflushed
              = page.number :: (if s.m_writesCounter = H.CHECKPOINT_THRESHOLD then []
                                else s.m_source.unflushed)
          ∧ (page.data.length = G.pageSize →
              (t.m_source.pages page.number).take G.pageSize = page.data)) := by
  have hc0 : Consistent (slots G) s0 := new_consistent H G source journal fuel s0 hnew
  obtain ⟨hcl0, hsy0⟩ := new_clean_synced H G source journal fuel s0 hnew
  obtain ⟨heof0, hcnt0⟩ := new_journal_eof H G source journal fuel s0 hnew hD
  obtain ⟨s, r1, r2, r2c, r3, r4, r5, r6⟩ :=
    run_writes_period H G hN hD pages s0 0 hc0 hcl0 hsy0 heof0 (by rw [hcnt0, Nat.zero_mod])
  refine ⟨?_, s, r1, r4, by rw [r5, Nat.zero_add], ?_, ?_, ?_, ?_, ?_⟩
  · intro u t page hw
    obtain ⟨f, hf, hrest⟩ := write_some H G u t page hw
    unfold writeCount at hf
    exact ⟨f, hf, hrest⟩
  · rw [Nat.zero_div, Nat.add_zero, Nat.zero_add] at r6
    exact r6
  · intro hlen
    exact periodicRecords_below H G pages 0 (by omega)
  · intro first last rest e hlen
    rw [e]
    exact periodicRecords_block H G first last rest hlen
  · intro _
    have hc1 : Consistent (slots G) { s with m_writesCounter := 0 } := r2
    have hcl1 : Clean { s with m_writesCounter := 0 } := r2c
    exact flush_clean H G hc1 hcl1
  · intro page
    obtain ⟨t, ht⟩ := write_total H G r2 hN page
    obtain ⟨j1, _, j3⟩ := write_journal H G ht r3 hD
    obtain ⟨k1, k2⟩ := write_store_calls H G r2 r2c ht
    exact ⟨t, ht, j3, j1, k1, k2, fun hlen => write_pages H G r2 r2c ht hlen⟩

set_option maxRecDepth 100000 in
/-- C19 amended, on the example configuration (threshold 3): after the three
writes of pages 1, 2, 3 on the fresh cache the counter is 3 and the store has
received no flush; the next write resets the counter, sends the store its
flush before the write of page 4, and appends a CHECKPOINT record before its
CHANGE record. -/
theorem write_counter_step_witness :
    (CachedPageReadWriter.new exampleHeader exampleConf exampleStore none 0
        = some (Except.ok exampleFresh)
      ∧ 0 < slots exampleConf
      ∧ exampleHeader.LOG_SEEK_DELIM_SIZE ≤ exampleHeader.SIZEOF_SIZE_T + exampleConf.pageSize)
    ∧ ∃ s, run exampleHeader exampleConf exampleFresh
          (([⟨1, [1, 1, 1, 1]⟩, ⟨2, [2, 2, 2, 2]⟩, ⟨3, [3, 3, 3, 3]⟩] : List Page).map Op.write)
          = some s
      ∧ s.m_writesCounter = 3
      ∧ s.m_source.calls.count StoreCall.flush = 0
      ∧ ∃ t, CachedPageReadWriter.write exampleHeader exampleConf s ⟨4, [4, 4, 4, 4]⟩ = some t
        ∧ t.m_writesCounter = 0
        ∧ t.m_logFd.bytes = s.m_logFd.bytes
            ++ stubRecord exampleHeader exampleConf (LOG_ACTION_CHECKPOINT exampleHeader)
            ++ changeRecord exampleHeader exampleConf ⟨4, [4, 4, 4, 4]⟩
        ∧ t.m_source.calls = s.m_source.calls
            ++ [StoreCall.flush] ++ [StoreCall.write 4 (t.m_source.pages 4)]
        ∧ t.m_source.unflushed = [4] := by
  refine ⟨⟨example_new, by decide, by decide⟩, ?_⟩
  obtain ⟨_, s, hr, _, hcnt, hfl, _, _, _, hw⟩ :=
    write_counter_step exampleHeader exampleConf exampleStore none 0 exampleFresh
      [⟨1, [1, 1, 1, 1]⟩, ⟨2, [2, 2, 2, 2]⟩, ⟨3, [3, 3, 3, 3]⟩] example_new (by decide)
      (by decide)
  have h3 : s.m_writesCounter = 3 := by rw [hcnt]; rfl
  have h0 : s.m_source.calls.count StoreCall.flush = 0 := by rw [hfl]; rfl
  obtain ⟨t, ht, hc, hb, hcalls, hun, _⟩ := hw ⟨4, [4, 4, 4, 4]⟩
  have hT : s.m_writesCounter = exampleHeader.CHECKPOINT_THRESHOLD := h3
  rw [if_pos hT] at hc hb hcalls hun
  exact ⟨s, hr, h3, h0, t, ht, hc, hb, hcalls, hun⟩

/-! ## No dirty slot between calls -/

/-- C20. Clean between operations: in a state reached from construction by
reads, writes, flushes and deallocations, no slot has its dirty flag set and
every page held by a slot has the bytes the store holds for its number; so a
read (which returns when there is at least one slot) leaves the journal as it
is and sends the store no write, even when it evicts: the store receives
nothing, or the one read call of a miss, and its pages stay as they are; and
flush returns having sent the store its flush call only, no page write, and
having appended its CHECKPOINT record. -/
theorem clean_between_operations (H : Header) (G : GlobalConfiguration)
    (source : PageReadWriter) (journal : Option Bytes) (fuel : Nat)
    (s0 s : CachedPageReadWriter) (ops : List Op)
    (hnew : CachedPageReadWriter.new H G source journal fuel = some (Except.ok s0))
    (hrun : run H G s0 ops = some s) :
    (∀ i : Nat, s.m_isDirty[i]? ≠ some true)
    ∧ (∀ i, i < slots G → s.m_isDirty[i]? = some false)
    ∧ (∀ (i : Nat) (pg : Page), s.m_cache[i]? = some (some pg) →
        s.m_source.pages pg.number = pg.data)
    ∧ (0 < slots G → ∀ n, ∃ d t, CachedPageReadWriter.read G s n = some (d, t))
    ∧ (∀ (n : Nat) (d : Bytes) (t : CachedPageReadWriter),
        CachedPageReadWriter.read G s n = some (d, t) →
        t.m_logFd = s.m_logFd
        ∧ t.m_source.pages = s.m_source.pages
        ∧ t.m_source.unflushed = s.m_source.unflushed
        ∧ (t.m_source.calls = s.m_source.calls
            ∨ t.m_source.calls = s.m_source.calls ++ [StoreCall.read n])
        ∧ (∀ k data, StoreCall.write k data ∈ t.m_source.calls →
            StoreCall.write k data ∈ s.m_source.calls)
        ∧ (∀ i : Nat, t.m_isDirty[i]? ≠ some true))
    ∧ (∃ t, CachedPageReadWriter.flush H G s = some t
        ∧ t.m_source.calls = s.m_source.calls ++ [StoreCall.flush]
        ∧ t.m_source.pages = s.m_source.pages
        ∧ t.m_cache = s.m_cache ∧ t.m_isDirty = s.m_isDirty
        ∧ t.m_logFd = writeLogStumb H G (sysWrite s.m_logFd (LOG_ACTION_CHECKPOINT H))) := by
  have hc0 := new_consistent H G source journal fuel s0 hnew
  obtain ⟨hcl0, hsy0⟩ := new_clean_synced H G source journal fuel s0 hnew
  obtain ⟨hc, hcl, hsy⟩ := run_inv H G ops hc0 hcl0 hsy0 hrun
  obtain ⟨_, c2, _⟩ := (consistent_iff (slots G) s).mp hc
  refine ⟨hcl, ?_, hsy, fun hN n => read_total G hc hN n, ?_, ?_⟩
  · intro i hi
    have hil : i < s.m_isDirty.length := by rw [c2]; exact hi
    have hne := hcl i
    rw [List.getElem?_eq_getElem hil] at hne ⊢
    cases hb : s.m_isDirty[i] with
    | false => rfl
    | true => rw [hb] at hne; exact absurd rfl hne
  · intro n d t ht
    have hclt : Clean t :=
      (step_clean_synced H G (o := Op.read n) hc hcl hsy (by simp [step, ht])).1
    rcases read_cases G hc hcl ht with ⟨i, pg, _, _, _, _, rfl⟩ | ⟨b, hn, _, _, rfl⟩
    · exact ⟨rfl, rfl, rfl, Or.inl rfl, fun _ _ h => h, hclt⟩
    · refine ⟨rfl, rfl, rfl, Or.inr rfl, ?_, hclt⟩
      intro k data hmem
      have hmem2 : StoreCall.write k data ∈ s.m_source.calls ++ [StoreCall.read n] := hmem
      rcases List.mem_append.mp hmem2 with h | h
      · exact h
      · simp at h
  · refine ⟨_, flush_clean H G hc hcl, rfl, rfl, rfl, rfl, rfl⟩

set_option maxRecDepth 100000 in
/-- C20, at the example cache filled by write(1), write(2), read(1): read(3)
misses and evicts page 2, yet the journal and the pages of the store stay as
they are. -/
theorem clean_between_operations_witness :
    (CachedPageReadWriter.new exampleHeader exampleConf exampleStore none 0
        = some (Except.ok exampleFresh)
      ∧ run exampleHeader exampleConf exampleFresh exampleBefore
        = some (exampleAfter exampleBefore))
    ∧ mapFind (exampleAfter exampleBefore).m_posInCache 2 = some 0
    ∧ ∃ d t, CachedPageReadWriter.read exampleConf (exampleAfter exampleBefore) 3 = some (d, t)
        ∧ mapFind t.m_posInCache 2 = none
        ∧ t.m_logFd = (exampleAfter exampleBefore).m_logFd
        ∧ t.m_source.pages = (exampleAfter exampleBefore).m_source.pages := by
  have hrun : run exampleHeader exampleConf exampleFresh exampleBefore
      = some (exampleAfter exampleBefore) := example_run exampleBefore (by decide)
  obtain ⟨_, _, _, h4, h5, _⟩ :=
    clean_between_operations exampleHeader exampleConf exampleStore none 0 exampleFresh
      (exampleAfter exampleBefore) exampleBefore example_new hrun
  obtain ⟨d, t, ht⟩ := h4 (by decide) 3
  obtain ⟨hl, hp, _⟩ := h5 3 d t ht
  have hev : (CachedPageReadWriter.read exampleConf (exampleAfter exampleBefore) 3).map
      (fun r => mapFind r.2.m_posInCache 2) = some none := by decide
  rw [ht] at hev
  simp only [Option.map_some', Option.some.injEq] at hev
  exact ⟨⟨example_new, hrun⟩, by decide, d, t, ht, hev, hl, hp⟩

end TechnosphereDB
